import Mathlib

/-!
# Security and Compliance Center rule codec and schema builder

A shallow embedding of `ibm/service/scc/ibm_scc_utilities.go` and of the
target and import helpers and the lifecycle callbacks (Create, Read, Update,
Delete) of `ibm/service/scc/resource_ibm_scc_rule.go`.

* Go values of type `interface{}` are the inductive `GoVal`; a
  `map[string]interface{}` is an association list read by `GoMap.get`
  (an absent key reads as the nil interface) and written by `GoMap.set`.
* A Go call that returns `(value, error)` or stops in a runtime fault
  (failed type assertion, nil dereference, index out of range) is an `Outcome`.
* Go pointers are `Option`; a nil slice is `none`, an empty non-nil slice is `some []`.
* A lifecycle callback is a `Step`: it passes the resource data and the list of
  requests handed to the remote client, and ends in a return (with its
  diagnostics) or in a runtime fault. The remote client and `d.Set` are
  parameters (`Env`).
-/

set_option linter.unusedVariables false

namespace Scc

/-! ## Go runtime model -/

/-- Result of a Go call: a value beside a nil error, a non-nil error (its message;
every caller drops the value returned beside it), or a runtime fault. -/
inductive Outcome (α : Type) where
  | ok (v : α)
  | error (msg : String)
  | fault

namespace Outcome

/-- Sequencing of Go statements: the first error or fault ends the call. -/
def bind {α β : Type} : Outcome α → (α → Outcome β) → Outcome β
  | .ok v, f => f v
  | .error e, _ => .error e
  | .fault, _ => .fault

instance : Monad Outcome where
  pure := Outcome.ok
  bind := Outcome.bind

@[simp] theorem pure_def {α : Type} (v : α) : (pure v : Outcome α) = .ok v := rfl

@[simp] theorem ok_bind {α β : Type} (v : α) (f : α → Outcome β) :
    (Outcome.ok v >>= f) = f v := rfl

@[simp] theorem error_bind {α β : Type} (e : String) (f : α → Outcome β) :
    ((Outcome.error e : Outcome α) >>= f) = .error e := rfl

@[simp] theorem fault_bind {α β : Type} (f : α → Outcome β) :
    ((Outcome.fault : Outcome α) >>= f) = .fault := rfl

/-- The call did not return a non-nil error. -/
def NoError {α : Type} (o : Outcome α) : Prop := ∀ e, o ≠ .error e

end Outcome

/-- Go values of static type `interface{}` that the codec stores in or reads from
an attribute map. -/
inductive GoVal where
  /-- the nil interface -/
  | nil
  /-- a `string` -/
  | str (s : String)
  /-- a `*string`; `none` is the nil pointer -/
  | strPtr (p : Option String)
  /-- a `bool` -/
  | bool (b : Bool)
  /-- an `int` -/
  | int (n : Int)
  /-- a `[]string` -/
  | strs (xs : List String)
  /-- a `[]interface{}` -/
  | list (xs : List GoVal)
  /-- a `[]map[string]interface{}` -/
  | maps (xs : List (List (String × GoVal)))
  /-- a `map[string]interface{}` -/
  | map (m : List (String × GoVal))

/-- A `map[string]interface{}`. -/
abbrev GoMap := List (String × GoVal)

/-- Index expression `m[key]`: the nil interface when the key is absent. -/
def GoMap.get : GoMap → String → GoVal
  | [], _ => .nil
  | (k, v) :: rest, key => if k = key then v else GoMap.get rest key

/-- Assignment `m[key] = v`. -/
def GoMap.set : GoMap → String → GoVal → GoMap
  | [], key, v => [(key, v)]
  | (k, old) :: rest, key, v =>
    if k = key then (k, v) :: rest else (k, old) :: GoMap.set rest key v

/-- Comparison `v != nil` of an interface value: only the nil interface is nil
(a nil pointer stored in an interface is not). -/
def GoVal.notNil : GoVal → Bool
  | .nil => false
  | _ => true

/-- Type assertion `v.(string)`. -/
def GoVal.asString : GoVal → Outcome String
  | .str s => .ok s
  | _ => .fault

/-- Type assertion `v.([]interface{})`. -/
def GoVal.asList : GoVal → Outcome (List GoVal)
  | .list xs => .ok xs
  | _ => .fault

/-- Type assertion `v.(map[string]interface{})`. -/
def GoVal.asMap : GoVal → Outcome GoMap
  | .map m => .ok m
  | _ => .fault

/-- Index expression `xs[0]`. -/
def firstElem : List GoVal → Outcome GoVal
  | [] => .fault
  | x :: _ => .ok x

/-! ## Go string library -/

/-- Pieces of a character list between occurrences of `sep`. -/
def splitChars (sep : Char) : List Char → List (List Char)
  | [] => [[]]
  | c :: cs =>
    if c = sep then [] :: splitChars sep cs
    else
      match splitChars sep cs with
      | [] => [[c]]
      | p :: ps => (c :: p) :: ps

/-- Go `strings.Split(s, sep)` for a separator of one character: never empty,
`[""]` for the empty string. -/
def stringsSplit (s : String) (sep : Char) : List String :=
  (splitChars sep s.data).map String.mk

/-- Go `strings.Trim(s, cutset)`: drops every leading and every trailing
character that occurs in `cutset`. -/
def stringsTrim (s : String) (cutset : List Char) : String :=
  String.mk ((s.data.dropWhile (fun c => decide (c ∈ cutset))).reverse.dropWhile
    (fun c => decide (c ∈ cutset))).reverse

/-- Go `strings.Join(elems, sep)`. -/
def stringsJoin : List String → String → String
  | [], _ => ""
  | [x], _ => x
  | x :: y :: rest, sep => x ++ sep ++ stringsJoin (y :: rest) sep

/-! ## SDK data model (`securityandcompliancecenterapiv3`) -/

/-- Dynamic contents of `RequiredConfig.Value` (static type `interface{}`). -/
inductive RcValue where
  | str (s : String)
  | bool (b : Bool)
  | int (n : Int)
  /-- a `[]interface{}`, as the JSON decoder leaves a sequence -/
  | seq (xs : List RcValue)
  /-- a `[]string`, as `ibmSccRCMapToRequiredConfig` leaves a sequence -/
  | strs (xs : List String)

mutual
/-- Go `fmt.Sprint(v)` on the values modelled by `RcValue`. -/
def fmtSprint : RcValue → String
  | .str s => s
  | .bool b => if b then "true" else "false"
  | .int n => toString n
  | .seq xs => "[" ++ stringsJoin (fmtSprintEach xs) " " ++ "]"
  | .strs xs => "[" ++ stringsJoin xs " " ++ "]"
/-- Go `fmt.Sprint` of every element, in order. -/
def fmtSprintEach : List RcValue → List String
  | [] => []
  | x :: xs => fmtSprint x :: fmtSprintEach xs
end

mutual
/-- Storing an `RcValue` in an attribute map keeps its dynamic type. -/
def RcValue.toGo : RcValue → GoVal
  | .str s => .str s
  | .bool b => .bool b
  | .int n => .int n
  | .seq xs => .list (RcValue.toGoEach xs)
  | .strs xs => .strs xs
/-- Elementwise `RcValue.toGo`. -/
def RcValue.toGoEach : List RcValue → List GoVal
  | [] => []
  | x :: xs => RcValue.toGo x :: RcValue.toGoEach xs
end

/-- SDK struct `AdditionalTargetAttribute`. -/
structure AdditionalTargetAttribute where
  Name : Option String
  Operator : Option String
  Value : Option String

/-- SDK struct `Target`. -/
structure Target where
  ServiceName : Option String
  ServiceDisplayName : Option String
  ResourceKind : Option String
  AdditionalTargetAttributes : Option (List AdditionalTargetAttribute)
  ReferenceName : Option String

mutual
/-- SDK struct `RequiredConfig`. -/
inductive RequiredConfig where
  | mk (Description : Option String)
       (Or : Option (List RequiredConfigIntf))
       (And : Option (List RequiredConfigIntf))
       (Any : Option RequiredConfigSubRule)
       (AnyIf : Option RequiredConfigSubRule)
       (All : Option RequiredConfigSubRule)
       (AllIf : Option RequiredConfigSubRule)
       (Property : Option String)
       (Operator : Option String)
       (Value : Option RcValue)
/-- SDK interface `RequiredConfigIntf`: a `*RequiredConfig` (possibly the nil
pointer), or a value of any other dynamic type (the nil interface included),
given by its `%#v` rendering. -/
inductive RequiredConfigIntf where
  | base (p : Option RequiredConfig)
  | other (rendering : String)
/-- SDK struct `RequiredConfigSubRule`. -/
inductive RequiredConfigSubRule where
  | mk (Target : Option Target) (RequiredConfig : Option RequiredConfig)
end

namespace RequiredConfig
def Description : RequiredConfig → Option String
  | .mk d _ _ _ _ _ _ _ _ _ => d
def Or : RequiredConfig → Option (List RequiredConfigIntf)
  | .mk _ o _ _ _ _ _ _ _ _ => o
def And : RequiredConfig → Option (List RequiredConfigIntf)
  | .mk _ _ a _ _ _ _ _ _ _ => a
def Any : RequiredConfig → Option RequiredConfigSubRule
  | .mk _ _ _ x _ _ _ _ _ _ => x
def AnyIf : RequiredConfig → Option RequiredConfigSubRule
  | .mk _ _ _ _ x _ _ _ _ _ => x
def All : RequiredConfig → Option RequiredConfigSubRule
  | .mk _ _ _ _ _ x _ _ _ _ => x
def AllIf : RequiredConfig → Option RequiredConfigSubRule
  | .mk _ _ _ _ _ _ x _ _ _ => x
def Property : RequiredConfig → Option String
  | .mk _ _ _ _ _ _ _ p _ _ => p
def Operator : RequiredConfig → Option String
  | .mk _ _ _ _ _ _ _ _ o _ => o
def Value : RequiredConfig → Option RcValue
  | .mk _ _ _ _ _ _ _ _ _ v => v
end RequiredConfig

/-! ## Encoding: SDK model to attribute map -/

/-- Modelled from the spec: `dataSourceIbmSccRuleAdditionalTargetAttributeToMap`
is declared in a file of the package that is not part of the sources at hand;
the spec says additional target attributes are encoded element-wise with a
dedicated name/operator/value record, as
`resourceIbmSccRuleAdditionalTargetAttributeToMap` does. -/
def dataSourceIbmSccRuleAdditionalTargetAttributeToMap
    (model : AdditionalTargetAttribute) : Outcome GoMap :=
  let modelMap : GoMap := []
  let modelMap := match model.Name with
    | some s => GoMap.set modelMap "name" (.strPtr (some s))
    | none => modelMap
  let modelMap := match model.Operator with
    | some s => GoMap.set modelMap "operator" (.strPtr (some s))
    | none => modelMap
  let modelMap := match model.Value with
    | some s => GoMap.set modelMap "value" (.strPtr (some s))
    | none => modelMap
  .ok modelMap

/-- Loop of `ibmSccRuleTargetToMap` over `model.AdditionalTargetAttributes`. -/
def additionalTargetAttributesToMaps : List AdditionalTargetAttribute → Outcome (List GoMap)
  | [] => .ok []
  | item :: rest => do
    let itemMap ← dataSourceIbmSccRuleAdditionalTargetAttributeToMap item
    let restMaps ← additionalTargetAttributesToMaps rest
    pure (itemMap :: restMaps)

/-- Go `ibmSccRuleTargetToMap` (`ibm_scc_utilities.go`); a nil `model` faults at
its first field read. -/
def ibmSccRuleTargetToMap : Option Target → Outcome GoMap
  | none => .fault
  | some model => do
    let modelMap : GoMap := []
    let modelMap := GoMap.set modelMap "service_name" (.strPtr model.ServiceName)
    let modelMap := GoMap.set modelMap "resource_kind" (.strPtr model.ResourceKind)
    let modelMap := match model.ReferenceName with
      | some s => GoMap.set modelMap "reference_name" (.strPtr (some s))
      | none => modelMap
    let modelMap := match model.ServiceDisplayName with
      | some s => GoMap.set modelMap "service_display_name" (.strPtr (some s))
      | none => modelMap
    match model.AdditionalTargetAttributes with
    | some items => do
      let additionalTargetAttributes ← additionalTargetAttributesToMaps items
      pure (GoMap.set modelMap "additional_target_attributes" (.maps additionalTargetAttributes))
    | none => pure modelMap

/-- The guarded store `if p != nil { modelMap[key] = p }` of a `*string` field. -/
def setStringPtr (modelMap : GoMap) (key : String) : Option String → GoMap
  | some s => GoMap.set modelMap key (.strPtr (some s))
  | none => modelMap

/-- The `value` entry written by `ibmSccRuleRequiredConfigToMap`: a
`[]interface{}` becomes `"[" ++ strings.Join(sprinted, ",") ++ "]"`, any other
value is stored as it is. -/
def valueToMapEntry : RcValue → GoVal
  | .seq valList => .str ("[" ++ stringsJoin (fmtSprintEach valList) "," ++ "]")
  | v => v.toGo

/-- The `Value` block of `ibmSccRuleRequiredConfigToMap`: `if rc.Value != nil`. -/
def valueBlock (modelMap : GoMap) : Option RcValue → GoMap
  | some v => GoMap.set modelMap "value" (valueToMapEntry v)
  | none => modelMap

mutual
/-- Go `ibmSccRuleRequiredConfigToMap` (`ibm_scc_utilities.go`). -/
def ibmSccRuleRequiredConfigToMap : RequiredConfigIntf → Outcome GoMap
  | .other rendering =>
    .error ("Unrecognized securityandcompliancecenterapiv3.RequiredConfigIntf subtype encountered "
      ++ rendering)
  | .base rc => requiredConfigPtrToMap rc
/-- The branch of `ibmSccRuleRequiredConfigToMap` taken when the model is a
`*RequiredConfig`; the nil pointer faults at its first field read. The blocks
run in source order: description, `And`, `Or`, `All`, `AllIf`, `Any`, `AnyIf`,
property, operator, value. -/
def requiredConfigPtrToMap : Option RequiredConfig → Outcome GoMap
  | none => .fault
  | some (.mk description or and any anyIf all allIf property operator value) => do
    let modelMap : GoMap := []
    let modelMap := setStringPtr modelMap "description" description
    let modelMap ← childrenBlock modelMap "and" and
    let modelMap ← childrenBlock modelMap "or" or
    let modelMap ← subRuleBlock modelMap "all" all
    let modelMap ← subRuleBlock modelMap "all_if" allIf
    let modelMap ← subRuleBlock modelMap "any" any
    let modelMap ← subRuleBlock modelMap "any_if" anyIf
    let modelMap := setStringPtr modelMap "property" property
    let modelMap := setStringPtr modelMap "operator" operator
    let modelMap := valueBlock modelMap value
    pure modelMap
/-- The `And` block and the `Or` block: `if rc.And != nil`, every child is
encoded and the slice of child maps is stored under `key`. -/
def childrenBlock (modelMap : GoMap) (key : String) :
    Option (List RequiredConfigIntf) → Outcome GoMap
  | none => pure modelMap
  | some items => do
    let rcItems ← requiredConfigItemsToMaps items
    pure (GoMap.set modelMap key (.maps rcItems))
/-- Loop over the `And` (or the `Or`) children: the first child that fails ends
the call. -/
def requiredConfigItemsToMaps : List RequiredConfigIntf → Outcome (List GoMap)
  | [] => .ok []
  | rcItem :: rest => do
    let rcMap ← ibmSccRuleRequiredConfigToMap rcItem
    let restMaps ← requiredConfigItemsToMaps rest
    pure (rcMap :: restMaps)
/-- The `All`, `AllIf`, `Any` and `AnyIf` blocks (the same text four times):
`if rc.All != nil`, the one-element slice holding the sub-rule map is stored
under `key`. -/
def subRuleBlock (modelMap : GoMap) (key : String) :
    Option RequiredConfigSubRule → Outcome GoMap
  | none => pure modelMap
  | some sr => do
    let srMap ← subRuleToMap sr
    pure (GoMap.set modelMap key (.maps [srMap]))
/-- The sub-rule map `srMap` of those four blocks: target and required config,
each wrapped in a one-element `[]interface{}`. -/
def subRuleToMap : RequiredConfigSubRule → Outcome GoMap
  | .mk target requiredConfig => do
    let srMap : GoMap := []
    let subRuleTarget ← ibmSccRuleTargetToMap target
    let srMap := GoMap.set srMap "target" (.list [.map subRuleTarget])
    let subRuleConfig ← requiredConfigPtrToMap requiredConfig
    let srMap := GoMap.set srMap "required_config" (.list [.map subRuleConfig])
    pure srMap
end

/-! ## Decoding: attribute map to SDK model -/

/-- The guard `m[key] != nil && m[key].(string) != ""` followed by
`core.StringPtr(m[key].(string))`: the field stays nil for an absent or empty
entry, and an entry that is not a string faults. -/
def nonEmptyStringEntry (m : GoMap) (key : String) : Outcome (Option String) :=
  if (GoMap.get m key).notNil then do
    let s ← (GoMap.get m key).asString
    if s ≠ "" then pure (some s) else pure none
  else pure none

/-- Go `resourceIbmSccRuleMapToAdditionalTargetAttribute` (`resource_ibm_scc_rule.go`). -/
def resourceIbmSccRuleMapToAdditionalTargetAttribute (modelMap : GoMap) :
    Outcome AdditionalTargetAttribute := do
  let name ← nonEmptyStringEntry modelMap "name"
  let operator ← nonEmptyStringEntry modelMap "operator"
  let value ← nonEmptyStringEntry modelMap "value"
  pure ⟨name, operator, value⟩

/-- Loop of the target decoders over `modelMap["additional_target_attributes"]`. -/
def additionalTargetAttributesFromMaps : List GoVal → Outcome (List AdditionalTargetAttribute)
  | [] => .ok []
  | item :: rest => do
    let itemMap ← item.asMap
    let itemModel ← resourceIbmSccRuleMapToAdditionalTargetAttribute itemMap
    let restModels ← additionalTargetAttributesFromMaps rest
    pure (itemModel :: restModels)

/-- The `additional_target_attributes` block of the target decoders:
`if modelMap["additional_target_attributes"] != nil`, every element of the entry
read as `[]interface{}` is decoded, and the field is set to the slice of results. -/
def additionalTargetAttributesBlock (modelMap : GoMap) :
    Outcome (Option (List AdditionalTargetAttribute)) :=
  if (GoMap.get modelMap "additional_target_attributes").notNil then do
    let items ← (GoMap.get modelMap "additional_target_attributes").asList
    let models ← additionalTargetAttributesFromMaps items
    pure (some models)
  else pure none

/-- Go `ibmSccTargetMapToTarget` (`ibm_scc_utilities.go`). -/
def ibmSccTargetMapToTarget (modelMap : GoMap) : Outcome Target := do
  let serviceName ← (GoMap.get modelMap "service_name").asString
  let serviceDisplayName ← nonEmptyStringEntry modelMap "service_display_name"
  let referenceName ← nonEmptyStringEntry modelMap "reference_name"
  let resourceKind ← (GoMap.get modelMap "resource_kind").asString
  let additionalTargetAttributes ← additionalTargetAttributesBlock modelMap
  pure ⟨some serviceName, serviceDisplayName, some resourceKind, additionalTargetAttributes,
    referenceName⟩

/-- Go `resourceIbmSccRuleMapToTarget` (`resource_ibm_scc_rule.go`): it never
reads `reference_name`. -/
def resourceIbmSccRuleMapToTarget (modelMap : GoMap) : Outcome Target := do
  let serviceName ← (GoMap.get modelMap "service_name").asString
  let serviceDisplayName ← nonEmptyStringEntry modelMap "service_display_name"
  let resourceKind ← (GoMap.get modelMap "resource_kind").asString
  let additionalTargetAttributes ← additionalTargetAttributesBlock modelMap
  pure ⟨some serviceName, serviceDisplayName, some resourceKind, additionalTargetAttributes, none⟩

/-- Type assertion `rc.(*securityandcompliancecenterapiv3.RequiredConfig)`. -/
def RequiredConfigIntf.asRequiredConfig : RequiredConfigIntf → Outcome (Option RequiredConfig)
  | .base p => .ok p
  | .other _ => .fault

/-- The `value` field set by `ibmSccRCMapToRequiredConfig` from a non-empty
string: brackets trimmed, split on the comma; one part keeps the string as it
was given, several parts become a `[]string`. -/
def valueFromString (s : String) : RcValue :=
  let sLit := stringsTrim s ['[', ']']
  let sList := stringsSplit sLit ','
  if sList.length = 1 then .str s else .strs sList

/-- The `value` block of `ibmSccRCMapToRequiredConfig`. -/
def valueFromMapEntry (modelMap : GoMap) : Outcome (Option RcValue) :=
  if (GoMap.get modelMap "value").notNil then do
    let s ← (GoMap.get modelMap "value").asString
    if s.length > 0 then pure (some (valueFromString s)) else pure none
  else pure none

theorem GoMap.get_sizeOf_le (m : GoMap) (key : String) :
    sizeOf (GoMap.get m key) ≤ sizeOf m := by
  induction m with
  | nil => simp [GoMap.get]
  | cons kv rest ih =>
    obtain ⟨k, v⟩ := kv
    simp only [GoMap.get]
    split
    · simp; omega
    · simp; omega

mutual
/-- Go `ibmSccRCMapToRequiredConfig` (`ibm_scc_utilities.go`). Its blocks are
the definitions below, run in source order: description, `or`, `and`, `any`,
`any_if`, `all`, `all_if`, property, operator, value. -/
def ibmSccRCMapToRequiredConfig (modelMap : GoMap) : Outcome RequiredConfigIntf := do
  let description ← nonEmptyStringEntry modelMap "description"
  let or ← requiredConfigListBlock (GoMap.get modelMap "or")
  let and ← requiredConfigListBlock (GoMap.get modelMap "and")
  let any ← anyBlock (GoMap.get modelMap "any")
  let anyIf ← anyIfBlock (GoMap.get modelMap "any_if")
  let any ← allBlock (GoMap.get modelMap "all") any
  let any ← allBlock (GoMap.get modelMap "all_if") any
  let property ← nonEmptyStringEntry modelMap "property"
  let operator ← nonEmptyStringEntry modelMap "operator"
  let value ← valueFromMapEntry modelMap
  pure (.base (some (.mk description or and any anyIf none none property operator value)))
termination_by 2 * sizeOf modelMap + 1
decreasing_by
  all_goals simp_wf
  all_goals
    first
    | (have h := GoMap.get_sizeOf_le modelMap "or"; omega)
    | (have h := GoMap.get_sizeOf_le modelMap "and"; omega)
    | (have h := GoMap.get_sizeOf_le modelMap "any"; omega)
    | (have h := GoMap.get_sizeOf_le modelMap "any_if"; omega)
    | (have h := GoMap.get_sizeOf_le modelMap "all"; omega)
    | (have h := GoMap.get_sizeOf_le modelMap "all_if"; omega)
/-- The `or` block and the `and` block, on the entry `entry`:
`if entry != nil`, every element of `entry.([]interface{})` is decoded and
the field is set to the (possibly empty) slice of results. -/
def requiredConfigListBlock (entry : GoVal) : Outcome (Option (List RequiredConfigIntf)) :=
  match entry with
  | .nil => pure none
  | .list items => do
    let models ← requiredConfigItemsFromMaps items
    pure (some models)
  | _ => .fault
termination_by 2 * sizeOf entry
decreasing_by
  all_goals simp_wf
/-- Loop of the `or` and `and` blocks: `item.(map[string]interface{})` is
decoded and appended, in order. -/
def requiredConfigItemsFromMaps (items : List GoVal) : Outcome (List RequiredConfigIntf) :=
  match items with
  | [] => pure []
  | .map itemMap :: rest => do
    let itemModel ← ibmSccRCMapToRequiredConfig itemMap
    let restModels ← requiredConfigItemsFromMaps rest
    pure (itemModel :: restModels)
  | _ :: _ => .fault
termination_by 2 * sizeOf items
decreasing_by
  all_goals simp_wf
  all_goals omega
/-- The `any` block: `if anySM, ok := modelMap["any"].([]interface{}); ok && len(anySM) > 0`,
the sub-rule is read from `anySM[0].(map[string]interface{})` with `target` and
`required_config` asserted to be maps. -/
def anyBlock (entry : GoVal) : Outcome (Option RequiredConfigSubRule) :=
  match entry with
  | .list (.map anyCondition :: _) => do
    let anySubRule ← subRuleFromMapEntries anyCondition
    pure (some anySubRule)
  | .list (_ :: _) => .fault
  | _ => pure none
termination_by 2 * sizeOf entry
decreasing_by
  all_goals simp_wf
  all_goals omega
/-- The `any_if` block: as the `any` block, with `target` and `required_config`
each read as `.([]interface{})[0].(map[string]interface{})`. -/
def anyIfBlock (entry : GoVal) : Outcome (Option RequiredConfigSubRule) :=
  match entry with
  | .list (.map anyIfCondition :: _) => do
    let anyIfSubRule ← subRuleFromListEntries anyIfCondition
    pure (some anyIfSubRule)
  | .list (_ :: _) => .fault
  | _ => pure none
termination_by 2 * sizeOf entry
decreasing_by
  all_goals simp_wf
  all_goals omega
/-- The `all` block and the `all_if` block, on the entry `entry`:
`if entry != nil && len(entry.([]interface{})) > 0`, then
`anyCondition := entry.(map[string]interface{})`, the sub-rule is read from it
as in the `any` block, and it is assigned to `model.Any`. The result is the
new content of `model.Any`. -/
def allBlock (entry : GoVal) (any : Option RequiredConfigSubRule) :
    Outcome (Option RequiredConfigSubRule) :=
  if entry.notNil then do
    let entryList ← entry.asList
    if entryList.length > 0 then
      match entry with
      | .map anyCondition => do
        let allSubRule ← subRuleFromMapEntries anyCondition
        pure (some allSubRule)
      | _ => .fault
    else pure any
  else pure any
termination_by 2 * sizeOf entry
decreasing_by
  all_goals simp_wf
  all_goals omega
/-- Sub-rule read from a condition map whose `target` and `required_config`
entries are asserted to be maps (blocks `any`, `all`, `all_if`). -/
def subRuleFromMapEntries (condition : GoMap) : Outcome RequiredConfigSubRule := do
  let targetMap ← (GoMap.get condition "target").asMap
  let target ← ibmSccTargetMapToTarget targetMap
  let rc ← requiredConfigFromMapEntry (GoMap.get condition "required_config")
  let rc ← rc.asRequiredConfig
  pure (.mk (some target) rc)
termination_by 2 * sizeOf condition + 1
decreasing_by
  all_goals simp_wf
  all_goals (have h := GoMap.get_sizeOf_le condition "required_config"; omega)
/-- Sub-rule read from a condition map whose `target` and `required_config`
entries are asserted to be lists, of which the first element is asserted to be
a map (block `any_if`). -/
def subRuleFromListEntries (condition : GoMap) : Outcome RequiredConfigSubRule := do
  let targetList ← (GoMap.get condition "target").asList
  let targetFirst ← firstElem targetList
  let targetMap ← targetFirst.asMap
  let target ← ibmSccTargetMapToTarget targetMap
  let rc ← requiredConfigFromListEntry (GoMap.get condition "required_config")
  let rc ← rc.asRequiredConfig
  pure (.mk (some target) rc)
termination_by 2 * sizeOf condition + 1
decreasing_by
  all_goals simp_wf
  all_goals (have h := GoMap.get_sizeOf_le condition "required_config"; omega)
/-- Call `ibmSccRCMapToRequiredConfig(entry.(map[string]interface{}))`. -/
def requiredConfigFromMapEntry (entry : GoVal) : Outcome RequiredConfigIntf :=
  match entry with
  | .map rcMap => ibmSccRCMapToRequiredConfig rcMap
  | _ => .fault
termination_by 2 * sizeOf entry
decreasing_by
  all_goals simp_wf
  all_goals omega
/-- Call `ibmSccRCMapToRequiredConfig(entry.([]interface{})[0].(map[string]interface{}))`. -/
def requiredConfigFromListEntry (entry : GoVal) : Outcome RequiredConfigIntf :=
  match entry with
  | .list (.map rcMap :: _) => ibmSccRCMapToRequiredConfig rcMap
  | _ => .fault
termination_by 2 * sizeOf entry
decreasing_by
  all_goals simp_wf
  all_goals omega
end

/-! ## Schema builder -/

/-- Go `MAX_REQUIRED_CONFIG_DEPTH`. -/
def MAX_REQUIRED_CONFIG_DEPTH : Int := 5

/-- Go `a + b` on `int` (64 bits, two's complement): the sum wraps around. -/
def intAdd (a b : Int) : Int :=
  (a + b + 9223372036854775808) % 18446744073709551616 - 9223372036854775808

/-- Go `strings.ToLower` on ASCII letters. Go also folds the letters beyond
ASCII; what is proved about the diff-suppress functions uses only that both
values pass through the same function. -/
def stringsToLower (s : String) : String :=
  String.mk (s.data.map Char.toLower)

/-- The `schema.ValueType` constants the builder uses. -/
inductive ValueType where
  | TypeString
  | TypeList

/-- The fields of `schema.Schema` the builder sets. `elem` is the schema map of
the `*schema.Resource` element; `validateFunc` names the validator handed to
`validate.InvokeValidator`; an unset field has its zero value. -/
inductive Schema where
  | mk (valueType : ValueType) (optional : Bool) (required : Bool) (forceNew : Bool)
       (default : Option String) (description : String)
       (validateFunc : Option (String × String))
       (diffSuppressFunc : Option (String → String → Bool))
       (maxItems : Nat) (elem : Option (List (String × Schema)))

/-- A `map[string]*schema.Schema`, keys in the order the source writes them. -/
abbrev SchemaMap := List (String × Schema)

/-- The keys of a schema map. -/
def SchemaMap.keys (m : SchemaMap) : List String := m.map Prod.fst

/-- Index expression `m[key]` on a schema map. -/
def SchemaMap.get : SchemaMap → String → Option Schema
  | [], _ => none
  | (k, v) :: rest, key => if k = key then some v else SchemaMap.get rest key

/-- Assignment `m[key] = v` on a schema map. -/
def SchemaMap.set : SchemaMap → String → Schema → SchemaMap
  | [], key, v => [(key, v)]
  | (k, old) :: rest, key, v =>
    if k = key then (k, v) :: rest else (k, old) :: SchemaMap.set rest key v

/-- The element schema map of a list-typed schema. -/
def Schema.elem : Schema → Option SchemaMap
  | .mk _ _ _ _ _ _ _ _ _ e => e

/-- A `schema.TypeString` entry with only `Optional`/`Required` and a description. -/
def stringSchema (optional required : Bool) (description : String) : Schema :=
  .mk .TypeString optional required false none description none none 0 none

/-- A `schema.TypeList` entry whose `Elem` is a `*schema.Resource`. -/
def listSchema (optional required : Bool) (description : String) (maxItems : Nat)
    (elem : SchemaMap) : Schema :=
  .mk .TypeList optional required false none description none none maxItems (some elem)

/-- The `DiffSuppressFunc` of `service_display_name`: the difference is
suppressed when the new value is empty or both values are equal after
lower-casing. -/
def serviceDisplayNameDiffSuppress (oldVal newVal : String) : Bool :=
  if newVal = "" then true
  else if stringsToLower oldVal = stringsToLower newVal then true
  else false

/-- Go `getTargetSchema` (`ibm_scc_utilities.go`). -/
def getTargetSchema : SchemaMap :=
  [("service_name", stringSchema false true "The target service name."),
   ("service_display_name",
     .mk .TypeString true false false none "The display name of the target service." none
       (some serviceDisplayNameDiffSuppress) 0 none),
   ("reference_name", stringSchema true false "The target reference name"),
   ("resource_kind", stringSchema false true "The target resource kind."),
   ("additional_target_attributes",
     listSchema true false "The list of targets supported properties." 0
       [("name", stringSchema true false "The additional target attribute name."),
        ("operator", stringSchema true false "The operator."),
        ("value", stringSchema true false "The value.")])]

/-- The description shared by both entries of `getSubRuleSchema`. -/
def subRuleEntryDescription : String :=
  "The requirements that must be met to determine the resource's level of compliance in accordance with the rule. Use logical operators (and/or) to define multiple property checks and conditions. To define requirements for a rule, list one or more property check objects in the and array. To add conditions to a property check, use or."

/-- The map literal `baseMap` of `getRequiredConfigSchema`. -/
def requiredConfigBaseMap : SchemaMap :=
  [("description", stringSchema true false
      "The programmatic name of the IBM Cloud service that you want to target with the rule or template."),
   ("property", stringSchema true false
      "The name of the additional attribute that you want to use to further qualify the target.Options differ depending on the service or resource that you are targeting with a rule or template. For more information, refer to the service documentation."),
   ("value", .mk .TypeString true false false (some "")
      "The value that you want to apply to `value` field. Options differ depending on the rule or template that you configure. For more information, refer to the service documentation."
      none none 0 none),
   ("operator", .mk .TypeString true false false none
      "The way in which the `name` field is compared to its value.There are three types of operators: string, numeric, and boolean."
      (some ("ibm_scc_rule", "operator")) none 0 none)]

theorem intAdd_one_gt {d : Int} (h : ¬ d > MAX_REQUIRED_CONFIG_DEPTH) : d < intAdd d 1 := by
  simp only [MAX_REQUIRED_CONFIG_DEPTH] at h
  simp only [intAdd]
  omega

mutual
/-- Go `getRequiredConfigSchema` (`ibm_scc_utilities.go`). -/
def getRequiredConfigSchema (currentDepth : Int) : SchemaMap :=
  let baseMap := requiredConfigBaseMap
  if h : currentDepth > MAX_REQUIRED_CONFIG_DEPTH then baseMap
  else
    let baseMap := SchemaMap.set baseMap "and"
      (listSchema true false "A list of property conditions where all items need to be satisfied"
        0 (getRequiredConfigSchema (intAdd currentDepth 1)))
    let baseMap := SchemaMap.set baseMap "or"
      (listSchema true false "A list of property conditions where any item needs to be satisfied"
        0 (getRequiredConfigSchema (intAdd currentDepth 1)))
    let baseMap := SchemaMap.set baseMap "all"
      (listSchema true false "A condition with the SubRule all logical operator."
        0 (getSubRuleSchema (intAdd currentDepth 1)))
    let baseMap := SchemaMap.set baseMap "all_if"
      (listSchema true false "A condition with the SubRule all_ifexists logical operator."
        0 (getSubRuleSchema (intAdd currentDepth 1)))
    let baseMap := SchemaMap.set baseMap "any"
      (listSchema true false "A condition with the SubRule any logical operator."
        0 (getSubRuleSchema (intAdd currentDepth 1)))
    let baseMap := SchemaMap.set baseMap "any_if"
      (listSchema true false "A condition with the SubRule any_ifexists logical operator."
        0 (getSubRuleSchema (intAdd currentDepth 1)))
    baseMap
termination_by 2 * (6 - currentDepth).toNat + 1
decreasing_by
  all_goals simp_wf
  all_goals
    have h1 := intAdd_one_gt h
    simp only [MAX_REQUIRED_CONFIG_DEPTH] at h
    simp only [intAdd] at h1 ⊢
    omega
/-- Go `getSubRuleSchema` (`ibm_scc_utilities.go`). -/
def getSubRuleSchema (currentDepth : Int) : SchemaMap :=
  [("required_config",
     listSchema false true subRuleEntryDescription 1
       (getRequiredConfigSchema (intAdd currentDepth 1))),
   ("target", listSchema false true subRuleEntryDescription 1 getTargetSchema)]
termination_by 2 * (6 - intAdd currentDepth 1).toNat + 2
decreasing_by
  all_goals simp_wf
end

/-! ## The attribute map as the framework hands it back -/

mutual
/-- Least reading of a stored value as the plugin framework hands it back: a
present string pointer is its string, a `[]string` and every sequence of maps
is a generic list (`[]interface{}`), and nested maps and lists are read the
same way. Everything else is unchanged, and a key that was not stored stays
absent; the framework may also return such a key with the zero value of its
type, which is the freedom `HandedBackMap` leaves. -/
def readBack : GoVal → GoVal
  | .strPtr (some s) => .str s
  | .strs xs => .list (xs.map GoVal.str)
  | .list xs => .list (readBackList xs)
  | .maps xs => .list (readBackMaps xs)
  | .map m => .map (readBackMap m)
  | v => v
/-- Elementwise `readBack` of a generic list. -/
def readBackList : List GoVal → List GoVal
  | [] => []
  | x :: xs => readBack x :: readBackList xs
/-- Elementwise `readBack` of a sequence of maps, as a generic list. -/
def readBackMaps : List (List (String × GoVal)) → List GoVal
  | [] => []
  | m :: ms => .map (readBackMap m) :: readBackMaps ms
/-- Entrywise `readBack` of a map. -/
def readBackMap : List (String × GoVal) → List (String × GoVal)
  | [] => []
  | (k, v) :: rest => (k, readBack v) :: readBackMap rest
end

/-! ## Predicates on rule trees -/

/-- Guarded assignment: `m[key] = v` when a value is given, nothing otherwise. -/
def GoMap.setOpt (m : GoMap) (key : String) : Option GoVal → GoMap
  | none => m
  | some v => GoMap.set m key v

mutual
/-- Every node of the tree, the root and every node reached through `And` and
`Or` children, is a non-nil `*RequiredConfig` that satisfies `P`. -/
def RequiredConfigIntf.AllNodes (P : RequiredConfig → Prop) : RequiredConfigIntf → Prop
  | .base p => RequiredConfig.AllNodesPtr P p
  | .other _ => False
/-- `AllNodes` for a `*RequiredConfig`. -/
def RequiredConfig.AllNodesPtr (P : RequiredConfig → Prop) : Option RequiredConfig → Prop
  | none => False
  | some (.mk description or and any anyIf all allIf property operator value) =>
    P (.mk description or and any anyIf all allIf property operator value) ∧
    RequiredConfig.AllNodesChildren P or ∧ RequiredConfig.AllNodesChildren P and
/-- `AllNodes` for an `And` or `Or` field. -/
def RequiredConfig.AllNodesChildren (P : RequiredConfig → Prop) :
    Option (List RequiredConfigIntf) → Prop
  | none => True
  | some items => RequiredConfig.AllNodesItems P items
/-- `AllNodes` for every child of a list. -/
def RequiredConfig.AllNodesItems (P : RequiredConfig → Prop) :
    List RequiredConfigIntf → Prop
  | [] => True
  | item :: rest => RequiredConfigIntf.AllNodes P item ∧ RequiredConfig.AllNodesItems P rest
end

/-- The node has none of the quantified combinators `Any`, `AnyIf`, `All`, `AllIf`. -/
def RequiredConfig.NoSubRules (rc : RequiredConfig) : Prop :=
  rc.Any = none ∧ rc.AnyIf = none ∧ rc.All = none ∧ rc.AllIf = none

/-- Every present description, property and operator of the node is a non-empty
string, and a present value is a non-empty scalar string without a comma. -/
def RequiredConfig.PlainFields (rc : RequiredConfig) : Prop :=
  rc.Description ≠ some "" ∧ rc.Property ≠ some "" ∧ rc.Operator ≠ some "" ∧
  ∀ v, rc.Value = some v → ∃ s, v = .str s ∧ s ≠ "" ∧ ',' ∉ s.data

/-- A leaf whose description is present and empty. -/
def emptyDescriptionLeaf : RequiredConfigIntf :=
  .base (some (.mk (some "") none none none none none none (some "p") (some "o")
    (some (.str "v"))))

/-- A leaf whose value is a scalar string that holds a comma and no bracket. -/
def commaValueLeaf : RequiredConfigIntf :=
  .base (some (.mk none none none none none none none (some "p") (some "o")
    (some (.str "a,b"))))

/-- A leaf whose value is the generic sequence `["x"]`. -/
def singletonValueLeaf : RequiredConfigIntf :=
  .base (some (.mk none none none none none none none (some "p") (some "o")
    (some (.seq [.str "x"]))))

/-- A tree with `And` and `Or` children, an empty `Or` list below, and a
bracket-wrapped scalar value. -/
def sampleAndOrTree : RequiredConfigIntf :=
  .base (some (.mk (some "d")
    (some [.base (some (.mk none none none none none none none
      (some "q") (some "string_equals") (some (.str "[x]"))))])
    (some [.base (some (.mk none (some []) none none none none none
      (some "p") (some "is_true") none)),
      .base (some (.mk none none none none none none none
      (some "r") (some "num_equals") (some (.str "3"))))])
    none none none none none none none))

/-- An attribute map whose `all` entry is a one-element list holding a sub-rule
with a target and a required config, each as a one-element list. -/
def allEntryMap : GoMap :=
  [("all", .list [.map [
    ("target", .list [.map [("service_name", .str "s"), ("resource_kind", .str "k")]]),
    ("required_config", .list [.map [("property", .str "p"), ("operator", .str "o"),
      ("value", .str "v")]])]])]

/-- The same sub-rule under the `all_if` entry. -/
def allIfEntryMap : GoMap :=
  [("all_if", .list [.map [
    ("target", .list [.map [("service_name", .str "s"), ("resource_kind", .str "k")]]),
    ("required_config", .list [.map [("property", .str "p"), ("operator", .str "o"),
      ("value", .str "v")]])]])]

/-- A node whose only field is an `Any` sub-rule: a target with service name and
resource kind, and a leaf required config. -/
def anySubRuleNode : RequiredConfigIntf :=
  .base (some (.mk none none none
    (some (.mk (some ⟨some "s", none, some "k", none, none⟩)
      (some (.mk none none none none none none none (some "p") (some "o") (some (.str "v"))))))
    none none none none none none))

mutual
/-- Some node of the tree is not a `*RequiredConfig`: the node itself, or a node
reached through `And`/`Or` children and, when `viaSubRules` is set, also through
the required config of an `All`, `AllIf`, `Any` or `AnyIf` sub-rule. -/
def RequiredConfigIntf.HasOtherSubtype (viaSubRules : Bool) : RequiredConfigIntf → Prop
  | .other _ => True
  | .base p => RequiredConfig.HasOtherSubtypePtr viaSubRules p
/-- `HasOtherSubtype` below a `*RequiredConfig`. -/
def RequiredConfig.HasOtherSubtypePtr (viaSubRules : Bool) : Option RequiredConfig → Prop
  | none => False
  | some (.mk _ or and any anyIf all allIf _ _ _) =>
    RequiredConfig.HasOtherSubtypeChildren viaSubRules and ∨
    RequiredConfig.HasOtherSubtypeChildren viaSubRules or ∨
    (viaSubRules = true ∧
      (RequiredConfig.HasOtherSubtypeSubRule viaSubRules all ∨
       RequiredConfig.HasOtherSubtypeSubRule viaSubRules allIf ∨
       RequiredConfig.HasOtherSubtypeSubRule viaSubRules any ∨
       RequiredConfig.HasOtherSubtypeSubRule viaSubRules anyIf))
/-- `HasOtherSubtype` below an `And` or `Or` field. -/
def RequiredConfig.HasOtherSubtypeChildren (viaSubRules : Bool) :
    Option (List RequiredConfigIntf) → Prop
  | none => False
  | some items => RequiredConfig.HasOtherSubtypeItems viaSubRules items
/-- `HasOtherSubtype` for some child of a list. -/
def RequiredConfig.HasOtherSubtypeItems (viaSubRules : Bool) :
    List RequiredConfigIntf → Prop
  | [] => False
  | item :: rest =>
    RequiredConfigIntf.HasOtherSubtype viaSubRules item ∨
    RequiredConfig.HasOtherSubtypeItems viaSubRules rest
/-- `HasOtherSubtype` below the required config of a sub-rule. -/
def RequiredConfig.HasOtherSubtypeSubRule (viaSubRules : Bool) :
    Option RequiredConfigSubRule → Prop
  | none => False
  | some (.mk _ requiredConfig) => RequiredConfig.HasOtherSubtypePtr viaSubRules requiredConfig
end

mutual
/-- No pointer the encoder dereferences is nil: no child is a nil
`*RequiredConfig`, and every sub-rule has a non-nil target and a non-nil
required config, throughout the tree. -/
def RequiredConfigIntf.NoNilPointer : RequiredConfigIntf → Prop
  | .other _ => True
  | .base p => RequiredConfig.NoNilPointerPtr p
/-- `NoNilPointer` for a `*RequiredConfig`. -/
def RequiredConfig.NoNilPointerPtr : Option RequiredConfig → Prop
  | none => False
  | some (.mk _ or and any anyIf all allIf _ _ _) =>
    RequiredConfig.NoNilPointerChildren and ∧ RequiredConfig.NoNilPointerChildren or ∧
    RequiredConfig.NoNilPointerSubRule all ∧ RequiredConfig.NoNilPointerSubRule allIf ∧
    RequiredConfig.NoNilPointerSubRule any ∧ RequiredConfig.NoNilPointerSubRule anyIf
/-- `NoNilPointer` for an `And` or `Or` field. -/
def RequiredConfig.NoNilPointerChildren : Option (List RequiredConfigIntf) → Prop
  | none => True
  | some items => RequiredConfig.NoNilPointerItems items
/-- `NoNilPointer` for every child of a list. -/
def RequiredConfig.NoNilPointerItems : List RequiredConfigIntf → Prop
  | [] => True
  | item :: rest => RequiredConfigIntf.NoNilPointer item ∧ RequiredConfig.NoNilPointerItems rest
/-- `NoNilPointer` for a sub-rule field. -/
def RequiredConfig.NoNilPointerSubRule : Option RequiredConfigSubRule → Prop
  | none => True
  | some (.mk target requiredConfig) =>
    target ≠ none ∧ RequiredConfig.NoNilPointerPtr requiredConfig
end

/-- The message of the error returned for a model of another subtype. -/
def unrecognizedSubtype (rendering : String) : String :=
  "Unrecognized securityandcompliancecenterapiv3.RequiredConfigIntf subtype encountered "
    ++ rendering

/-- The call returns the unrecognized-subtype error when `H` holds, and a value
beside a nil error when it does not. -/
def ErrorsExactlyWhen {α : Type} (H : Prop) (o : Outcome α) : Prop :=
  (H → ∃ rendering, o = .error (unrecognizedSubtype rendering)) ∧ (¬H → ∃ v, o = .ok v)

/-- A base node whose `All` sub-rule has a required config with an `And` child
of another subtype. -/
def otherBelowAllNode : RequiredConfigIntf :=
  .base (some (.mk none none none none none
    (some (.mk (some ⟨some "s", none, some "k", none, none⟩)
      (some (.mk none none (some [.other "x"]) none none none none none none none))))
    none none none none))

/-- A base node whose `All` sub-rule has a target and a nil required config. -/
def nilConfigBelowAllNode : RequiredConfigIntf :=
  .base (some (.mk none none none none none
    (some (.mk (some ⟨some "s", none, some "k", none, none⟩) none))
    none none none none))

/-- A tree of base nodes with children and a sub-rule. -/
def sampleBaseTree : RequiredConfigIntf :=
  .base (some (.mk (some "d") none
    (some [.base (some (.mk none none none none none none none (some "p") (some "o")
      (some (.bool true))))])
    none none
    (some (.mk (some ⟨some "s", none, some "k", none, none⟩)
      (some (.mk none none none none none none none (some "q") (some "o") none))))
    none none none none))

/-! ## Target codec of the rule resource -/

/-- Go `resourceIbmSccRuleAdditionalTargetAttributeToMap` (`resource_ibm_scc_rule.go`). -/
def resourceIbmSccRuleAdditionalTargetAttributeToMap (model : AdditionalTargetAttribute) :
    Outcome GoMap :=
  let modelMap : GoMap := []
  let modelMap := setStringPtr modelMap "name" model.Name
  let modelMap := setStringPtr modelMap "operator" model.Operator
  let modelMap := setStringPtr modelMap "value" model.Value
  .ok modelMap

/-- Loop of `resourceIbmSccRuleTargetToMap` over `model.AdditionalTargetAttributes`. -/
def resourceAdditionalTargetAttributesToMaps :
    List AdditionalTargetAttribute → Outcome (List GoMap)
  | [] => .ok []
  | item :: rest => do
    let itemMap ← resourceIbmSccRuleAdditionalTargetAttributeToMap item
    let restMaps ← resourceAdditionalTargetAttributesToMaps rest
    pure (itemMap :: restMaps)

/-- The `AdditionalTargetAttributes` block of `resourceIbmSccRuleTargetToMap`. -/
def resourceAdditionalTargetAttributesBlock (modelMap : GoMap) :
    Option (List AdditionalTargetAttribute) → Outcome GoMap
  | none => pure modelMap
  | some items => do
    let additionalTargetAttributes ← resourceAdditionalTargetAttributesToMaps items
    pure (GoMap.set modelMap "additional_target_attributes" (.maps additionalTargetAttributes))

/-- Go `resourceIbmSccRuleTargetToMap` (`resource_ibm_scc_rule.go`); a nil `model`
faults at its first field read. It writes no `reference_name`. -/
def resourceIbmSccRuleTargetToMap : Option Target → Outcome GoMap
  | none => .fault
  | some model => do
    let modelMap : GoMap := []
    let modelMap := GoMap.set modelMap "service_name" (.strPtr model.ServiceName)
    let modelMap := setStringPtr modelMap "service_display_name" model.ServiceDisplayName
    let modelMap := GoMap.set modelMap "resource_kind" (.strPtr model.ResourceKind)
    resourceAdditionalTargetAttributesBlock modelMap model.AdditionalTargetAttributes

/-- Every present name, operator and value of the attribute is a non-empty string. -/
def AdditionalTargetAttribute.NonEmptyFields (a : AdditionalTargetAttribute) : Prop :=
  a.Name ≠ some "" ∧ a.Operator ≠ some "" ∧ a.Value ≠ some ""

/-- A target with service name and resource kind present whose display name and
additional attribute fields are each absent or non-empty. -/
def Target.WellFormed (t : Target) : Prop :=
  t.ServiceName ≠ none ∧ t.ResourceKind ≠ none ∧ t.ServiceDisplayName ≠ some "" ∧
  ∀ items, t.AdditionalTargetAttributes = some items → ∀ a ∈ items, a.NonEmptyFields

/-- A target that has a reference name. -/
def referenceNameTarget : Target :=
  ⟨some "s", none, some "k", none, some "r"⟩

/-- A target with a display name and two additional attributes. -/
def sampleTarget : Target :=
  ⟨some "s", some "Service", some "k",
    some [⟨some "location", some "string_equals", some "us-south"⟩, ⟨some "n", none, none⟩],
    none⟩

/-! ## Resource declaration -/

/-- A `*schema.Resource`, by its `Schema` field (`none` is the nil map); the
callbacks, importer and timeouts are not read by `AddSchemaData`. -/
structure Resource where
  Schema : Option SchemaMap

/-- Go `AddSchemaData` (`ibm_scc_utilities.go`): it assigns
`resource.Schema["instance_id"]` and returns the resource; assigning into a
nil map faults. -/
def AddSchemaData (resource : Resource) : Outcome Resource :=
  match resource.Schema with
  | none => .fault
  | some m =>
    .ok ⟨some (SchemaMap.set m "instance_id"
      (.mk .TypeString false true true none
        "The ID of the Security and Compliance Center instance." none none 0 none))⟩

/-- A resource that declares `description` only. -/
def descriptionOnlyResource : Resource :=
  ⟨some [("description", stringSchema false true "The details of a rule's response.")]⟩

/-! ## Import codec of the rule resource -/

/-- SDK struct `Parameter` (`Type_` is its field `Type`). -/
structure Parameter where
  Name : Option String
  DisplayName : Option String
  Description : Option String
  Type_ : Option String

/-- SDK struct `Import`. -/
structure Import where
  Parameters : Option (List Parameter)

/-- Go `resourceIbmSccRuleMapToParameter` (`resource_ibm_scc_rule.go`). -/
def resourceIbmSccRuleMapToParameter (modelMap : GoMap) : Outcome Parameter := do
  let name ← nonEmptyStringEntry modelMap "name"
  let displayName ← nonEmptyStringEntry modelMap "display_name"
  let description ← nonEmptyStringEntry modelMap "description"
  let type ← nonEmptyStringEntry modelMap "type"
  pure ⟨name, displayName, description, type⟩

/-- Loop of `resourceIbmSccRuleMapToImport` over `modelMap["parameters"]`. -/
def parametersFromMaps : List GoVal → Outcome (List Parameter)
  | [] => .ok []
  | item :: rest => do
    let itemMap ← item.asMap
    let itemModel ← resourceIbmSccRuleMapToParameter itemMap
    let restModels ← parametersFromMaps rest
    pure (itemModel :: restModels)

/-- Go `resourceIbmSccRuleMapToImport` (`resource_ibm_scc_rule.go`). -/
def resourceIbmSccRuleMapToImport (modelMap : GoMap) : Outcome Import :=
  if (GoMap.get modelMap "parameters").notNil then do
    let items ← (GoMap.get modelMap "parameters").asList
    let parameters ← parametersFromMaps items
    pure ⟨some parameters⟩
  else pure ⟨none⟩

/-- Go `resourceIbmSccRuleParameterToMap` (`resource_ibm_scc_rule.go`). -/
def resourceIbmSccRuleParameterToMap (model : Parameter) : Outcome GoMap :=
  let modelMap : GoMap := []
  let modelMap := setStringPtr modelMap "name" model.Name
  let modelMap := setStringPtr modelMap "display_name" model.DisplayName
  let modelMap := setStringPtr modelMap "description" model.Description
  let modelMap := setStringPtr modelMap "type" model.Type_
  .ok modelMap

/-- Loop of `resourceIbmSccRuleImportToMap` over `model.Parameters`. -/
def parametersToMaps : List Parameter → Outcome (List GoMap)
  | [] => .ok []
  | item :: rest => do
    let itemMap ← resourceIbmSccRuleParameterToMap item
    let restMaps ← parametersToMaps rest
    pure (itemMap :: restMaps)

/-- Go `resourceIbmSccRuleImportToMap` (`resource_ibm_scc_rule.go`); a nil
`model` faults at its first field read. -/
def resourceIbmSccRuleImportToMap : Option Import → Outcome GoMap
  | none => .fault
  | some model =>
    match model.Parameters with
    | none => .ok []
    | some items => do
      let parameters ← parametersToMaps items
      pure (GoMap.set [] "parameters" (.maps parameters))

/-! ## Resource lifecycle: state, remote collaborator, control flow -/

/-- A `*core.DetailedResponse`: status code, headers (canonical names), and
its `%s` rendering. -/
structure DetailedResponse where
  StatusCode : Int
  Headers : List (String × String)
  rendering : String

/-- Go `response.Headers.Get(key)`: the first value under the name, `""` when
there is none. -/
def headersGet : List (String × String) → String → String
  | [], _ => ""
  | (k, v) :: rest, key => if k = key then v else headersGet rest key

/-- The `%s` rendering of a `*core.DetailedResponse` in an error message. -/
def responseText : Option DetailedResponse → String
  | none => "<nil>"
  | some r => r.rendering

/-- SDK struct `Rule`, the fields the resource reads; `CreatedOn` and
`UpdatedOn` stand for the text `flex.DateTimeToString` gives for them, `Type_`
is the field `Type`. -/
structure Rule where
  ID : Option String
  Description : Option String
  Version : Option String
  Import : Option Import
  Target : Option Target
  RequiredConfig : RequiredConfigIntf
  Labels : Option (List String)
  CreatedOn : String
  CreatedBy : Option String
  UpdatedOn : String
  UpdatedBy : Option String
  AccountID : Option String
  Type_ : Option String

/-- SDK struct `GetRuleOptions`. -/
structure GetRuleOptions where
  InstanceID : Option String
  RuleID : Option String

/-- SDK struct `DeleteRuleOptions`. -/
structure DeleteRuleOptions where
  InstanceID : Option String
  RuleID : Option String

/-- SDK struct `ReplaceRuleOptions`. -/
structure ReplaceRuleOptions where
  InstanceID : Option String
  RuleID : Option String
  IfMatch : Option String
  Description : Option String
  Target : Option Target
  RequiredConfig : Option RequiredConfigIntf
  Version : Option String
  Import : Option Import
  Labels : Option (List String)

/-- SDK struct `CreateRuleOptions`. -/
structure CreateRuleOptions where
  InstanceID : Option String
  Description : Option String
  Target : Option Target
  RequiredConfig : Option RequiredConfigIntf
  Version : Option String
  Import : Option Import
  Labels : Option (List String)

/-- What a remote call returns: `(result, response, err)`. -/
structure RemoteResult (ρ : Type) where
  result : Option ρ
  response : Option DetailedResponse
  err : Option String

/-- A request handed to the remote client. -/
inductive RemoteCall where
  | createRule (options : CreateRuleOptions)
  | getRule (options : GetRuleOptions)
  | replaceRule (options : ReplaceRuleOptions)
  | deleteRule (options : DeleteRuleOptions)

/-- The collaborators of a lifecycle callback: the error of
`meta.(conns.ClientSession).SecurityAndComplianceCenterV3()` (if any), the
remote client's answers, and the error `d.Set(key, value)` returns (if any). -/
structure Env where
  clientErr : Option String
  CreateRuleWithContext : CreateRuleOptions → RemoteResult Rule
  GetRuleWithContext : GetRuleOptions → RemoteResult Rule
  ReplaceRuleWithContext : ReplaceRuleOptions → RemoteResult Rule
  DeleteRuleWithContext : DeleteRuleOptions → RemoteResult Unit
  setErr : String → GoVal → Option String

/-- A `*schema.ResourceData`: the ID, the values `d.Get` returns, and the keys
for which `d.HasChange` holds. -/
structure ResourceData where
  Id : String
  values : GoMap
  changed : List String

/-- Go `d.Get(key)` for a top-level key. -/
def ResourceData.Get (d : ResourceData) (key : String) : GoVal :=
  GoMap.get d.values key

/-- Go `d.Get(key + ".0")`: the first element of the list under `key`. -/
def ResourceData.GetFirst (d : ResourceData) (key : String) : GoVal :=
  match GoMap.get d.values key with
  | .list (x :: _) => x
  | _ => .nil

/-- Zero values of the framework's types. -/
def GoVal.isZero : GoVal → Bool
  | .nil => true
  | .str s => s = ""
  | .strPtr p => p.isNone
  | .bool b => !b
  | .int n => n = 0
  | .strs xs => xs.isEmpty
  | .list xs => xs.isEmpty
  | .maps xs => xs.isEmpty
  | .map m => m.isEmpty

/-- Second result of Go `d.GetOk(key)`: the key is set to a non-zero value. -/
def ResourceData.GetOk (d : ResourceData) (key : String) : Bool :=
  !(d.Get key).isZero

/-- Go `d.HasChange(key)`. -/
def ResourceData.HasChange (d : ResourceData) (key : String) : Bool :=
  decide (key ∈ d.changed)

/-- Go `d.SetId(id)`. -/
def ResourceData.SetId (d : ResourceData) (id : String) : ResourceData :=
  { d with Id := id }

/-- Effect of a successful Go `d.Set(key, value)`: the value is stored as the
framework hands it back. -/
def ResourceData.Set (d : ResourceData) (key : String) (value : GoVal) : ResourceData :=
  { d with values := GoMap.set d.values key (readBack value) }

/-- Modelled from the spec: `flex.SepIdParts` is declared in a package that is
not part of the sources at hand. The spec says the local identifier has the
form `<instance_id>/<rule_id>`, that `"abc/def"` parses to `"abc"` and `"def"`,
that `"abc"` (no separator) is a parse error, and that a wrong segment count is
a parse failure; the message of the error is left open. -/
def SepIdParts (id : String) (separator : Char) : Outcome (List String) :=
  if (stringsSplit id separator).length = 2 then .ok (stringsSplit id separator)
  else .error ("The given id " ++ id ++ " does not have the form <instance_id>/<rule_id>")

/-- Index expression `parts[i]` on a `[]string`. -/
def indexString : List String → Nat → Outcome String
  | [], _ => .fault
  | x :: _, 0 => .ok x
  | _ :: rest, i + 1 => indexString rest i

/-- Dereference of a pointer. -/
def deref {α : Type} : Option α → Outcome α
  | none => .fault
  | some v => .ok v

/-- The state of a running callback: the resource data and the requests handed
to the remote client so far, oldest first. -/
structure Run where
  state : ResourceData
  calls : List RemoteCall

/-- Where a statement of a callback leaves control: at the next statement
(with a value), at the return of the callback (with its diagnostics, `none`
for nil), or in a runtime fault. -/
inductive Flow (α : Type) where
  | next (v : α) (run : Run)
  | ret (diags : Option String) (run : Run)
  | fault

/-- A statement of a lifecycle callback. -/
def Step (α : Type) : Type := Run → Flow α

/-- Sequencing of statements: a return or a fault ends the callback. -/
def Step.bind {α β : Type} (x : Step α) (f : α → Step β) : Step β :=
  fun run =>
    match x run with
    | .next v run1 => f v run1
    | .ret diags run1 => .ret diags run1
    | .fault => .fault

instance : Monad Step where
  pure := fun v run => .next v run
  bind := Step.bind

/-- Statement `return diags`. -/
def Step.ret {α : Type} (diags : Option String) : Step α :=
  fun run => .ret diags run

/-- A call `v, err := f(...)` followed by `if err != nil { return diag.FromErr(err) }`. -/
def Step.lift {α : Type} : Outcome α → Step α
  | .ok v => fun run => .next v run
  | .error e => fun run => .ret (some e) run
  | .fault => fun _ => .fault

/-- The current resource data. -/
def Step.data : Step ResourceData :=
  fun run => .next run.state run

/-- A change of the resource data. -/
def Step.modify (f : ResourceData → ResourceData) : Step Unit :=
  fun run => .next () { run with state := f run.state }

/-- Handing a request to the remote client. -/
def Step.call (c : RemoteCall) : Step Unit :=
  fun run => .next () { run with calls := run.calls ++ [c] }

/-- Statement `if c { s }`. -/
def Step.when (c : Bool) (s : Step Unit) : Step Unit :=
  if c then s else pure ()

/-- Statement `if err = d.Set(key, value); err != nil { return diag.FromErr(fmt.Errorf("Error setting <label>: %s", err)) }`. -/
def setField (env : Env) (key : String) (value : GoVal) (label : String) : Step Unit :=
  match env.setErr key value with
  | some err => Step.ret (some ("Error setting " ++ label ++ ": " ++ err))
  | none => Step.modify fun d => d.Set key value

/-- Statements `client, err := meta.(conns.ClientSession).SecurityAndComplianceCenterV3()`
and `if err != nil { return diag.FromErr(err) }`. -/
def clientSession (env : Env) : Step Unit :=
  match env.clientErr with
  | some err => Step.ret (some err)
  | none => pure ()
/-! ## Resource lifecycle: the callbacks -/

/-- Condition `response != nil && response.StatusCode == 404`. -/
def isNotFound : Option DetailedResponse → Bool
  | some r => decide (r.StatusCode = 404)
  | none => false

/-- The branch `if err != nil` after `GetRuleWithContext` in `resourceIbmSccRuleRead`. -/
def readFailure (err : String) (response : Option DetailedResponse) : Step Unit :=
  if isNotFound response then do
    Step.modify fun d => d.SetId ""
    Step.ret none
  else
    Step.ret (some ("GetRuleWithContext failed " ++ err ++ "\n" ++ responseText response))

/-- The `Import` block of `resourceIbmSccRuleRead` (taken when `rule.Import` is not nil). -/
def readImport (env : Env) (importVar : Option Import) : Step Unit := do
  let importVarMap ← Step.lift (resourceIbmSccRuleImportToMap importVar)
  setField env "import" (.maps [importVarMap]) "import"

/-- The statements of `resourceIbmSccRuleRead` from `d.Set("description", ...)`
to the final `return nil`. -/
def readRuleFields (env : Env) (rule : Rule) : Step Unit := do
  setField env "description" (.strPtr rule.Description) "description"
  Step.when rule.Version.isSome (setField env "version" (.strPtr rule.Version) "version")
  Step.when rule.Import.isSome (readImport env rule.Import)
  let targetMap ← Step.lift (resourceIbmSccRuleTargetToMap rule.Target)
  setField env "target" (.maps [targetMap]) "target"
  let requiredConfigMap ← Step.lift (ibmSccRuleRequiredConfigToMap rule.RequiredConfig)
  setField env "required_config" (.maps [requiredConfigMap]) "required_config"
  Step.when rule.Labels.isSome (setField env "labels" (.strs (rule.Labels.getD [])) "labels")
  setField env "created_on" (.str rule.CreatedOn) "created_on"
  setField env "created_by" (.strPtr rule.CreatedBy) "created_by"
  setField env "updated_on" (.str rule.UpdatedOn) "updated_on"
  setField env "updated_by" (.strPtr rule.UpdatedBy) "updated_by"
  setField env "account_id" (.strPtr rule.AccountID) "account_id"
  setField env "type" (.strPtr rule.Type_) "type"
  Step.ret none

/-- The statements of `resourceIbmSccRuleRead` after a `GetRuleWithContext`
that returned no error. The second `d.Set` reports its error under the label
`instance_id`, as the source does; `response` and `rule` are dereferenced
where the source first reads a field of them. -/
def readSuccess (env : Env) (instanceID ruleID : String) (rule : Option Rule)
    (response : Option DetailedResponse) : Step Unit := do
  setField env "instance_id" (.str instanceID) "instance_id"
  setField env "rule_id" (.str ruleID) "instance_id"
  let response ← Step.lift (deref response)
  setField env "etag" (.str (headersGet response.Headers "ETag")) "etag"
  let rule ← Step.lift (deref rule)
  readRuleFields env rule

/-- The statements of `resourceIbmSccRuleRead` after `GetRuleWithContext`. -/
def readAfterGet (env : Env) (instanceID ruleID : String) (res : RemoteResult Rule) :
    Step Unit :=
  match res.err with
  | some err => readFailure err res.response
  | none => readSuccess env instanceID ruleID res.result res.response

/-- Go `resourceIbmSccRuleRead` (`resource_ibm_scc_rule.go`); logging is left out. -/
def resourceIbmSccRuleRead (env : Env) : Step Unit := do
  clientSession env
  let d ← Step.data
  let parts ← Step.lift (SepIdParts d.Id '/')
  let instanceID ← Step.lift (indexString parts 0)
  let ruleID ← Step.lift (indexString parts 1)
  Step.call (.getRule ⟨some instanceID, some ruleID⟩)
  readAfterGet env instanceID ruleID (env.GetRuleWithContext ⟨some instanceID, some ruleID⟩)

/-- Loop `for _, v := range d.Get("labels").([]interface{}) { labels = append(labels, v.(string)) }`. -/
def labelsFromList : List GoVal → Outcome (List String)
  | [] => .ok []
  | v :: rest => do
    let labelsItem ← v.asString
    let restLabels ← labelsFromList rest
    pure (labelsItem :: restLabels)

/-- The block `if d.HasChange("description") || d.HasChange("target") || d.HasChange("required_config")`
of `resourceIbmSccRuleUpdate`, on the request built so far and the flag `hasChange`. -/
def updateBaseBlock (d : ResourceData) (options : ReplaceRuleOptions) (hasChange : Bool) :
    Outcome (ReplaceRuleOptions × Bool) :=
  if d.HasChange "description" || d.HasChange "target" || d.HasChange "required_config" then do
    let description ← (d.Get "description").asString
    let targetMap ← (d.GetFirst "target").asMap
    let target ← resourceIbmSccRuleMapToTarget targetMap
    let requiredConfigMap ← (d.GetFirst "required_config").asMap
    let requiredConfig ← ibmSccRCMapToRequiredConfig requiredConfigMap
    pure (⟨options.InstanceID, options.RuleID, options.IfMatch, some description, some target,
      some requiredConfig, options.Version, options.Import, options.Labels⟩, true)
  else pure (options, hasChange)

/-- The block `if d.HasChange("version")` of `resourceIbmSccRuleUpdate`. -/
def updateVersionBlock (d : ResourceData) (options : ReplaceRuleOptions) (hasChange : Bool) :
    Outcome (ReplaceRuleOptions × Bool) :=
  if d.HasChange "version" then do
    let version ← (d.Get "version").asString
    pure ({ options with Version := some version }, true)
  else pure (options, hasChange)

/-- The block `if d.HasChange("import")` of `resourceIbmSccRuleUpdate`. -/
def updateImportBlock (d : ResourceData) (options : ReplaceRuleOptions) (hasChange : Bool) :
    Outcome (ReplaceRuleOptions × Bool) :=
  if d.HasChange "import" then do
    let importMap ← (d.GetFirst "import").asMap
    let importVar ← resourceIbmSccRuleMapToImport importMap
    pure ({ options with Import := some importVar }, true)
  else pure (options, hasChange)

/-- The block `if d.HasChange("labels")` of `resourceIbmSccRuleUpdate`. -/
def updateLabelsBlock (d : ResourceData) (hasChange : Bool) : Bool :=
  if d.HasChange "labels" then true else hasChange

/-- The block `if _, ok := d.GetOk("labels"); ok` inside `if hasChange`. -/
def replaceLabelsBlock (d : ResourceData) (options : ReplaceRuleOptions) :
    Outcome ReplaceRuleOptions :=
  if d.GetOk "labels" then do
    let labelsList ← (d.Get "labels").asList
    let labels ← labelsFromList labelsList
    pure { options with Labels := some labels }
  else pure options

/-- The block `if _, ok := d.GetOk("import"); ok` inside `if hasChange`. -/
def replaceImportBlock (d : ResourceData) (options : ReplaceRuleOptions) :
    Outcome ReplaceRuleOptions :=
  if d.GetOk "import" then do
    let importMap ← (d.GetFirst "import").asMap
    let importVar ← resourceIbmSccRuleMapToImport importMap
    pure { options with Import := some importVar }
  else pure options

/-- The statements after `ReplaceRuleWithContext` inside `if hasChange`. -/
def afterReplace (res : RemoteResult Rule) : Step Unit :=
  match res.err with
  | some err =>
    Step.ret (some ("ReplaceRuleWithContext failed " ++ err ++ "\n" ++ responseText res.response))
  | none => pure ()

/-- The block `if hasChange` of `resourceIbmSccRuleUpdate`. -/
def submitReplace (env : Env) (d : ResourceData) (options : ReplaceRuleOptions) :
    Step Unit := do
  let options ← Step.lift (replaceLabelsBlock d options)
  let options ← Step.lift (replaceImportBlock d options)
  Step.call (.replaceRule options)
  afterReplace (env.ReplaceRuleWithContext options)

/-- The statements of `resourceIbmSccRuleUpdate` from `SetInstanceID` to the
block `if d.HasChange("labels")`: the request built so far and the flag
`hasChange`. -/
def updateRequest (d : ResourceData) (instanceID ruleID : String) :
    Outcome (ReplaceRuleOptions × Bool) := do
  let etag ← (d.Get "etag").asString
  let st ← updateBaseBlock d
    ⟨some instanceID, some ruleID, some etag, none, none, none, none, none, none⟩ false
  let st ← updateVersionBlock d st.1 st.2
  let st ← updateImportBlock d st.1 st.2
  pure (st.1, updateLabelsBlock d st.2)

/-- The statements of `resourceIbmSccRuleUpdate` after the ID is parsed. -/
def updateWithParts (env : Env) (d : ResourceData) (instanceID ruleID : String) :
    Step Unit := do
  let request ← Step.lift (updateRequest d instanceID ruleID)
  Step.when request.2 (submitReplace env d request.1)
  resourceIbmSccRuleRead env

/-- Go `resourceIbmSccRuleUpdate` (`resource_ibm_scc_rule.go`); logging is left out. -/
def resourceIbmSccRuleUpdate (env : Env) : Step Unit := do
  clientSession env
  let d ← Step.data
  let parts ← Step.lift (SepIdParts d.Id '/')
  let instanceID ← Step.lift (indexString parts 0)
  let ruleID ← Step.lift (indexString parts 1)
  updateWithParts env d instanceID ruleID

/-- The block `if _, ok := d.GetOk("version"); ok` of `resourceIbmSccRuleCreate`. -/
def createVersionBlock (d : ResourceData) (options : CreateRuleOptions) :
    Outcome CreateRuleOptions :=
  if d.GetOk "version" then do
    let version ← (d.Get "version").asString
    pure { options with Version := some version }
  else pure options

/-- The block `if _, ok := d.GetOk("import"); ok` of `resourceIbmSccRuleCreate`. -/
def createImportBlock (d : ResourceData) (options : CreateRuleOptions) :
    Outcome CreateRuleOptions :=
  if d.GetOk "import" then do
    let importMap ← (d.GetFirst "import").asMap
    let importVar ← resourceIbmSccRuleMapToImport importMap
    pure { options with Import := some importVar }
  else pure options

/-- The block `if _, ok := d.GetOk("labels"); ok` of `resourceIbmSccRuleCreate`. -/
def createLabelsBlock (d : ResourceData) (options : CreateRuleOptions) :
    Outcome CreateRuleOptions :=
  if d.GetOk "labels" then do
    let labelsList ← (d.Get "labels").asList
    let labels ← labelsFromList labelsList
    pure { options with Labels := some labels }
  else pure options

/-- The request `resourceIbmSccRuleCreate` builds from the resource data, and
its local `instance_id`. -/
def createOptions (d : ResourceData) : Outcome (CreateRuleOptions × String) := do
  let description ← (d.Get "description").asString
  let targetMap ← (d.GetFirst "target").asMap
  let targetModel ← resourceIbmSccRuleMapToTarget targetMap
  let requiredConfigMap ← (d.GetFirst "required_config").asMap
  let requiredConfigModel ← ibmSccRCMapToRequiredConfig requiredConfigMap
  let options ← createVersionBlock d
    ⟨none, some description, some targetModel, some requiredConfigModel, none, none, none⟩
  let options ← createImportBlock d options
  let options ← createLabelsBlock d options
  let instance_id ← (d.Get "instance_id").asString
  pure ({ options with InstanceID := some instance_id }, instance_id)

/-- The statements of `resourceIbmSccRuleCreate` after `CreateRuleWithContext`. -/
def createAfterCall (env : Env) (instance_id : String) (res : RemoteResult Rule) :
    Step Unit :=
  match res.err with
  | some err =>
    Step.ret (some ("CreateRuleWithContext failed " ++ err ++ "\n" ++ responseText res.response))
  | none => do
    let rule ← Step.lift (deref res.result)
    let ruleID ← Step.lift (deref rule.ID)
    Step.modify fun d => d.SetId (instance_id ++ "/" ++ ruleID)
    resourceIbmSccRuleRead env

/-- Go `resourceIbmSccRuleCreate` (`resource_ibm_scc_rule.go`); logging and
printing are left out. -/
def resourceIbmSccRuleCreate (env : Env) : Step Unit := do
  clientSession env
  let d ← Step.data
  let request ← Step.lift (createOptions d)
  Step.call (.createRule request.1)
  createAfterCall env request.2 (env.CreateRuleWithContext request.1)

/-- The statements of `resourceIbmSccRuleDelete` after `DeleteRuleWithContext`. -/
def deleteAfterCall (res : RemoteResult Unit) : Step Unit :=
  match res.err with
  | some err =>
    Step.ret (some ("DeleteRuleWithContext failed " ++ err ++ "\n" ++ responseText res.response))
  | none => do
    Step.modify fun d => d.SetId ""
    Step.ret none

/-- Go `resourceIbmSccRuleDelete` (`resource_ibm_scc_rule.go`); logging is left out. -/
def resourceIbmSccRuleDelete (env : Env) : Step Unit := do
  clientSession env
  let d ← Step.data
  let parts ← Step.lift (SepIdParts d.Id '/')
  let instanceID ← Step.lift (indexString parts 0)
  let ruleID ← Step.lift (indexString parts 1)
  Step.call (.deleteRule ⟨some instanceID, some ruleID⟩)
  deleteAfterCall (env.DeleteRuleWithContext ⟨some instanceID, some ruleID⟩)

/-! ## Resource lifecycle: properties and samples -/

/-- Every way a statement hands control on (to the next statement or to the
caller) relates the run before it to the run after it by `R`. -/
def Step.Preserves {α : Type} (R : Run → Run → Prop) (s : Step α) : Prop :=
  ∀ run, match s run with
    | .next _ run1 => R run run1
    | .ret _ run1 => R run run1
    | .fault => True

/-- The value stored under `key` is the same in both runs. -/
def KeepsKey (key : String) (run run1 : Run) : Prop :=
  run1.state.Get key = run.state.Get key

/-- No request was handed to the remote client between the two runs. -/
def SameCalls (run run1 : Run) : Prop :=
  run1.calls = run.calls

/-- The three identity fields `resourceIbmSccRuleRead` writes first. -/
def IdentityFields (instanceID ruleID etag : String) (d : ResourceData) : Prop :=
  d.Get "instance_id" = .str instanceID ∧ d.Get "rule_id" = .str ruleID ∧
    d.Get "etag" = .str etag

/-- A remote client whose `GetRule` fails with status 404. -/
def notFoundEnv : Env :=
  ⟨none, fun _ => ⟨none, none, some "unused"⟩,
    fun _ => ⟨none, some ⟨404, [], "not found"⟩, some "rule not found"⟩,
    fun _ => ⟨none, none, some "unused"⟩, fun _ => ⟨none, none, some "unused"⟩, fun _ _ => none⟩

/-- A resource state with ID `abc/def` and a stored description. -/
def storedState : ResourceData :=
  ⟨"abc/def", [("description", .str "old"), ("etag", .str "e1")], []⟩

/-- A rule as the remote service returns it. -/
def sampleRule : Rule :=
  ⟨some "def", some "desc", some "1.0.0", none, some sampleTarget,
    .base (some ⟨some "leaf", none, none, none, none, none, none, some "p", some "is_true", none⟩),
    some ["l1"], "2024-01-01T00:00:00.000Z", some "creator", "2024-01-02T00:00:00.000Z",
    some "updater", some "account", some "user_defined"⟩

/-- A remote client that answers every request with `sampleRule` and the
header `ETag: e2`. -/
def sampleEnv : Env :=
  ⟨none, fun _ => ⟨some sampleRule, some ⟨201, [("ETag", "e2")], "created"⟩, none⟩,
    fun _ => ⟨some sampleRule, some ⟨200, [("ETag", "e2")], "ok"⟩, none⟩,
    fun _ => ⟨some sampleRule, some ⟨200, [("ETag", "e3")], "ok"⟩, none⟩,
    fun _ => ⟨none, some ⟨204, [], "deleted"⟩, none⟩, fun _ _ => none⟩

/-- A resource state before creation: no ID yet, the configured values set. -/
def plannedState : ResourceData :=
  ⟨"", [("instance_id", .str "abc"), ("description", .str "desc"),
    ("target", .list [.map [("service_name", .str "s"), ("resource_kind", .str "k")]]),
    ("required_config", .list [.map [("property", .str "p"), ("operator", .str "is_true")]])],
    []⟩

/-- A resource state whose ID has no separator. -/
def malformedIdState : ResourceData :=
  ⟨"abc", [("etag", .str "e1")], []⟩

/-- The required config the sample states configure. -/
def plannedRequiredConfig : RequiredConfigIntf :=
  .base (some ⟨none, none, none, none, none, none, none, some "p", some "is_true", none⟩)

/-- The request `resourceIbmSccRuleCreate` builds on `plannedState`. -/
def plannedOptions : CreateRuleOptions :=
  ⟨some "abc", some "desc", some ⟨some "s", none, some "k", none, none⟩,
    some plannedRequiredConfig, none, none, none⟩

/-- Condition "one of description, target, required_config, version, import or
labels has changed". -/
def trackedChange (d : ResourceData) : Bool :=
  d.HasChange "description" || d.HasChange "target" || d.HasChange "required_config" ||
    d.HasChange "version" || d.HasChange "import" || d.HasChange "labels"

/-- The requests handed to the client between the two runs are `GetRule` requests. -/
def OnlyGetRuleAdded (run run1 : Run) : Prop :=
  ∃ added, run1.calls = run.calls ++ added ∧ ∀ c ∈ added, ∃ options, c = .getRule options

/-- The request names the instance, the rule and the concurrency token. -/
def ReplaceRuleOptions.Addresses (options : ReplaceRuleOptions)
    (instanceID ruleID etag : String) : Prop :=
  options.InstanceID = some instanceID ∧ options.RuleID = some ruleID ∧
    options.IfMatch = some etag

/-- A stored rule whose configured `version` has changed, and nothing else. -/
def versionChangedState : ResourceData :=
  ⟨"abc/def", [("instance_id", .str "abc"), ("rule_id", .str "def"), ("etag", .str "e1"),
    ("description", .str "desc"), ("version", .str "1.0.1"),
    ("target", .list [.map [("service_name", .str "s"), ("resource_kind", .str "k")]]),
    ("required_config", .list [.map [("property", .str "p"), ("operator", .str "is_true")]])],
    ["version"]⟩

/-- The request `resourceIbmSccRuleUpdate` submits on `versionChangedState`. -/
def versionOnlyOptions : ReplaceRuleOptions :=
  ⟨some "abc", some "def", some "e1", none, none, none, some "1.0.1", none, none⟩

/-! ## Samples and predicates for the decoders -/

/-- An attribute map with a description and an `all` entry that is a non-empty list. -/
def allListMap : GoMap :=
  [("description", .str "d"), ("all", .list [.map [("target", .map [])]]),
    ("property", .str "p")]

/-- An entry that is absent or a string. -/
def GoVal.IsNilOrString (v : GoVal) : Prop :=
  v = .nil ∨ ∃ s, v = .str s

/-- A leaf attribute map with an empty description and no value. -/
def leafMap : GoMap :=
  [("description", .str ""), ("property", .str "p"), ("operator", .str "is_true")]

/-- The items of an `additional_target_attributes` entry are maps whose `name`,
`operator` and `value` entries are each absent or a string. -/
def WellTypedAttributeItems : List GoVal → Prop
  | [] => True
  | .map item :: rest =>
    (GoMap.get item "name").IsNilOrString ∧ (GoMap.get item "operator").IsNilOrString ∧
      (GoMap.get item "value").IsNilOrString ∧ WellTypedAttributeItems rest
  | _ :: _ => False

/-- The optional entries of a target map have the types its schema gives them:
the display name and the reference name are absent or strings, and the
additional attributes are absent or a list of well-typed maps. -/
def WellTypedOptionalEntries (m : GoMap) : Prop :=
  (GoMap.get m "service_display_name").IsNilOrString ∧
  (GoMap.get m "reference_name").IsNilOrString ∧
  (GoMap.get m "additional_target_attributes" = .nil ∨
    ∃ items, GoMap.get m "additional_target_attributes" = .list items ∧
      WellTypedAttributeItems items)

/-- A target map whose required entries are empty strings. -/
def emptyNamesTargetMap : GoMap :=
  [("service_name", .str ""), ("resource_kind", .str ""),
    ("additional_target_attributes", .list [.map [("name", .str "n")]])]

/-- A target map without a `resource_kind` entry. -/
def noResourceKindTargetMap : GoMap :=
  [("service_name", .str "s"), ("service_display_name", .str "Service")]

/-- A remote client whose `GetRule` fails with status 500. -/
def serverErrorEnv : Env :=
  ⟨none, fun _ => ⟨none, none, some "unused"⟩,
    fun _ => ⟨none, some ⟨500, [], "internal error"⟩, some "server error"⟩,
    fun _ => ⟨none, none, some "unused"⟩, fun _ => ⟨none, none, some "unused"⟩, fun _ _ => none⟩

/-- The `DiffSuppressFunc` field of a schema. -/
def Schema.diffSuppressFunc : Schema → Option (String → String → Bool)
  | .mk _ _ _ _ _ _ _ f _ _ => f

/-- The `DiffSuppressFunc` literal of `target.service_display_name` in
`ResourceIbmSccRule` (`resource_ibm_scc_rule.go`). -/
def ruleServiceDisplayNameDiffSuppress (oldVal newVal : String) : Bool :=
  if newVal = "" then true
  else if stringsToLower oldVal = stringsToLower newVal then true
  else false

/-- The element schema of `target` in `ResourceIbmSccRule`
(`resource_ibm_scc_rule.go`). -/
def ruleTargetSchema : SchemaMap :=
  [("service_name", stringSchema false true "The target service name."),
   ("service_display_name",
     .mk .TypeString true false false none "The display name of the target service." none
       (some ruleServiceDisplayNameDiffSuppress) 0 none),
   ("resource_kind", stringSchema false true "The target resource kind."),
   ("additional_target_attributes",
     listSchema true false "The list of targets supported properties." 0
       [("name", stringSchema true false "The additional target attribute name."),
        ("operator", stringSchema true false "The operator."),
        ("value", stringSchema true false "The value.")])]

/-- The `DiffSuppressFunc` a schema map stores under a key. -/
def SchemaMap.diffSuppressOf (m : SchemaMap) (key : String) :
    Option (String → String → Bool) :=
  match SchemaMap.get m key with
  | some s => s.diffSuppressFunc
  | none => none

/-- The element schema map one level below `key` (`none` when the key is absent
or its schema has no element schema). -/
def SchemaMap.below (m : SchemaMap) (key : String) : Option SchemaMap :=
  match SchemaMap.get m key with
  | some s => s.elem
  | none => none

/-- The schema map reached by descending through the keys of `path` in turn. -/
def SchemaMap.follow : SchemaMap → List String → Option SchemaMap
  | m, [] => some m
  | m, key :: rest =>
    match SchemaMap.below m key with
    | some m1 => SchemaMap.follow m1 rest
    | none => none

/-! ## What the decoder is handed -/

/-- The keys under which the schemas of the rule declare a list. -/
def listKeys : List String :=
  ["and", "or", "all", "all_if", "any", "any_if", "target", "required_config",
    "additional_target_attributes"]

/-- What the framework may hand back under a key that was not stored: nothing,
or the zero value of the key's declared type (the empty list for a list key,
the empty string for a string key). -/
def zeroRead (key : String) (got : GoVal) : Prop :=
  got = .nil ∨ (key ∈ listKeys ∧ got = .list []) ∨ (key ∉ listKeys ∧ got = .str "")

/-- Every key the stored map lacks is read as nothing or as its zero value. -/
def ZeroElsewhere (stored : GoMap) (got : GoMap) : Prop :=
  ∀ key, GoMap.get stored key = .nil → zeroRead key (GoMap.get got key)

mutual
/-- The value `got` is a way the framework may hand the stored value back to a
decoder: a string or a non-nil string pointer as that string, a nil string
pointer as nothing or the empty string, a `[]string` as the generic list of its
strings, a sequence of maps and a generic list as a generic list read element by
element, a map as a map in which every stored entry is read in this way and
every other key is nothing or its zero value. No reading is given for a stored
nil, bool or int. -/
def HandedBack : GoVal → GoVal → Prop
  | .str s, got => got = .str s
  | .strPtr (some s), got => got = .str s
  | .strPtr none, got => got = .nil ∨ got = .str ""
  | .strs xs, got => got = .list (xs.map GoVal.str)
  | .list xs, got => ∃ gs, got = .list gs ∧ HandedBackList xs gs
  | .maps ms, got => ∃ gs, got = .list gs ∧ HandedBackMaps ms gs
  | .map m, got => ∃ gm, got = .map gm ∧ HandedBackEntries m gm ∧ ZeroElsewhere m gm
  | .nil, _ => False
  | .bool _, _ => False
  | .int _, _ => False
/-- Elementwise `HandedBack` of a generic list. -/
def HandedBackList : List GoVal → List GoVal → Prop
  | [], gs => gs = []
  | x :: xs, gs => ∃ g rest, gs = g :: rest ∧ HandedBack x g ∧ HandedBackList xs rest
/-- Elementwise `HandedBack` of a sequence of maps, as a generic list of maps. -/
def HandedBackMaps : List (List (String × GoVal)) → List GoVal → Prop
  | [], gs => gs = []
  | m :: ms, gs => ∃ gm rest, gs = .map gm :: rest ∧ HandedBackEntries m gm ∧
      ZeroElsewhere m gm ∧ HandedBackMaps ms rest
/-- Every stored entry is read, under its key, in a way the framework may hand
it back. -/
def HandedBackEntries : List (String × GoVal) → List (String × GoVal) → Prop
  | [], _ => True
  | (k, v) :: rest, gm => HandedBack v (GoMap.get gm k) ∧ HandedBackEntries rest gm
end

/-- The map `got` is a way the framework may hand the stored map back: every
stored entry is handed back, every other key is nothing or its zero value. -/
def HandedBackMap (stored got : GoMap) : Prop :=
  HandedBackEntries stored got ∧ ZeroElsewhere stored got

/-- Two attribute slices that differ at most in that the first is nil and the
second is empty. -/
def SameAttributes : Option (List AdditionalTargetAttribute) →
    Option (List AdditionalTargetAttribute) → Prop
  | none, none => True
  | none, some items => items = []
  | some items, some items1 => items = items1
  | some _, none => False

/-- Two targets that differ at most in that the additional attributes of the
first are nil and those of the second are an empty slice. -/
def Target.SameUpToEmpty (t t1 : Target) : Prop :=
  t.ServiceName = t1.ServiceName ∧ t.ServiceDisplayName = t1.ServiceDisplayName ∧
  t.ResourceKind = t1.ResourceKind ∧ t.ReferenceName = t1.ReferenceName ∧
  SameAttributes t.AdditionalTargetAttributes t1.AdditionalTargetAttributes

mutual
/-- Two trees that differ at most in that an `And` or `Or` field (or the
additional attributes of a sub-rule target) is nil in the first and an empty
slice in the second; children correspond one to one, in order. -/
def RequiredConfigIntf.SameUpToEmpty : RequiredConfigIntf → RequiredConfigIntf → Prop
  | .base p, .base q => RequiredConfig.SameUpToEmptyPtr p q
  | .other r, .other s => r = s
  | .base _, .other _ => False
  | .other _, .base _ => False
/-- `SameUpToEmpty` for a `*RequiredConfig`. -/
def RequiredConfig.SameUpToEmptyPtr : Option RequiredConfig → Option RequiredConfig → Prop
  | none, none => True
  | none, some _ => False
  | some _, none => False
  | some (.mk d or and any anyIf all allIf p o v),
    some (.mk d1 or1 and1 any1 anyIf1 all1 allIf1 p1 o1 v1) =>
    d = d1 ∧ RequiredConfig.SameChildren or or1 ∧ RequiredConfig.SameChildren and and1 ∧
    RequiredConfig.SameSubRule any any1 ∧ RequiredConfig.SameSubRule anyIf anyIf1 ∧
    RequiredConfig.SameSubRule all all1 ∧ RequiredConfig.SameSubRule allIf allIf1 ∧
    p = p1 ∧ o = o1 ∧ v = v1
/-- `SameUpToEmpty` for an `And` or `Or` field: a nil field against nil or an
empty slice, a non-nil field against a slice of as many children, in order. -/
def RequiredConfig.SameChildren :
    Option (List RequiredConfigIntf) → Option (List RequiredConfigIntf) → Prop
  | none, none => True
  | none, some items => items = []
  | some _, none => False
  | some items, some items1 => RequiredConfig.SameItems items items1
/-- `SameUpToEmpty` child by child. -/
def RequiredConfig.SameItems : List RequiredConfigIntf → List RequiredConfigIntf → Prop
  | [], [] => True
  | [], _ :: _ => False
  | _ :: _, [] => False
  | item :: rest, item1 :: rest1 =>
    RequiredConfigIntf.SameUpToEmpty item item1 ∧ RequiredConfig.SameItems rest rest1
/-- `SameUpToEmpty` for a sub-rule field. -/
def RequiredConfig.SameSubRule :
    Option RequiredConfigSubRule → Option RequiredConfigSubRule → Prop
  | none, none => True
  | none, some _ => False
  | some _, none => False
  | some (.mk target requiredConfig), some (.mk target1 requiredConfig1) =>
    (match target, target1 with
      | none, none => True
      | some t, some t1 => t.SameUpToEmpty t1
      | _, _ => False) ∧
    RequiredConfig.SameUpToEmptyPtr requiredConfig requiredConfig1
end

/-- The map the framework hands back for a node of the required-config schema
within the depth bound: every declared key with its value, or its zero value. -/
def zeroFilledNode (description property operator value : String) (and or : List GoVal) :
    GoMap :=
  [("description", .str description), ("property", .str property), ("value", .str value),
    ("operator", .str operator), ("and", .list and), ("or", .list or), ("all", .list []),
    ("all_if", .list []), ("any", .list []), ("any_if", .list [])]

/-- The zero-filled map for `sampleAndOrTree`. -/
def sampleAndOrZeroFilled : GoMap :=
  zeroFilledNode "d" "" "" ""
    [.map (zeroFilledNode "" "p" "is_true" "" [] []),
     .map (zeroFilledNode "" "r" "num_equals" "3" [] [])]
    [.map (zeroFilledNode "" "q" "string_equals" "[x]" [] [])]

/-- A leaf with a property, an operator and a scalar value. -/
def plainLeaf : RequiredConfigIntf :=
  .base (some (.mk none none none none none none none (some "p") (some "o") (some (.str "v"))))

/-- The map `ibmSccRuleRequiredConfigToMap` makes of `sampleAndOrTree`. -/
def sampleAndOrStored : GoMap :=
  [("description", .strPtr (some "d")),
   ("and", .maps [
     [("or", .maps []), ("property", .strPtr (some "p")), ("operator", .strPtr (some "is_true"))],
     [("property", .strPtr (some "r")), ("operator", .strPtr (some "num_equals")),
       ("value", .str "3")]]),
   ("or", .maps [
     [("property", .strPtr (some "q")), ("operator", .strPtr (some "string_equals")),
       ("value", .str "[x]")]])]

/-- A node whose only field is an `And` list holding `plainLeaf`. -/
def andChildTree : RequiredConfigIntf :=
  .base (some (.mk none none (some [plainLeaf]) none none none none none none none))

/-- The zero-filled map the framework hands back for `referenceNameTarget`
under the target schema of the rule resource. -/
def referenceNameZeroFilled : GoMap :=
  [("service_name", .str "s"), ("service_display_name", .str ""), ("resource_kind", .str "k"),
    ("additional_target_attributes", .list [])]

/-- The map `resourceIbmSccRuleTargetToMap` makes of `sampleTarget`. -/
def sampleTargetStored : GoMap :=
  [("service_name", .strPtr (some "s")), ("service_display_name", .strPtr (some "Service")),
    ("resource_kind", .strPtr (some "k")),
    ("additional_target_attributes", .maps [
      [("name", .strPtr (some "location")), ("operator", .strPtr (some "string_equals")),
        ("value", .strPtr (some "us-south"))],
      [("name", .strPtr (some "n"))]])]

/-- The zero-filled map the framework hands back for `sampleTarget`. -/
def sampleTargetZeroFilled : GoMap :=
  [("service_name", .str "s"), ("service_display_name", .str "Service"),
    ("resource_kind", .str "k"),
    ("additional_target_attributes", .list [
      .map [("name", .str "location"), ("operator", .str "string_equals"),
        ("value", .str "us-south")],
      .map [("name", .str "n"), ("operator", .str ""), ("value", .str "")]])]

/-- The target of the sample sub-rules: service name and resource kind only. -/
def subRuleTarget : Target :=
  ⟨some "s", none, some "k", none, none⟩

/-- The required config of the sample sub-rules: a leaf. -/
def subRuleLeaf : RequiredConfig :=
  .mk none none none none none none none (some "p") (some "o") (some (.str "v"))

/-- A node whose only field is an `AnyIf` sub-rule. -/
def anyIfNode : RequiredConfigIntf :=
  .base (some (.mk none none none none (some (.mk (some subRuleTarget) (some subRuleLeaf)))
    none none none none none))

/-- A node with the same sub-rule under `Any` and under `AnyIf`. -/
def anyAndAnyIfNode : RequiredConfigIntf :=
  .base (some (.mk none none none (some (.mk (some subRuleTarget) (some subRuleLeaf)))
    (some (.mk (some subRuleTarget) (some subRuleLeaf))) none none none none none))

/-- A node whose `AnyIf` sub-rule has a target with a present, empty display name. -/
def emptyDisplayAnyIfNode : RequiredConfigIntf :=
  .base (some (.mk none none none none
    (some (.mk (some ⟨some "s", some "", some "k", none, none⟩) (some subRuleLeaf)))
    none none none none none))

/-- The map `ibmSccRuleTargetToMap` makes of `subRuleTarget`. -/
def subRuleTargetStored : GoMap :=
  [("service_name", .strPtr (some "s")), ("resource_kind", .strPtr (some "k"))]

/-- The map `ibmSccRuleRequiredConfigToMap` makes of `subRuleLeaf`. -/
def subRuleLeafStored : GoMap :=
  [("property", .strPtr (some "p")), ("operator", .strPtr (some "o")), ("value", .str "v")]

/-- The sub-rule map the encoder stores for the sample sub-rule. -/
def subRuleStored : GoMap :=
  [("target", .list [.map subRuleTargetStored]),
    ("required_config", .list [.map subRuleLeafStored])]

/-- The zero-filled map the framework hands back for the sample sub-rule. -/
def subRuleZeroFilled : GoMap :=
  [("required_config", .list [.map (zeroFilledNode "" "p" "o" "v" [] [])]),
    ("target", .list [.map [("service_name", .str "s"), ("service_display_name", .str ""),
      ("reference_name", .str ""), ("resource_kind", .str "k"),
      ("additional_target_attributes", .list [])]])]

/-- The zero-filled map the framework hands back for a node without fields of
its own and the given `any` and `any_if` entries. -/
def zeroFilledRule (any anyIf : List GoVal) : GoMap :=
  [("description", .str ""), ("property", .str ""), ("value", .str ""), ("operator", .str ""),
    ("and", .list []), ("or", .list []), ("all", .list []), ("all_if", .list []),
    ("any", .list any), ("any_if", .list anyIf)]

/-! ## Basic facts -/

theorem Outcome.bind_eq_ok {α β : Type} {x : Outcome α} {f : α → Outcome β} {b : β}
    (h : (x >>= f) = .ok b) : ∃ a, x = .ok a ∧ f a = .ok b := by
  cases x with
  | ok a => exact ⟨a, rfl, h⟩
  | error e => cases h
  | fault => cases h

theorem GoMap.get_set_same (m : GoMap) (key : String) (v : GoVal) :
    GoMap.get (GoMap.set m key v) key = v := by
  induction m with
  | nil => simp [GoMap.set, GoMap.get]
  | cons kv rest ih =>
    obtain ⟨k, old⟩ := kv
    by_cases hk : k = key
    · simp [GoMap.set, GoMap.get, hk]
    · simp [GoMap.set, GoMap.get, hk, ih]

theorem GoMap.get_set_other (m : GoMap) {key key1 : String} (v : GoVal) (hne : key ≠ key1) :
    GoMap.get (GoMap.set m key v) key1 = GoMap.get m key1 := by
  induction m with
  | nil => simp [GoMap.set, GoMap.get, hne]
  | cons kv rest ih =>
    obtain ⟨k, old⟩ := kv
    by_cases hk : k = key
    · subst hk
      simp [GoMap.set, GoMap.get, hne]
    · by_cases hk1 : k = key1
      · subst hk1
        simp [GoMap.set, GoMap.get, hk]
      · simp [GoMap.set, GoMap.get, hk, hk1, ih]

theorem get_readBackMap (m : GoMap) (key : String) :
    GoMap.get (readBackMap m) key = readBack (GoMap.get m key) := by
  induction m with
  | nil => simp [readBackMap, GoMap.get, readBack]
  | cons kv rest ih =>
    obtain ⟨k, v⟩ := kv
    by_cases hk : k = key
    · simp [readBackMap, GoMap.get, hk]
    · simp [readBackMap, GoMap.get, hk, ih]

theorem get_valueBlock_some (m : GoMap) (v : RcValue) :
    GoMap.get (valueBlock m (some v)) "value" = valueToMapEntry v := by
  simp [valueBlock, GoMap.get_set_same]

/-- The map returned by the encoder is the result of its last block, the
value block. -/
theorem requiredConfigPtrToMap_ok_value {description : Option String}
    {or and : Option (List RequiredConfigIntf)} {any anyIf all allIf : Option RequiredConfigSubRule}
    {property operator : Option String} {value : Option RcValue} {m : GoMap}
    (h : requiredConfigPtrToMap
      (some (.mk description or and any anyIf all allIf property operator value)) = .ok m) :
    ∃ m0, m = valueBlock m0 value := by
  simp only [requiredConfigPtrToMap] at h
  obtain ⟨m1, -, h⟩ := Outcome.bind_eq_ok h
  obtain ⟨m2, -, h⟩ := Outcome.bind_eq_ok h
  obtain ⟨m3, -, h⟩ := Outcome.bind_eq_ok h
  obtain ⟨m4, -, h⟩ := Outcome.bind_eq_ok h
  obtain ⟨m5, -, h⟩ := Outcome.bind_eq_ok h
  obtain ⟨m6, -, h⟩ := Outcome.bind_eq_ok h
  simp only [Outcome.pure_def, Outcome.ok.injEq] at h
  exact ⟨_, h.symm⟩

theorem splitChars_of_not_mem (sep : Char) (l : List Char) (h : sep ∉ l) :
    splitChars sep l = [l] := by
  induction l with
  | nil => rfl
  | cons c cs ih =>
    have hc : c ≠ sep := fun e => h (by simp [e])
    have hcs : sep ∉ cs := fun e => h (by simp [e])
    simp [splitChars, hc, ih hcs]

theorem mem_of_mem_stringsTrim {s : String} {cutset : List Char} {c : Char}
    (h : c ∈ (stringsTrim s cutset).data) : c ∈ s.data := by
  simp only [stringsTrim, List.mem_reverse] at h
  have h1 := (List.dropWhile_sublist (fun c => decide (c ∈ cutset))).subset h
  rw [List.mem_reverse] at h1
  exact (List.dropWhile_sublist (fun c => decide (c ∈ cutset))).subset h1

/-- A string without a comma is kept as the scalar it is, brackets included. -/
theorem valueFromString_of_no_comma (s : String) (h : ',' ∉ s.data) :
    valueFromString s = .str s := by
  have h1 : ',' ∉ (stringsTrim s ['[', ']']).data := fun e => h (mem_of_mem_stringsTrim e)
  simp [valueFromString, stringsSplit, splitChars_of_not_mem _ _ h1]

theorem valueFromString_of_parts (s : String)
    (h : 2 ≤ (stringsSplit (stringsTrim s ['[', ']']) ',').length) :
    valueFromString s = .strs (stringsSplit (stringsTrim s ['[', ']']) ',') := by
  have h1 : (stringsSplit (stringsTrim s ['[', ']']) ',').length ≠ 1 := by omega
  simp only [valueFromString, h1, if_false]

theorem valueFromMapEntry_of_str {m : GoMap} {s : String}
    (hget : GoMap.get m "value" = .str s) (hne : s ≠ "") :
    valueFromMapEntry m = .ok (some (valueFromString s)) := by
  have hlen : s.length > 0 := by
    rcases s with ⟨l⟩
    cases l with
    | nil => exact absurd rfl hne
    | cons c cs => simp [String.length]
  simp [valueFromMapEntry, hget, GoVal.notNil, GoVal.asString, hlen]

/-- What a successful call of `ibmSccRCMapToRequiredConfig` returns: a non-nil
`*RequiredConfig` whose fields are the results of the blocks, `All` and `AllIf`
never set. -/
theorem ibmSccRCMapToRequiredConfig_ok {m : GoMap} {r : RequiredConfigIntf}
    (h : ibmSccRCMapToRequiredConfig m = .ok r) :
    ∃ description or and any0 anyIf any1 any property operator value,
      nonEmptyStringEntry m "description" = .ok description ∧
      requiredConfigListBlock (GoMap.get m "or") = .ok or ∧
      requiredConfigListBlock (GoMap.get m "and") = .ok and ∧
      anyBlock (GoMap.get m "any") = .ok any0 ∧
      anyIfBlock (GoMap.get m "any_if") = .ok anyIf ∧
      allBlock (GoMap.get m "all") any0 = .ok any1 ∧
      allBlock (GoMap.get m "all_if") any1 = .ok any ∧
      nonEmptyStringEntry m "property" = .ok property ∧
      nonEmptyStringEntry m "operator" = .ok operator ∧
      valueFromMapEntry m = .ok value ∧
      r = .base (some (.mk description or and any anyIf none none property operator value)) := by
  rw [ibmSccRCMapToRequiredConfig] at h
  obtain ⟨description, h1, h⟩ := Outcome.bind_eq_ok h
  obtain ⟨or, h2, h⟩ := Outcome.bind_eq_ok h
  obtain ⟨and, h3, h⟩ := Outcome.bind_eq_ok h
  obtain ⟨any0, h4, h⟩ := Outcome.bind_eq_ok h
  obtain ⟨anyIf, h5, h⟩ := Outcome.bind_eq_ok h
  obtain ⟨any1, h6, h⟩ := Outcome.bind_eq_ok h
  obtain ⟨any, h7, h⟩ := Outcome.bind_eq_ok h
  obtain ⟨property, h8, h⟩ := Outcome.bind_eq_ok h
  obtain ⟨operator, h9, h⟩ := Outcome.bind_eq_ok h
  obtain ⟨value, h10, h⟩ := Outcome.bind_eq_ok h
  simp only [Outcome.pure_def, Outcome.ok.injEq] at h
  exact ⟨description, or, and, any0, anyIf, any1, any, property, operator, value,
    h1, h2, h3, h4, h5, h6, h7, h8, h9, h10, h.symm⟩

/-- The decoder on a map whose only entry is `value`. -/
theorem ibmSccRCMapToRequiredConfig_value_only (s : String) (hne : s ≠ "") :
    ibmSccRCMapToRequiredConfig [("value", .str s)]
      = .ok (.base (some (.mk none none none none none none none none none
          (some (valueFromString s))))) := by
  have hv : valueFromMapEntry [("value", .str s)] = .ok (some (valueFromString s)) :=
    valueFromMapEntry_of_str (by simp [GoMap.get]) hne
  rw [ibmSccRCMapToRequiredConfig, hv]
  simp [requiredConfigListBlock, anyBlock, anyIfBlock, allBlock, GoMap.get,
    nonEmptyStringEntry, GoVal.notNil]

/-! ## The decoders return no error -/

theorem Outcome.noError_ok {α : Type} (v : α) : (Outcome.ok v).NoError := by
  intro e h
  cases h

theorem Outcome.noError_fault {α : Type} : (Outcome.fault : Outcome α).NoError := by
  intro e h
  cases h

theorem Outcome.noError_bind {α β : Type} {x : Outcome α} {f : α → Outcome β}
    (hx : x.NoError) (hf : ∀ a, (f a).NoError) : (x >>= f).NoError := by
  cases x with
  | ok a => exact hf a
  | error e => exact absurd rfl (hx e)
  | fault => exact Outcome.noError_fault

theorem Outcome.noError_cases {α : Type} {o : Outcome α} (h : o.NoError) :
    o = .fault ∨ ∃ v, o = .ok v := by
  cases o with
  | ok v => exact Or.inr ⟨v, rfl⟩
  | error e => exact absurd rfl (h e)
  | fault => exact Or.inl rfl

theorem noError_asString (v : GoVal) : v.asString.NoError := by
  cases v <;> first | exact Outcome.noError_ok _ | exact Outcome.noError_fault

theorem noError_asList (v : GoVal) : v.asList.NoError := by
  cases v <;> first | exact Outcome.noError_ok _ | exact Outcome.noError_fault

theorem noError_asMap (v : GoVal) : v.asMap.NoError := by
  cases v <;> first | exact Outcome.noError_ok _ | exact Outcome.noError_fault

theorem noError_firstElem (xs : List GoVal) : (firstElem xs).NoError := by
  cases xs <;> first | exact Outcome.noError_ok _ | exact Outcome.noError_fault

theorem noError_asRequiredConfig (r : RequiredConfigIntf) : r.asRequiredConfig.NoError := by
  cases r <;> first | exact Outcome.noError_ok _ | exact Outcome.noError_fault

theorem noError_nonEmptyStringEntry (m : GoMap) (key : String) :
    (nonEmptyStringEntry m key).NoError := by
  unfold nonEmptyStringEntry
  split
  · refine Outcome.noError_bind (noError_asString _) fun s => ?_
    split <;> exact Outcome.noError_ok _
  · exact Outcome.noError_ok _

theorem noError_valueFromMapEntry (m : GoMap) : (valueFromMapEntry m).NoError := by
  unfold valueFromMapEntry
  split
  · refine Outcome.noError_bind (noError_asString _) fun s => ?_
    split <;> exact Outcome.noError_ok _
  · exact Outcome.noError_ok _

theorem noError_additionalTargetAttribute (m : GoMap) :
    (resourceIbmSccRuleMapToAdditionalTargetAttribute m).NoError := by
  unfold resourceIbmSccRuleMapToAdditionalTargetAttribute
  exact Outcome.noError_bind (noError_nonEmptyStringEntry _ _) fun _ =>
    Outcome.noError_bind (noError_nonEmptyStringEntry _ _) fun _ =>
    Outcome.noError_bind (noError_nonEmptyStringEntry _ _) fun _ => Outcome.noError_ok _

theorem noError_additionalTargetAttributesFromMaps (items : List GoVal) :
    (additionalTargetAttributesFromMaps items).NoError := by
  induction items with
  | nil => exact Outcome.noError_ok _
  | cons item rest ih =>
    simp only [additionalTargetAttributesFromMaps]
    exact Outcome.noError_bind (noError_asMap _) fun _ =>
      Outcome.noError_bind (noError_additionalTargetAttribute _) fun _ =>
      Outcome.noError_bind ih fun _ => Outcome.noError_ok _

theorem noError_additionalTargetAttributesBlock (m : GoMap) :
    (additionalTargetAttributesBlock m).NoError := by
  unfold additionalTargetAttributesBlock
  split
  · exact Outcome.noError_bind (noError_asList _) fun _ =>
      Outcome.noError_bind (noError_additionalTargetAttributesFromMaps _) fun _ =>
      Outcome.noError_ok _
  · exact Outcome.noError_ok _

theorem noError_ibmSccTargetMapToTarget (m : GoMap) : (ibmSccTargetMapToTarget m).NoError := by
  unfold ibmSccTargetMapToTarget
  exact Outcome.noError_bind (noError_asString _) fun _ =>
    Outcome.noError_bind (noError_nonEmptyStringEntry _ _) fun _ =>
    Outcome.noError_bind (noError_nonEmptyStringEntry _ _) fun _ =>
    Outcome.noError_bind (noError_asString _) fun _ =>
    Outcome.noError_bind (noError_additionalTargetAttributesBlock _) fun _ =>
    Outcome.noError_ok _

theorem noError_allBlock (entry : GoVal) (any : Option RequiredConfigSubRule) :
    (allBlock entry any).NoError := by
  cases entry with
  | list xs =>
    cases xs with
    | nil => simpa [allBlock, GoVal.notNil, GoVal.asList] using Outcome.noError_ok any
    | cons x rest =>
      simpa [allBlock, GoVal.notNil, GoVal.asList] using
        (Outcome.noError_fault : (Outcome.fault : Outcome (Option RequiredConfigSubRule)).NoError)
  | nil => simpa [allBlock, GoVal.notNil] using Outcome.noError_ok any
  | _ =>
    simpa [allBlock, GoVal.notNil, GoVal.asList] using
      (Outcome.noError_fault : (Outcome.fault : Outcome (Option RequiredConfigSubRule)).NoError)

theorem noError_requiredConfigFromMapEntry_of (entry : GoVal)
    (h : ∀ m, entry = .map m → (ibmSccRCMapToRequiredConfig m).NoError) :
    (requiredConfigFromMapEntry entry).NoError := by
  cases entry with
  | map m => simp only [requiredConfigFromMapEntry]; exact h m rfl
  | _ => simp only [requiredConfigFromMapEntry]; exact Outcome.noError_fault

theorem noError_requiredConfigFromListEntry_of (entry : GoVal)
    (h : ∀ m rest, entry = .list (.map m :: rest) → (ibmSccRCMapToRequiredConfig m).NoError) :
    (requiredConfigFromListEntry entry).NoError := by
  unfold requiredConfigFromListEntry
  split
  · exact h _ _ rfl
  · exact Outcome.noError_fault

theorem noError_subRuleFromMapEntries_of (condition : GoMap)
    (h : (requiredConfigFromMapEntry (GoMap.get condition "required_config")).NoError) :
    (subRuleFromMapEntries condition).NoError := by
  unfold subRuleFromMapEntries
  exact Outcome.noError_bind (noError_asMap _) fun _ =>
    Outcome.noError_bind (noError_ibmSccTargetMapToTarget _) fun _ =>
    Outcome.noError_bind h fun _ =>
    Outcome.noError_bind (noError_asRequiredConfig _) fun _ => Outcome.noError_ok _

theorem noError_subRuleFromListEntries_of (condition : GoMap)
    (h : (requiredConfigFromListEntry (GoMap.get condition "required_config")).NoError) :
    (subRuleFromListEntries condition).NoError := by
  unfold subRuleFromListEntries
  exact Outcome.noError_bind (noError_asList _) fun _ =>
    Outcome.noError_bind (noError_firstElem _) fun _ =>
    Outcome.noError_bind (noError_asMap _) fun _ =>
    Outcome.noError_bind (noError_ibmSccTargetMapToTarget _) fun _ =>
    Outcome.noError_bind h fun _ =>
    Outcome.noError_bind (noError_asRequiredConfig _) fun _ => Outcome.noError_ok _

theorem noError_anyBlock_of (entry : GoVal)
    (h : ∀ c rest, entry = .list (.map c :: rest) → (subRuleFromMapEntries c).NoError) :
    (anyBlock entry).NoError := by
  unfold anyBlock
  split
  · exact Outcome.noError_bind (h _ _ rfl) fun _ => Outcome.noError_ok _
  · exact Outcome.noError_fault
  · exact Outcome.noError_ok _

theorem noError_anyIfBlock_of (entry : GoVal)
    (h : ∀ c rest, entry = .list (.map c :: rest) → (subRuleFromListEntries c).NoError) :
    (anyIfBlock entry).NoError := by
  unfold anyIfBlock
  split
  · exact Outcome.noError_bind (h _ _ rfl) fun _ => Outcome.noError_ok _
  · exact Outcome.noError_fault
  · exact Outcome.noError_ok _

theorem noError_requiredConfigItemsFromMaps_of (items : List GoVal)
    (h : ∀ m, sizeOf m < sizeOf items → (ibmSccRCMapToRequiredConfig m).NoError) :
    (requiredConfigItemsFromMaps items).NoError := by
  induction items with
  | nil => simp only [requiredConfigItemsFromMaps]; exact Outcome.noError_ok _
  | cons item rest ih =>
    have hrest : (requiredConfigItemsFromMaps rest).NoError :=
      ih fun m hm => h m (by simp; omega)
    cases item with
    | map m =>
      simp only [requiredConfigItemsFromMaps]
      exact Outcome.noError_bind (h m (by simp; omega)) fun _ =>
        Outcome.noError_bind hrest fun _ => Outcome.noError_ok _
    | _ => simp only [requiredConfigItemsFromMaps]; exact Outcome.noError_fault

theorem noError_requiredConfigListBlock_of (entry : GoVal)
    (h : ∀ items, entry = .list items → (requiredConfigItemsFromMaps items).NoError) :
    (requiredConfigListBlock entry).NoError := by
  cases entry with
  | nil => simp only [requiredConfigListBlock]; exact Outcome.noError_ok _
  | list items =>
    simp only [requiredConfigListBlock]
    exact Outcome.noError_bind (h items rfl) fun _ => Outcome.noError_ok _
  | _ => simp only [requiredConfigListBlock]; exact Outcome.noError_fault

theorem noError_ibmSccRCMapToRequiredConfig_of (m : GoMap)
    (h : ∀ m1, sizeOf m1 < sizeOf m → (ibmSccRCMapToRequiredConfig m1).NoError) :
    (ibmSccRCMapToRequiredConfig m).NoError := by
  have hlist : ∀ key, (requiredConfigListBlock (GoMap.get m key)).NoError := by
    intro key
    refine noError_requiredConfigListBlock_of _ fun items hitems => ?_
    refine noError_requiredConfigItemsFromMaps_of _ fun m1 hm1 => h m1 ?_
    have := GoMap.get_sizeOf_le m key
    rw [hitems] at this
    simp at this
    omega
  have hany : (anyBlock (GoMap.get m "any")).NoError := by
    refine noError_anyBlock_of _ fun c rest hc => ?_
    refine noError_subRuleFromMapEntries_of _ ?_
    refine noError_requiredConfigFromMapEntry_of _ fun m1 hm1 => h m1 ?_
    have h1 := GoMap.get_sizeOf_le m "any"
    have h2 := GoMap.get_sizeOf_le c "required_config"
    rw [hc] at h1
    rw [hm1] at h2
    simp at h1 h2
    omega
  have hanyIf : (anyIfBlock (GoMap.get m "any_if")).NoError := by
    refine noError_anyIfBlock_of _ fun c rest hc => ?_
    refine noError_subRuleFromListEntries_of _ ?_
    refine noError_requiredConfigFromListEntry_of _ fun m1 rest1 hm1 => h m1 ?_
    have h1 := GoMap.get_sizeOf_le m "any_if"
    have h2 := GoMap.get_sizeOf_le c "required_config"
    rw [hc] at h1
    rw [hm1] at h2
    simp at h1 h2
    omega
  rw [ibmSccRCMapToRequiredConfig]
  exact Outcome.noError_bind (noError_nonEmptyStringEntry _ _) fun _ =>
    Outcome.noError_bind (hlist _) fun _ =>
    Outcome.noError_bind (hlist _) fun _ =>
    Outcome.noError_bind hany fun _ =>
    Outcome.noError_bind hanyIf fun _ =>
    Outcome.noError_bind (noError_allBlock _ _) fun _ =>
    Outcome.noError_bind (noError_allBlock _ _) fun _ =>
    Outcome.noError_bind (noError_nonEmptyStringEntry _ _) fun _ =>
    Outcome.noError_bind (noError_nonEmptyStringEntry _ _) fun _ =>
    Outcome.noError_bind (noError_valueFromMapEntry _) fun _ => Outcome.noError_ok _

theorem noError_ibmSccRCMapToRequiredConfig (m : GoMap) :
    (ibmSccRCMapToRequiredConfig m).NoError := by
  suffices hn : ∀ n (m : GoMap), sizeOf m ≤ n → (ibmSccRCMapToRequiredConfig m).NoError from
    hn _ m (Nat.le_refl _)
  intro n
  induction n with
  | zero =>
    intro m hm
    exact noError_ibmSccRCMapToRequiredConfig_of m fun m1 hm1 => absurd hm1 (by omega)
  | succ n ih =>
    intro m hm
    exact noError_ibmSccRCMapToRequiredConfig_of m fun m1 hm1 => ih m1 (by omega)

/-- On a map without combinator entries the decoder only reads the four base
fields. -/
theorem ibmSccRCMapToRequiredConfig_of_no_combinators (m : GoMap)
    (hor : GoMap.get m "or" = .nil) (hand : GoMap.get m "and" = .nil)
    (hany : GoMap.get m "any" = .nil) (hanyIf : GoMap.get m "any_if" = .nil)
    (hall : GoMap.get m "all" = .nil) (hallIf : GoMap.get m "all_if" = .nil) :
    ibmSccRCMapToRequiredConfig m = (do
      let description ← nonEmptyStringEntry m "description"
      let property ← nonEmptyStringEntry m "property"
      let operator ← nonEmptyStringEntry m "operator"
      let value ← valueFromMapEntry m
      pure (.base (some (.mk description none none none none none none property operator
        value)))) := by
  rw [ibmSccRCMapToRequiredConfig, hor, hand, hany, hanyIf, hall, hallIf]
  simp [requiredConfigListBlock, anyBlock, anyIfBlock, allBlock, GoVal.notNil]

/-! ## Round trip of trees without quantified combinators -/

theorem GoMap.get_setOpt (m : GoMap) (key key1 : String) (o : Option GoVal) :
    GoMap.get (GoMap.setOpt m key o) key1
      = if key = key1 then o.getD (GoMap.get m key1) else GoMap.get m key1 := by
  cases o with
  | none => simp [GoMap.setOpt]
  | some v =>
    by_cases h : key = key1
    · subst h
      simp [GoMap.setOpt, GoMap.get_set_same]
    · simp [GoMap.setOpt, GoMap.get_set_other _ _ h, h]

theorem setStringPtr_eq (m : GoMap) (key : String) (p : Option String) :
    setStringPtr m key p = GoMap.setOpt m key (p.map fun s => .strPtr (some s)) := by
  cases p <;> rfl

theorem valueBlock_eq (m : GoMap) (v : Option RcValue) :
    valueBlock m v = GoMap.setOpt m "value" (v.map valueToMapEntry) := by
  cases v <;> rfl

/-! ## Errors of the encoder -/

theorem ErrorsExactlyWhen.pure {α : Type} (v : α) :
    ErrorsExactlyWhen False (Pure.pure v : Outcome α) :=
  ⟨fun h => absurd h id, fun _ => ⟨v, rfl⟩⟩

theorem ErrorsExactlyWhen.bind {α β : Type} {H1 H2 : Prop} {x : Outcome α}
    {f : α → Outcome β} (hx : ErrorsExactlyWhen H1 x)
    (hf : ∀ a, ErrorsExactlyWhen H2 (f a)) : ErrorsExactlyWhen (H1 ∨ H2) (x >>= f) := by
  by_cases h1 : H1
  · obtain ⟨r, hr⟩ := hx.1 h1
    exact ⟨fun _ => ⟨r, by rw [hr]; rfl⟩, fun hn => absurd (Or.inl h1) hn⟩
  · obtain ⟨a, ha⟩ := hx.2 h1
    rw [ha]
    refine ⟨fun h => ?_, fun hn => ?_⟩
    · rcases h with h | h
      · exact absurd h h1
      · exact (hf a).1 h
    · exact (hf a).2 fun h => hn (Or.inr h)

theorem ErrorsExactlyWhen.congr {α : Type} {H1 H2 : Prop} {o : Outcome α}
    (h : ErrorsExactlyWhen H1 o) (hiff : H1 ↔ H2) : ErrorsExactlyWhen H2 o :=
  ⟨fun h2 => h.1 (hiff.2 h2), fun hn => h.2 fun h1 => hn (hiff.1 h1)⟩

theorem additionalTargetAttributesToMaps_ok (items : List AdditionalTargetAttribute) :
    ∃ ms, additionalTargetAttributesToMaps items = .ok ms := by
  induction items with
  | nil => exact ⟨[], rfl⟩
  | cons item rest ih =>
    obtain ⟨ms, hms⟩ := ih
    simp only [additionalTargetAttributesToMaps,
      dataSourceIbmSccRuleAdditionalTargetAttributeToMap, hms, Outcome.ok_bind,
      Outcome.pure_def]
    exact ⟨_, rfl⟩

theorem ibmSccRuleTargetToMap_ok (t : Target) : ∃ m, ibmSccRuleTargetToMap (some t) = .ok m := by
  obtain ⟨sn, sdn, rk, ata, rn⟩ := t
  cases ata with
  | none => exact ⟨_, rfl⟩
  | some items =>
    obtain ⟨ms, hms⟩ := additionalTargetAttributesToMaps_ok items
    simp only [ibmSccRuleTargetToMap, hms, Outcome.ok_bind, Outcome.pure_def]
    exact ⟨_, rfl⟩

mutual
theorem errorsExactlyWhen_ptr :
    (p : Option RequiredConfig) → RequiredConfig.NoNilPointerPtr p →
    ErrorsExactlyWhen (RequiredConfig.HasOtherSubtypePtr true p) (requiredConfigPtrToMap p)
  | none, h => by simp [RequiredConfig.NoNilPointerPtr] at h
  | some (.mk d or and any anyIf all allIf p o v), h => by
    simp only [RequiredConfig.NoNilPointerPtr] at h
    obtain ⟨hand, hor, hall, hallIf, hany, hanyIf⟩ := h
    simp only [requiredConfigPtrToMap]
    refine ErrorsExactlyWhen.congr
      (ErrorsExactlyWhen.bind (errorsExactlyWhen_children and hand _ _) fun _ =>
        ErrorsExactlyWhen.bind (errorsExactlyWhen_children or hor _ _) fun _ =>
        ErrorsExactlyWhen.bind (errorsExactlyWhen_subRule all hall _ _) fun _ =>
        ErrorsExactlyWhen.bind (errorsExactlyWhen_subRule allIf hallIf _ _) fun _ =>
        ErrorsExactlyWhen.bind (errorsExactlyWhen_subRule any hany _ _) fun _ =>
        ErrorsExactlyWhen.bind (errorsExactlyWhen_subRule anyIf hanyIf _ _) fun _ =>
        ErrorsExactlyWhen.pure _) ?_
    simp [RequiredConfig.HasOtherSubtypePtr]
theorem errorsExactlyWhen_children :
    (c : Option (List RequiredConfigIntf)) → RequiredConfig.NoNilPointerChildren c →
    ∀ (m : GoMap) (key : String),
    ErrorsExactlyWhen (RequiredConfig.HasOtherSubtypeChildren true c) (childrenBlock m key c)
  | none, _ => fun m key => by
    simp only [childrenBlock, RequiredConfig.HasOtherSubtypeChildren]
    exact ErrorsExactlyWhen.pure m
  | some items, h => fun m key => by
    simp only [RequiredConfig.NoNilPointerChildren] at h
    simp only [childrenBlock, RequiredConfig.HasOtherSubtypeChildren]
    exact ErrorsExactlyWhen.congr
      (ErrorsExactlyWhen.bind (errorsExactlyWhen_items items h) fun _ =>
        ErrorsExactlyWhen.pure _) (by simp)
theorem errorsExactlyWhen_items :
    (items : List RequiredConfigIntf) → RequiredConfig.NoNilPointerItems items →
    ErrorsExactlyWhen (RequiredConfig.HasOtherSubtypeItems true items)
      (requiredConfigItemsToMaps items)
  | [], _ => by
    simp only [requiredConfigItemsToMaps, RequiredConfig.HasOtherSubtypeItems]
    exact ErrorsExactlyWhen.pure []
  | .other r :: rest, _ => by
    simp only [requiredConfigItemsToMaps, ibmSccRuleRequiredConfigToMap,
      RequiredConfig.HasOtherSubtypeItems, RequiredConfigIntf.HasOtherSubtype, true_or]
    exact ⟨fun _ => ⟨r, rfl⟩, fun hn => absurd trivial hn⟩
  | .base p :: rest, h => by
    simp only [RequiredConfig.NoNilPointerItems, RequiredConfigIntf.NoNilPointer] at h
    simp only [requiredConfigItemsToMaps, ibmSccRuleRequiredConfigToMap,
      RequiredConfig.HasOtherSubtypeItems, RequiredConfigIntf.HasOtherSubtype]
    exact ErrorsExactlyWhen.congr
      (ErrorsExactlyWhen.bind (errorsExactlyWhen_ptr p h.1) fun _ =>
        ErrorsExactlyWhen.bind (errorsExactlyWhen_items rest h.2) fun _ =>
        ErrorsExactlyWhen.pure _) (by simp)
theorem errorsExactlyWhen_subRule :
    (sr : Option RequiredConfigSubRule) → RequiredConfig.NoNilPointerSubRule sr →
    ∀ (m : GoMap) (key : String),
    ErrorsExactlyWhen (RequiredConfig.HasOtherSubtypeSubRule true sr) (subRuleBlock m key sr)
  | none, _ => fun m key => by
    simp only [subRuleBlock, RequiredConfig.HasOtherSubtypeSubRule]
    exact ErrorsExactlyWhen.pure m
  | some (.mk target rc), h => fun m key => by
    simp only [RequiredConfig.NoNilPointerSubRule] at h
    obtain ⟨ht, hrc⟩ := h
    cases target with
    | none => exact absurd rfl ht
    | some t =>
      obtain ⟨tm, htm⟩ := ibmSccRuleTargetToMap_ok t
      simp only [subRuleBlock, subRuleToMap, RequiredConfig.HasOtherSubtypeSubRule, htm,
        Outcome.ok_bind]
      exact ErrorsExactlyWhen.congr
        (ErrorsExactlyWhen.bind
          (ErrorsExactlyWhen.bind (errorsExactlyWhen_ptr rc hrc) fun _ =>
            ErrorsExactlyWhen.pure _) fun _ => ErrorsExactlyWhen.pure _) (by simp)
end

/-! ## Value polymorphism -/

/-- C5: whenever `ibmSccRuleRequiredConfigToMap` returns a map for a
base-variant node, a sequence value `e1..en` is stored under `value` as the
string `"[" ++ s1 ++ "," ++ ... ++ "," ++ sn ++ "]"` with `si` the `fmt.Sprint`
of `ei`, and a scalar value (string, bool, int) is stored unchanged. -/
theorem encoded_value_entry (rc : RequiredConfig) (m : GoMap)
    (h : ibmSccRuleRequiredConfigToMap (.base (some rc)) = .ok m) :
    (∀ xs, rc.Value = some (.seq xs) →
      GoMap.get m "value" = .str ("[" ++ stringsJoin (fmtSprintEach xs) "," ++ "]")) ∧
    (∀ s, rc.Value = some (.str s) → GoMap.get m "value" = .str s) ∧
    (∀ b, rc.Value = some (.bool b) → GoMap.get m "value" = .bool b) ∧
    (∀ n, rc.Value = some (.int n) → GoMap.get m "value" = .int n) := by
  obtain ⟨description, or, and, any, anyIf, all, allIf, property, operator, value⟩ := rc
  simp only [ibmSccRuleRequiredConfigToMap] at h
  obtain ⟨m0, rfl⟩ := requiredConfigPtrToMap_ok_value h
  simp only [RequiredConfig.Value]
  refine ⟨?_, ?_, ?_, ?_⟩
  all_goals
    intro x hx
    subst hx
    rw [get_valueBlock_some]
    simp [valueToMapEntry, RcValue.toGo]

/-- C5, at concrete nodes: the sequence `["x","y"]` is stored as `"[x,y]"`. -/
theorem encoded_value_entry_witness :
    ibmSccRuleRequiredConfigToMap (.base (some (.mk none none none none none none none
        (some "p") (some "o") (some (.seq [.str "x", .str "y"])))))
      = .ok [("property", .strPtr (some "p")), ("operator", .strPtr (some "o")),
          ("value", .str "[x,y]")] ∧
    GoMap.get [("property", .strPtr (some "p")), ("operator", .strPtr (some "o")),
      ("value", .str "[x,y]")] "value"
      = .str ("[" ++ stringsJoin (fmtSprintEach [.str "x", .str "y"]) "," ++ "]") :=
  ⟨rfl, (encoded_value_entry
    (.mk none none none none none none none (some "p") (some "o")
      (some (.seq [.str "x", .str "y"])))
    [("property", .strPtr (some "p")), ("operator", .strPtr (some "o")), ("value", .str "[x,y]")]
    rfl).1 [.str "x", .str "y"] rfl⟩

/-- C6: for a non-empty `value` string `s` whose bracket-trimmed text splits on
`,` into `n >= 2` parts, the decoder returns, on the map holding just that
entry, the node whose value is the sequence of exactly those parts in order;
and on every map with that `value` entry on which it returns, the value of the
returned node is that sequence. -/
theorem decoded_value_is_parts (s : String) (hne : s ≠ "")
    (hparts : 2 ≤ (stringsSplit (stringsTrim s ['[', ']']) ',').length) :
    ibmSccRCMapToRequiredConfig [("value", .str s)]
      = .ok (.base (some (.mk none none none none none none none none none
          (some (.strs (stringsSplit (stringsTrim s ['[', ']']) ',')))))) ∧
    ∀ (m : GoMap) (r : RequiredConfigIntf), GoMap.get m "value" = .str s →
      ibmSccRCMapToRequiredConfig m = .ok r →
      ∃ rc, r = .base (some rc) ∧
        rc.Value = some (.strs (stringsSplit (stringsTrim s ['[', ']']) ',')) := by
  constructor
  · rw [ibmSccRCMapToRequiredConfig_value_only s hne, valueFromString_of_parts s hparts]
  · intro m r hget hr
    obtain ⟨d, o, a, any0, anyIf, any1, any, p, op, v, -, -, -, -, -, -, -, -, -, hv, rfl⟩ :=
      ibmSccRCMapToRequiredConfig_ok hr
    rw [valueFromMapEntry_of_str hget hne, valueFromString_of_parts s hparts] at hv
    simp only [Outcome.ok.injEq] at hv
    exact ⟨_, rfl, by simp [RequiredConfig.Value, hv]⟩

/-- C6, at `"[x,y]"`: the decoded value is the two-element sequence `["x","y"]`. -/
theorem decoded_value_is_parts_witness :
    ibmSccRCMapToRequiredConfig [("value", .str "[x,y]")]
      = .ok (.base (some (.mk none none none none none none none none none
          (some (.strs ["x", "y"]))))) :=
  (decoded_value_is_parts "[x,y]" (by decide) (by decide)).1

/-- C7, as stated, fails: decoding `"[x]"` yields the scalar `"[x]"`, the
brackets are not stripped, so the result is not the scalar `"x"`. -/
theorem bracketed_scalar_not_stripped :
    ibmSccRCMapToRequiredConfig [("value", .str "[x]")]
      = .ok (.base (some (.mk none none none none none none none none none
          (some (.str "[x]"))))) ∧
    ibmSccRCMapToRequiredConfig [("value", .str "[x]")]
      ≠ .ok (.base (some (.mk none none none none none none none none none
          (some (.str "x"))))) := by
  have h := ibmSccRCMapToRequiredConfig_value_only "[x]" (by decide)
  have hv : valueFromString "[x]" = .str "[x]" := rfl
  rw [hv] at h
  refine ⟨h, ?_⟩
  rw [h]
  intro e
  simp only [Outcome.ok.injEq, RequiredConfigIntf.base.injEq, Option.some.injEq,
    RequiredConfig.mk.injEq, RcValue.str.injEq, true_and] at e
  exact absurd e (by decide)

/-- C7, amended: for a `value` string `"[" ++ a ++ "]"` with `a` non-empty and
free of commas and brackets, the decoder yields the scalar `"[" ++ a ++ "]"`
itself, brackets kept (not a one-element sequence, and not `a`): on the map
holding just that entry, and on every map with that entry on which it returns. -/
theorem bracketed_scalar_kept (a : String) (hne : a ≠ "") (hcomma : ',' ∉ a.data)
    (hbracket : '[' ∉ a.data ∧ ']' ∉ a.data) :
    ibmSccRCMapToRequiredConfig [("value", .str ("[" ++ a ++ "]"))]
      = .ok (.base (some (.mk none none none none none none none none none
          (some (.str ("[" ++ a ++ "]")))))) ∧
    ∀ (m : GoMap) (r : RequiredConfigIntf), GoMap.get m "value" = .str ("[" ++ a ++ "]") →
      ibmSccRCMapToRequiredConfig m = .ok r →
      ∃ rc, r = .base (some rc) ∧ rc.Value = some (.str ("[" ++ a ++ "]")) := by
  have hs : ("[" ++ a ++ "]") ≠ "" := by
    intro e
    have := congrArg String.length e
    simp only [String.length_append] at this
    have h1 : "[".length = 1 := rfl
    have h0 : "".length = 0 := rfl
    omega
  have hc : ',' ∉ ("[" ++ a ++ "]").data := by
    simp [String.data_append, hcomma]
  constructor
  · rw [ibmSccRCMapToRequiredConfig_value_only _ hs, valueFromString_of_no_comma _ hc]
  · intro m r hget hr
    obtain ⟨d, o, an, any0, anyIf, any1, any, p, op, v, -, -, -, -, -, -, -, -, -, hv, rfl⟩ :=
      ibmSccRCMapToRequiredConfig_ok hr
    rw [valueFromMapEntry_of_str hget hs, valueFromString_of_no_comma _ hc] at hv
    simp only [Outcome.ok.injEq] at hv
    exact ⟨_, rfl, by simp [RequiredConfig.Value, hv]⟩

/-- C7, amended, at `a = "x"`: decoding `"[x]"` yields the scalar `"[x]"`. -/
theorem bracketed_scalar_kept_witness :
    ibmSccRCMapToRequiredConfig [("value", .str "[x]")]
      = .ok (.base (some (.mk none none none none none none none none none
          (some (.str "[x]"))))) :=
  (bracketed_scalar_kept "x" (by decide) (by decide) (by decide)).1

/-! ## Error behaviour of the decoders -/

/-- C9: `ibmSccRCMapToRequiredConfig` never returns a non-nil error: on every
attribute map it either stops in a runtime fault or returns, beside a nil
error, the constructed non-nil `*RequiredConfig`; likewise
`ibmSccTargetMapToTarget` and `resourceIbmSccRuleMapToAdditionalTargetAttribute`
either fault or return their model beside a nil error. -/
theorem decoders_return_nil_error :
    (∀ m : GoMap, ibmSccRCMapToRequiredConfig m = .fault ∨
      ∃ rc, ibmSccRCMapToRequiredConfig m = .ok (.base (some rc))) ∧
    (∀ m : GoMap, ibmSccTargetMapToTarget m = .fault ∨
      ∃ target, ibmSccTargetMapToTarget m = .ok target) ∧
    (∀ m : GoMap, resourceIbmSccRuleMapToAdditionalTargetAttribute m = .fault ∨
      ∃ model, resourceIbmSccRuleMapToAdditionalTargetAttribute m = .ok model) := by
  refine ⟨fun m => ?_, fun m => ?_, fun m => ?_⟩
  · rcases Outcome.noError_cases (noError_ibmSccRCMapToRequiredConfig m) with h | ⟨r, h⟩
    · exact Or.inl h
    · obtain ⟨d, o, a, any0, anyIf, any1, any, p, op, v, -, -, -, -, -, -, -, -, -, -, rfl⟩ :=
        ibmSccRCMapToRequiredConfig_ok h
      exact Or.inr ⟨_, h⟩
  · exact Outcome.noError_cases (noError_ibmSccTargetMapToTarget m)
  · exact Outcome.noError_cases (noError_additionalTargetAttribute m)

/-! ## Quantified combinators -/

/-- C2, at a map whose `all` (or `all_if`) entry is a one-element list holding a
sub-rule: the decoder stops in a runtime fault, so it returns no node at all,
and none whose `All` (or `AllIf`) field is set. -/
theorem all_entry_faults :
    ibmSccRCMapToRequiredConfig allEntryMap = .fault ∧
    ibmSccRCMapToRequiredConfig allIfEntryMap = .fault := by
  constructor
  · rw [ibmSccRCMapToRequiredConfig]
    simp [allEntryMap, GoMap.get, requiredConfigListBlock, anyBlock, anyIfBlock, allBlock,
      nonEmptyStringEntry, GoVal.notNil, GoVal.asList]
  · rw [ibmSccRCMapToRequiredConfig]
    simp [allIfEntryMap, GoMap.get, requiredConfigListBlock, anyBlock, anyIfBlock, allBlock,
      nonEmptyStringEntry, GoVal.notNil, GoVal.asList]

/-- C4, at a node whose `Any` sub-rule has a target and a leaf required config:
the encoder wraps `target` in a one-element list, the `any` block of the decoder
asserts it to be a map, and decoding the encoded node stops in a runtime fault. -/
theorem any_roundtrip_faults :
    ∃ m, ibmSccRuleRequiredConfigToMap anySubRuleNode = .ok m ∧
      GoMap.get m "any" = .maps [[
        ("target", .list [.map [("service_name", .strPtr (some "s")),
          ("resource_kind", .strPtr (some "k"))]]),
        ("required_config", .list [.map [("property", .strPtr (some "p")),
          ("operator", .strPtr (some "o")), ("value", .str "v")]])]] ∧
      ibmSccRCMapToRequiredConfig (readBackMap m) = .fault := by
  refine ⟨[("any", .maps [[
        ("target", .list [.map [("service_name", .strPtr (some "s")),
          ("resource_kind", .strPtr (some "k"))]]),
        ("required_config", .list [.map [("property", .strPtr (some "p")),
          ("operator", .strPtr (some "o")), ("value", .str "v")]])]])], rfl, rfl, ?_⟩
  rw [ibmSccRCMapToRequiredConfig]
  simp [readBackMap, readBackMaps, readBackList, readBack, GoMap.get, requiredConfigListBlock,
    anyBlock, subRuleFromMapEntries, nonEmptyStringEntry, GoVal.notNil, GoVal.asMap]

/-! ## Errors of the encoder: the claims -/

/-- C8, as stated, fails: a base node without `And`/`Or` children, whose `All`
sub-rule has a required config with a child of another subtype, gets the
unrecognized-subtype error although neither the node nor any node reached
through `And`/`Or` children is of another subtype; and a tree of base nodes
whose sub-rule has a target but a nil required config stops in a runtime fault
instead of returning a map. -/
theorem subtype_error_below_sub_rule :
    (ibmSccRuleRequiredConfigToMap otherBelowAllNode = .error (unrecognizedSubtype "x") ∧
      ¬ otherBelowAllNode.HasOtherSubtype false) ∧
    (ibmSccRuleRequiredConfigToMap nilConfigBelowAllNode = .fault ∧
      ¬ nilConfigBelowAllNode.HasOtherSubtype true) := by
  refine ⟨⟨rfl, ?_⟩, ⟨rfl, ?_⟩⟩
  · simp [otherBelowAllNode, RequiredConfigIntf.HasOtherSubtype,
      RequiredConfig.HasOtherSubtypePtr, RequiredConfig.HasOtherSubtypeChildren]
  · simp [nilConfigBelowAllNode, RequiredConfigIntf.HasOtherSubtype,
      RequiredConfig.HasOtherSubtypePtr, RequiredConfig.HasOtherSubtypeChildren,
      RequiredConfig.HasOtherSubtypeSubRule]

/-- C8, amended: on a tree in which no child is a nil pointer and every sub-rule
has a non-nil target and a non-nil required config, `ibmSccRuleRequiredConfigToMap`
returns the unrecognized-subtype error if and only if the node itself, or some
node reached through `And`/`Or` children or through the required config of an
`All`, `AllIf`, `Any` or `AnyIf` sub-rule, is not the base variant (so a failure
anywhere below fails every ancestor); otherwise it returns a map; and it returns
no other error. -/
theorem encode_error_iff_other_subtype (tree : RequiredConfigIntf)
    (hwf : tree.NoNilPointer) :
    ((∃ rendering, ibmSccRuleRequiredConfigToMap tree = .error (unrecognizedSubtype rendering))
      ↔ tree.HasOtherSubtype true) ∧
    ((∃ m, ibmSccRuleRequiredConfigToMap tree = .ok m) ↔ ¬ tree.HasOtherSubtype true) ∧
    (∀ msg, ibmSccRuleRequiredConfigToMap tree = .error msg →
      ∃ rendering, msg = unrecognizedSubtype rendering) := by
  have hspec : ErrorsExactlyWhen (tree.HasOtherSubtype true)
      (ibmSccRuleRequiredConfigToMap tree) := by
    cases tree with
    | other r =>
      simp only [ibmSccRuleRequiredConfigToMap, RequiredConfigIntf.HasOtherSubtype]
      exact ⟨fun _ => ⟨r, rfl⟩, fun hn => absurd trivial hn⟩
    | base p =>
      simp only [RequiredConfigIntf.NoNilPointer] at hwf
      simp only [ibmSccRuleRequiredConfigToMap, RequiredConfigIntf.HasOtherSubtype]
      exact errorsExactlyWhen_ptr p hwf
  refine ⟨⟨fun ⟨r, hr⟩ => ?_, hspec.1⟩, ⟨fun ⟨m, hm⟩ h => ?_, hspec.2⟩, fun msg hmsg => ?_⟩
  · by_contra hn
    obtain ⟨m, hm⟩ := hspec.2 hn
    rw [hm] at hr
    cases hr
  · obtain ⟨r, hr⟩ := hspec.1 h
    rw [hr] at hm
    cases hm
  · by_cases h : tree.HasOtherSubtype true
    · obtain ⟨r, hr⟩ := hspec.1 h
      rw [hr] at hmsg
      simp only [Outcome.error.injEq] at hmsg
      exact ⟨r, hmsg.symm⟩
    · obtain ⟨m, hm⟩ := hspec.2 h
      rw [hm] at hmsg
      cases hmsg

/-- C8, amended, at a tree of base nodes with a child and a sub-rule: it is
encoded to a map. -/
theorem encode_error_iff_other_subtype_witness :
    sampleBaseTree.NoNilPointer ∧ ¬ sampleBaseTree.HasOtherSubtype true ∧
    ∃ m, ibmSccRuleRequiredConfigToMap sampleBaseTree = .ok m := by
  have hwf : sampleBaseTree.NoNilPointer := by
    simp [sampleBaseTree, RequiredConfigIntf.NoNilPointer, RequiredConfig.NoNilPointerPtr,
      RequiredConfig.NoNilPointerChildren, RequiredConfig.NoNilPointerItems,
      RequiredConfig.NoNilPointerSubRule]
  have hno : ¬ sampleBaseTree.HasOtherSubtype true := by
    simp [sampleBaseTree, RequiredConfigIntf.HasOtherSubtype, RequiredConfig.HasOtherSubtypePtr,
      RequiredConfig.HasOtherSubtypeChildren, RequiredConfig.HasOtherSubtypeItems,
      RequiredConfig.HasOtherSubtypeSubRule]
  exact ⟨hwf, hno, (encode_error_iff_other_subtype sampleBaseTree hwf).2.1.2 hno⟩

/-! ## Depth bound of the schema -/

/-- C10: for every depth `d > MAX_REQUIRED_CONFIG_DEPTH` the key set of
`getRequiredConfigSchema d` is exactly `description`, `property`, `operator`,
`value`; none of `and`, `or`, `all`, `all_if`, `any`, `any_if` is a key. -/
theorem schema_beyond_max_depth (d : Int) (hd : d > MAX_REQUIRED_CONFIG_DEPTH) :
    (∀ key, key ∈ (getRequiredConfigSchema d).keys ↔
      key = "description" ∨ key = "property" ∨ key = "operator" ∨ key = "value") ∧
    (∀ key, key ∈ ["and", "or", "all", "all_if", "any", "any_if"] →
      key ∉ (getRequiredConfigSchema d).keys) := by
  have hkeys : (getRequiredConfigSchema d).keys = ["description", "property", "value",
      "operator"] := by
    rw [getRequiredConfigSchema]
    simp [hd, SchemaMap.keys, requiredConfigBaseMap]
  rw [hkeys]
  constructor
  · intro key
    simp only [List.mem_cons, List.mem_singleton, List.not_mem_nil, or_false]
    tauto
  · intro key hkey
    simp only [List.mem_cons, List.mem_singleton, List.not_mem_nil, or_false] at hkey
    rcases hkey with rfl | rfl | rfl | rfl | rfl | rfl <;> decide

/-- C10, at depth 6. -/
theorem schema_beyond_max_depth_witness :
    (6 : Int) > MAX_REQUIRED_CONFIG_DEPTH ∧
    ∀ key, key ∈ (getRequiredConfigSchema 6).keys ↔
      key = "description" ∨ key = "property" ∨ key = "operator" ∨ key = "value" :=
  ⟨by decide, (schema_beyond_max_depth 6 (by decide)).1⟩

/-! ## Schema within the depth bound -/

theorem intAdd_one_of_le {d : Int} (hlo : -9223372036854775808 ≤ d)
    (hd : d ≤ MAX_REQUIRED_CONFIG_DEPTH) : intAdd d 1 = d + 1 := by
  simp only [MAX_REQUIRED_CONFIG_DEPTH] at hd
  simp only [intAdd]
  omega

/-- C11: for every depth `d <= MAX_REQUIRED_CONFIG_DEPTH` (a Go `int`), the key
set of `getRequiredConfigSchema d` is exactly the four base fields plus `and`,
`or`, `all`, `all_if`, `any`, `any_if`; the element schema of `and` and of `or`
is `getRequiredConfigSchema (d + 1)`; the element schema of each of `all`,
`all_if`, `any`, `any_if` is `getSubRuleSchema (d + 1)`, whose keys are exactly
`target` and `required_config`. -/
theorem schema_within_max_depth (d : Int) (hlo : -9223372036854775808 ≤ d)
    (hd : d ≤ MAX_REQUIRED_CONFIG_DEPTH) :
    (∀ key, key ∈ (getRequiredConfigSchema d).keys ↔
      key = "description" ∨ key = "property" ∨ key = "operator" ∨ key = "value" ∨
      key = "and" ∨ key = "or" ∨ key = "all" ∨ key = "all_if" ∨ key = "any" ∨
      key = "any_if") ∧
    (∀ key, key = "and" ∨ key = "or" →
      ∃ s, SchemaMap.get (getRequiredConfigSchema d) key = some s ∧
        s.elem = some (getRequiredConfigSchema (d + 1))) ∧
    (∀ key, key = "all" ∨ key = "all_if" ∨ key = "any" ∨ key = "any_if" →
      ∃ s, SchemaMap.get (getRequiredConfigSchema d) key = some s ∧
        s.elem = some (getSubRuleSchema (d + 1))) ∧
    (∀ key, key ∈ (getSubRuleSchema (d + 1)).keys ↔
      key = "target" ∨ key = "required_config") := by
  have hnot : ¬ d > MAX_REQUIRED_CONFIG_DEPTH := not_lt.2 hd
  have hadd := intAdd_one_of_le hlo hd
  have hschema : getRequiredConfigSchema d = requiredConfigBaseMap ++
      [("and", listSchema true false
          "A list of property conditions where all items need to be satisfied" 0
          (getRequiredConfigSchema (d + 1))),
       ("or", listSchema true false
          "A list of property conditions where any item needs to be satisfied" 0
          (getRequiredConfigSchema (d + 1))),
       ("all", listSchema true false "A condition with the SubRule all logical operator." 0
          (getSubRuleSchema (d + 1))),
       ("all_if", listSchema true false
          "A condition with the SubRule all_ifexists logical operator." 0
          (getSubRuleSchema (d + 1))),
       ("any", listSchema true false "A condition with the SubRule any logical operator." 0
          (getSubRuleSchema (d + 1))),
       ("any_if", listSchema true false
          "A condition with the SubRule any_ifexists logical operator." 0
          (getSubRuleSchema (d + 1)))] := by
    rw [getRequiredConfigSchema]
    simp [hnot, hadd, SchemaMap.set, requiredConfigBaseMap]
  refine ⟨?_, ?_, ?_, ?_⟩
  · intro key
    rw [hschema]
    simp only [SchemaMap.keys, requiredConfigBaseMap, List.map_append, List.map_cons,
      List.map_nil, List.mem_append, List.mem_cons, List.mem_singleton, List.not_mem_nil,
      or_false]
    tauto
  · intro key hkey
    rw [hschema]
    rcases hkey with rfl | rfl <;>
      simp [SchemaMap.get, requiredConfigBaseMap, listSchema, Schema.elem]
  · intro key hkey
    rw [hschema]
    rcases hkey with rfl | rfl | rfl | rfl <;>
      simp [SchemaMap.get, requiredConfigBaseMap, listSchema, Schema.elem]
  · intro key
    rw [getSubRuleSchema]
    simp only [SchemaMap.keys, List.map_cons, List.map_nil, List.mem_cons, List.mem_singleton,
      List.not_mem_nil, or_false]
    tauto

/-- C11, at depth 5, the deepest level that still has combinators. -/
theorem schema_within_max_depth_witness :
    (5 : Int) ≤ MAX_REQUIRED_CONFIG_DEPTH ∧
    ∃ s, SchemaMap.get (getRequiredConfigSchema 5) "and" = some s ∧
      s.elem = some (getRequiredConfigSchema (5 + 1)) :=
  ⟨by decide, (schema_within_max_depth 5 (by decide) (by decide)).2.1 "and" (Or.inl rfl)⟩

/-! ## Round trip of `and`/`or` trees: children -/

theorem requiredConfigItemsToMaps_length {items : List RequiredConfigIntf} {ms : List GoMap}
    (h : requiredConfigItemsToMaps items = .ok ms) : ms.length = items.length := by
  induction items generalizing ms with
  | nil =>
    simp only [requiredConfigItemsToMaps, Outcome.ok.injEq] at h
    subst h
    rfl
  | cons item rest ih =>
    simp only [requiredConfigItemsToMaps] at h
    obtain ⟨m, -, h⟩ := Outcome.bind_eq_ok h
    obtain ⟨ms1, hms1, h⟩ := Outcome.bind_eq_ok h
    simp only [Outcome.pure_def, Outcome.ok.injEq] at h
    subst h
    rw [List.length_cons, List.length_cons, ih hms1]

/-! ## Round trip of sequence values -/

theorem splitChars_append_sep (sep : Char) (x tail : List Char) (h : sep ∉ x) :
    splitChars sep (x ++ sep :: tail) = x :: splitChars sep tail := by
  induction x with
  | nil => simp [splitChars]
  | cons c cs ih =>
    have hc : c ≠ sep := fun e => h (by simp [e])
    have hcs : sep ∉ cs := fun e => h (by simp [e])
    simp [splitChars, hc, ih hcs]

theorem stringsJoin_cons_cons (x y : String) (rest : List String) (sep : String) :
    (stringsJoin (x :: y :: rest) sep).data
      = x.data ++ sep.data ++ (stringsJoin (y :: rest) sep).data := by
  simp [stringsJoin, String.data_append]

theorem splitChars_stringsJoin (xs : List String) (hne : xs ≠ [])
    (hcomma : ∀ x ∈ xs, ',' ∉ x.data) :
    splitChars ',' (stringsJoin xs ",").data = xs.map String.data := by
  induction xs with
  | nil => exact absurd rfl hne
  | cons x rest ih =>
    cases rest with
    | nil =>
      simp only [stringsJoin, List.map_cons, List.map_nil]
      exact splitChars_of_not_mem _ _ (hcomma x (by simp))
    | cons y rest =>
      have hdata : (",").data = [','] := rfl
      rw [stringsJoin_cons_cons, hdata, List.append_assoc, List.singleton_append,
        splitChars_append_sep _ _ _ (hcomma x (by simp)),
        ih (by simp) (fun z hz => hcomma z (by simp [hz]))]
      simp

theorem stringsSplit_stringsJoin (xs : List String) (hne : xs ≠ [])
    (hcomma : ∀ x ∈ xs, ',' ∉ x.data) :
    stringsSplit (stringsJoin xs ",") ',' = xs := by
  simp only [stringsSplit, splitChars_stringsJoin xs hne hcomma, List.map_map]
  conv_rhs => rw [← List.map_id xs]
  apply List.map_congr_left
  intro x _
  rfl

theorem dropWhile_eq_self_of_head {p : Char → Bool} (l : List Char)
    (h : ∀ c, l.head? = some c → p c = false) : l.dropWhile p = l := by
  cases l with
  | nil => rfl
  | cons c cs => simp [List.dropWhile, h c rfl]

/-- Trimming `"[" ++ J ++ "]"` gives `J` back when `J` is not empty and neither
begins nor ends with a bracket. -/
theorem stringsTrim_brackets (J : List Char) (hne : J ≠ [])
    (hhead : ∀ c, J.head? = some c → c ≠ '[' ∧ c ≠ ']')
    (hlast : ∀ c, J.getLast? = some c → c ≠ '[' ∧ c ≠ ']') :
    stringsTrim (String.mk ('[' :: J ++ [']'])) ['[', ']'] = String.mk J := by
  have h1 : (J ++ [']']).dropWhile (fun c => decide (c ∈ ['[', ']'])) = J ++ [']'] := by
    apply dropWhile_eq_self_of_head
    intro c hc
    cases J with
    | nil => exact absurd rfl hne
    | cons a rest =>
      simp only [List.cons_append, List.head?_cons, Option.some.injEq] at hc
      subst hc
      have := hhead a rfl
      simp [this.1, this.2]
  have h2 : J.reverse.dropWhile (fun c => decide (c ∈ ['[', ']'])) = J.reverse := by
    apply dropWhile_eq_self_of_head
    intro c hc
    rw [List.head?_reverse] at hc
    have := hlast c hc
    simp [this.1, this.2]
  simp only [stringsTrim]
  have h3 : ('[' :: J ++ [']']).dropWhile (fun c => decide (c ∈ ['[', ']'])) = J ++ [']'] := by
    rw [List.cons_append, List.dropWhile_cons, if_pos (by decide)]
    exact h1
  rw [h3, List.reverse_append, List.reverse_singleton, List.singleton_append,
    List.dropWhile_cons, if_pos (by decide), h2, List.reverse_reverse]

theorem stringsJoin_head (xs : List String)
    (hfirst : ∀ x, xs.head? = some x → ∀ c, x.data.head? = some c → c ≠ '[' ∧ c ≠ ']') :
    ∀ c, (stringsJoin xs ",").data.head? = some c → c ≠ '[' ∧ c ≠ ']' := by
  intro c hc
  cases xs with
  | nil => simp [stringsJoin] at hc
  | cons x rest =>
    cases rest with
    | nil => exact hfirst x rfl c (by simpa [stringsJoin] using hc)
    | cons y rest =>
      have hdata : (",").data = [','] := rfl
      rw [stringsJoin_cons_cons, hdata, List.append_assoc, List.head?_append] at hc
      cases hx : x.data.head? with
      | none =>
        rw [hx] at hc
        simp only [List.singleton_append, List.head?_cons, Option.or,
          Option.some.injEq] at hc
        subst hc
        exact ⟨by decide, by decide⟩
      | some a =>
        rw [hx] at hc
        simp only [Option.or, Option.some.injEq] at hc
        subst hc
        exact hfirst x rfl a hx

theorem stringsJoin_last (xs : List String)
    (hlast : ∀ x, xs.getLast? = some x → ∀ c, x.data.getLast? = some c → c ≠ '[' ∧ c ≠ ']') :
    ∀ c, (stringsJoin xs ",").data.getLast? = some c → c ≠ '[' ∧ c ≠ ']' := by
  induction xs with
  | nil =>
    intro c hc
    simp [stringsJoin] at hc
  | cons x rest ih =>
    cases rest with
    | nil =>
      intro c hc
      exact hlast x rfl c (by simpa [stringsJoin] using hc)
    | cons y rest =>
      intro c hc
      have hdata : (",").data = [','] := rfl
      rw [stringsJoin_cons_cons, hdata, List.getLast?_append] at hc
      have ih1 := ih (fun z hz => hlast z (by simpa using hz))
      cases ht : (stringsJoin (y :: rest) ",").data.getLast? with
      | none =>
        rw [ht] at hc
        simp only [Option.or, List.getLast?_append, List.getLast?_singleton,
          Option.some.injEq] at hc
        subst hc
        exact ⟨by decide, by decide⟩
      | some a =>
        rw [ht] at hc
        simp only [Option.or, Option.some.injEq] at hc
        subst hc
        exact ih1 a ht

theorem stringsJoin_ne_nil (x y : String) (rest : List String) :
    (stringsJoin (x :: y :: rest) ",").data ≠ [] := by
  have hdata : (",").data = [','] := rfl
  rw [stringsJoin_cons_cons, hdata]
  simp

theorem fmtSprintEach_strs (xs : List String) : fmtSprintEach (xs.map .str) = xs := by
  induction xs with
  | nil => rfl
  | cons x rest ih => simp [fmtSprintEach, fmtSprint, ih]

/-- The bracketed, comma-joined rendering of a sequence decodes to the sequence. -/
theorem valueFromString_stringsJoin (xs : List String) (hlen : 2 ≤ xs.length)
    (hcomma : ∀ x ∈ xs, ',' ∉ x.data)
    (hfirst : ∀ x, xs.head? = some x → ∀ c, x.data.head? = some c → c ≠ '[' ∧ c ≠ ']')
    (hlast : ∀ x, xs.getLast? = some x → ∀ c, x.data.getLast? = some c → c ≠ '[' ∧ c ≠ ']') :
    valueFromString ("[" ++ stringsJoin xs "," ++ "]") = .strs xs := by
  have hne : xs ≠ [] := by
    intro e
    rw [e] at hlen
    simp at hlen
  have hJ : (stringsJoin xs ",").data ≠ [] := by
    match xs, hlen with
    | x :: y :: rest, _ => exact stringsJoin_ne_nil x y rest
  have hstr : "[" ++ stringsJoin xs "," ++ "]"
      = String.mk ('[' :: (stringsJoin xs ",").data ++ [']']) := by
    apply String.ext
    simp [String.data_append]
  have htrim := stringsTrim_brackets _ hJ (stringsJoin_head xs hfirst) (stringsJoin_last xs hlast)
  have hsplit := stringsSplit_stringsJoin xs hne hcomma
  have hparts : stringsSplit (stringsTrim ("[" ++ stringsJoin xs "," ++ "]") ['[', ']']) ','
      = xs := by
    rw [hstr, htrim]
    exact hsplit
  have hlen1 : xs.length ≠ 1 := by omega
  simp only [valueFromString, hparts, hlen1, if_false]

/-- C20: for every sequence of `n >= 2` strings in which no element contains a
comma, the first does not begin and the last does not end with a bracket, the
encoder stores the `value` string `"[" ++ e1 ++ "," ++ ... ++ "," ++ en ++ "]"`,
and decoding that string yields the sequence of exactly those strings, in
order (as a `[]string`): on the encoded node's own map, and on every map with
that `value` entry on which the decoder returns. -/
theorem sequence_value_roundtrip (xs : List String) (hlen : 2 ≤ xs.length)
    (hcomma : ∀ x ∈ xs, ',' ∉ x.data)
    (hfirst : ∀ x, xs.head? = some x → ∀ c, x.data.head? = some c → c ≠ '[' ∧ c ≠ ']')
    (hlast : ∀ x, xs.getLast? = some x → ∀ c, x.data.getLast? = some c → c ≠ '[' ∧ c ≠ ']') :
    ibmSccRuleRequiredConfigToMap (.base (some (.mk none none none none none none none
        none none (some (.seq (xs.map .str))))))
      = .ok [("value", .str ("[" ++ stringsJoin xs "," ++ "]"))] ∧
    ibmSccRCMapToRequiredConfig (readBackMap [("value", .str ("[" ++ stringsJoin xs "," ++ "]"))])
      = .ok (.base (some (.mk none none none none none none none none none
          (some (.strs xs))))) ∧
    ∀ (m : GoMap) (r : RequiredConfigIntf),
      GoMap.get m "value" = .str ("[" ++ stringsJoin xs "," ++ "]") →
      ibmSccRCMapToRequiredConfig m = .ok r →
      ∃ rc, r = .base (some rc) ∧ rc.Value = some (.strs xs) := by
  have hs : ("[" ++ stringsJoin xs "," ++ "]") ≠ "" := by
    intro e
    have := congrArg String.length e
    simp only [String.length_append] at this
    have h1 : "[".length = 1 := rfl
    have h0 : "".length = 0 := rfl
    omega
  have hv := valueFromString_stringsJoin xs hlen hcomma hfirst hlast
  refine ⟨?_, ?_, ?_⟩
  · simp [ibmSccRuleRequiredConfigToMap, requiredConfigPtrToMap, childrenBlock, subRuleBlock,
      setStringPtr, valueBlock, valueToMapEntry, fmtSprintEach_strs, GoMap.set]
  · have hrb : readBackMap [("value", .str ("[" ++ stringsJoin xs "," ++ "]"))]
        = [("value", .str ("[" ++ stringsJoin xs "," ++ "]"))] := by
      simp [readBackMap, readBack]
    rw [hrb, ibmSccRCMapToRequiredConfig_value_only _ hs, hv]
  · intro m r hget hr
    obtain ⟨d, o, a, any0, anyIf, any1, any, p, op, v, -, -, -, -, -, -, -, -, -, hval, rfl⟩ :=
      ibmSccRCMapToRequiredConfig_ok hr
    rw [valueFromMapEntry_of_str hget hs, hv] at hval
    simp only [Outcome.ok.injEq] at hval
    exact ⟨_, rfl, by simp [RequiredConfig.Value, hval]⟩

/-- C20, at the sequence `["x","y"]`: encoded as `"[x,y]"`, decoded as `["x","y"]`. -/
theorem sequence_value_roundtrip_witness :
    ibmSccRCMapToRequiredConfig (readBackMap [("value", .str "[x,y]")])
      = .ok (.base (some (.mk none none none none none none none none none
          (some (.strs ["x", "y"]))))) :=
  (sequence_value_roundtrip ["x", "y"] (by decide)
    (by
      intro x hx
      simp only [List.mem_cons, List.mem_singleton, List.not_mem_nil, or_false] at hx
      rcases hx with rfl | rfl <;> decide)
    (by
      intro x hx c hc
      simp only [List.head?_cons, Option.some.injEq] at hx
      subst hx
      simp only [List.head?_cons, Option.some.injEq] at hc
      subst hc
      exact ⟨by decide, by decide⟩)
    (by
      intro x hx c hc
      simp only [List.getLast?_cons_cons, List.getLast?_singleton, Option.some.injEq] at hx
      subst hx
      simp only [List.getLast?_singleton, Option.some.injEq] at hc
      subst hc
      exact ⟨by decide, by decide⟩)).2.1

/-! ## Schema data added to a resource -/

/-- C18, at a resource that declares `description` only: `AddSchemaData` keeps
that entry and adds `instance_id` (a required, force-new string), and the
resulting schema has no `region` entry. -/
theorem add_schema_data_adds_no_region :
    AddSchemaData descriptionOnlyResource
      = .ok ⟨some [("description", stringSchema false true "The details of a rule's response."),
          ("instance_id", .mk .TypeString false true true none
            "The ID of the Security and Compliance Center instance." none none 0 none)]⟩ ∧
    SchemaMap.get [("description", stringSchema false true "The details of a rule's response."),
          ("instance_id", .mk .TypeString false true true none
            "The ID of the Security and Compliance Center instance." none none 0 none)]
        "region" = none := by
  constructor
  · simp [AddSchemaData, descriptionOnlyResource, SchemaMap.set]
  · simp [SchemaMap.get]

/-! ## Resource lifecycle: basic facts -/

@[simp] theorem Step.pure_apply {α : Type} (v : α) (run : Run) :
    (pure v : Step α) run = .next v run := rfl

theorem Step.bind_apply {α β : Type} (x : Step α) (f : α → Step β) (run : Run) :
    (x >>= f) run =
      (match x run with
       | .next v run1 => f v run1
       | .ret diags run1 => .ret diags run1
       | .fault => .fault) := rfl

theorem Step.bind_of_next {α β : Type} {x : Step α} {f : α → Step β} {run run1 : Run} {v : α}
    (h : x run = .next v run1) : (x >>= f) run = f v run1 := by
  rw [Step.bind_apply, h]

theorem Step.bind_of_ret {α β : Type} {x : Step α} {f : α → Step β} {run run1 : Run}
    {diags : Option String} (h : x run = .ret diags run1) :
    (x >>= f) run = .ret diags run1 := by
  rw [Step.bind_apply, h]

theorem Step.bind_of_fault {α β : Type} {x : Step α} {f : α → Step β} {run : Run}
    (h : x run = .fault) : (x >>= f) run = .fault := by
  rw [Step.bind_apply, h]

@[simp] theorem Step.ret_apply {α : Type} (diags : Option String) (run : Run) :
    (Step.ret diags : Step α) run = .ret diags run := rfl

@[simp] theorem Step.lift_ok {α : Type} (v : α) (run : Run) :
    Step.lift (.ok v) run = .next v run := rfl

@[simp] theorem Step.lift_error {α : Type} (e : String) (run : Run) :
    (Step.lift (.error e) : Step α) run = .ret (some e) run := rfl

@[simp] theorem Step.lift_fault {α : Type} (run : Run) :
    (Step.lift .fault : Step α) run = .fault := rfl

@[simp] theorem Step.data_apply (run : Run) : Step.data run = .next run.state run := rfl

@[simp] theorem Step.modify_apply (f : ResourceData → ResourceData) (run : Run) :
    Step.modify f run = .next () ⟨f run.state, run.calls⟩ := rfl

@[simp] theorem Step.call_apply (c : RemoteCall) (run : Run) :
    Step.call c run = .next () ⟨run.state, run.calls ++ [c]⟩ := rfl

@[simp] theorem Step.when_true (s : Step Unit) : Step.when true s = s := rfl

@[simp] theorem Step.when_false (s : Step Unit) : Step.when false s = pure () := rfl

theorem clientSession_of_none {env : Env} (h : env.clientErr = none) (run : Run) :
    clientSession env run = .next () run := by
  simp [clientSession, h]

theorem clientSession_of_some {env : Env} {e : String} (h : env.clientErr = some e) (run : Run) :
    clientSession env run = .ret (some e) run := by
  simp [clientSession, h]

/-- With a client and an ID of (at least) two parts, `resourceIbmSccRuleRead`
hands one `GetRule` request to the client and goes on with its answer. -/
theorem resourceIbmSccRuleRead_of_parts {env : Env} {run : Run} {instanceID ruleID : String}
    {rest : List String} (hclient : env.clientErr = none)
    (hid : SepIdParts run.state.Id '/' = .ok (instanceID :: ruleID :: rest)) :
    resourceIbmSccRuleRead env run =
      readAfterGet env instanceID ruleID (env.GetRuleWithContext ⟨some instanceID, some ruleID⟩)
        ⟨run.state, run.calls ++ [.getRule ⟨some instanceID, some ruleID⟩]⟩ := by
  simp [resourceIbmSccRuleRead, Step.bind_apply, clientSession_of_none hclient, hid, indexString]

/-- A parse error of the ID ends `resourceIbmSccRuleRead` before any request. -/
theorem resourceIbmSccRuleRead_of_parse_error {env : Env} {run : Run} {e : String}
    (hclient : env.clientErr = none) (hid : SepIdParts run.state.Id '/' = .error e) :
    resourceIbmSccRuleRead env run = .ret (some e) run := by
  simp [resourceIbmSccRuleRead, Step.bind_apply, clientSession_of_none hclient, hid]

theorem sepIdParts_abc_def : SepIdParts "abc/def" '/' = .ok ["abc", "def"] := by
  rfl

theorem sepIdParts_abc : SepIdParts "abc" '/' =
    .error "The given id abc does not have the form <instance_id>/<rule_id>" := by
  rfl

/-- C15: for every state whose ID parses (instance ID, rule ID), if `GetRule`
fails with a response of status 404, `resourceIbmSccRuleRead` returns no
diagnostics after exactly one `GetRule` request, with the ID set to the empty
string and the values and change set of the state untouched. -/
theorem read_not_found_clears_id (env : Env) (st : ResourceData)
    (instanceID ruleID : String) (rest : List String) (err : String) (response : DetailedResponse)
    (hclient : env.clientErr = none)
    (hid : SepIdParts st.Id '/' = .ok (instanceID :: ruleID :: rest))
    (herr : (env.GetRuleWithContext ⟨some instanceID, some ruleID⟩).err = some err)
    (hresp : (env.GetRuleWithContext ⟨some instanceID, some ruleID⟩).response = some response)
    (hstatus : response.StatusCode = 404) :
    resourceIbmSccRuleRead env ⟨st, []⟩ =
        .ret none ⟨⟨"", st.values, st.changed⟩, [.getRule ⟨some instanceID, some ruleID⟩]⟩ := by
  rw [resourceIbmSccRuleRead_of_parts hclient hid]
  simp [readAfterGet, herr, hresp, readFailure, isNotFound, hstatus, Step.bind_apply,
    ResourceData.SetId]

theorem read_not_found_clears_id_witness :
    resourceIbmSccRuleRead notFoundEnv ⟨storedState, []⟩ =
      .ret none ⟨⟨"", [("description", .str "old"), ("etag", .str "e1")], []⟩,
        [.getRule ⟨some "abc", some "def"⟩]⟩ :=
  read_not_found_clears_id notFoundEnv storedState "abc" "def" [] "rule not found"
    ⟨404, [], "not found"⟩ rfl rfl rfl rfl rfl
theorem Step.preserves_pure {α : Type} {R : Run → Run → Prop} (hrefl : ∀ run, R run run)
    (v : α) : Step.Preserves R (pure v : Step α) :=
  fun run => hrefl run

theorem Step.preserves_ret {α : Type} {R : Run → Run → Prop} (hrefl : ∀ run, R run run)
    (diags : Option String) : Step.Preserves R (Step.ret diags : Step α) :=
  fun run => hrefl run

theorem Step.preserves_lift {α : Type} {R : Run → Run → Prop} (hrefl : ∀ run, R run run)
    (o : Outcome α) : Step.Preserves R (Step.lift o) := by
  intro run
  cases o with
  | ok v => exact hrefl run
  | error e => exact hrefl run
  | fault => trivial

theorem Step.preserves_bind {α β : Type} {R : Run → Run → Prop}
    (htrans : ∀ a b c, R a b → R b c → R a c) {x : Step α} {f : α → Step β}
    (hx : Step.Preserves R x) (hf : ∀ v, Step.Preserves R (f v)) :
    Step.Preserves R (x >>= f) := by
  intro run
  have h1 := hx run
  rw [Step.bind_apply]
  cases hxr : x run with
  | next v run1 =>
    rw [hxr] at h1
    have h2 := hf v run1
    simp only []
    cases hfr : f v run1 with
    | next w run2 => rw [hfr] at h2; exact htrans _ _ _ h1 h2
    | ret diags run2 => rw [hfr] at h2; exact htrans _ _ _ h1 h2
    | fault => trivial
  | ret diags run1 => rw [hxr] at h1; exact h1
  | fault => trivial

theorem Step.preserves_when {R : Run → Run → Prop} (hrefl : ∀ run, R run run) (c : Bool)
    {s : Step Unit} (hs : Step.Preserves R s) : Step.Preserves R (Step.when c s) := by
  cases c with
  | true => exact hs
  | false => exact Step.preserves_pure hrefl ()

theorem preserves_setField {R : Run → Run → Prop} (hrefl : ∀ run, R run run) (env : Env)
    (key : String) (value : GoVal) (label : String)
    (hset : ∀ run : Run, R run ⟨run.state.Set key value, run.calls⟩) :
    Step.Preserves R (setField env key value label) := by
  intro run
  unfold setField
  cases env.setErr key value with
  | none => exact hset run
  | some err => exact hrefl run

theorem keepsKey_refl (key : String) (run : Run) : KeepsKey key run run := rfl

theorem keepsKey_trans (key : String) (a b c : Run) (h1 : KeepsKey key a b)
    (h2 : KeepsKey key b c) : KeepsKey key a c := by
  unfold KeepsKey at *
  rw [h2, h1]

theorem keepsKey_set {key key1 : String} (hne : key1 ≠ key) (value : GoVal) (run : Run) :
    KeepsKey key run ⟨run.state.Set key1 value, run.calls⟩ := by
  simp only [KeepsKey, ResourceData.Get, ResourceData.Set]
  exact GoMap.get_set_other _ _ hne

theorem sameCalls_refl (run : Run) : SameCalls run run := rfl

theorem sameCalls_trans (a b c : Run) (h1 : SameCalls a b) (h2 : SameCalls b c) :
    SameCalls a c := by
  unfold SameCalls at *
  rw [h2, h1]

/-- The statements of `resourceIbmSccRuleRead` after the `etag` assignment
write none of `instance_id`, `rule_id` and `etag`. -/
theorem readRuleFields_keepsKey (env : Env) (rule : Rule) {key : String}
    (hkey : key = "instance_id" ∨ key = "rule_id" ∨ key = "etag") :
    Step.Preserves (KeepsKey key) (readRuleFields env rule) := by
  have hr := keepsKey_refl key
  have ht := keepsKey_trans key
  have hs : ∀ (key1 : String) (value : GoVal) (label : String), key1 ≠ key →
      Step.Preserves (KeepsKey key) (setField env key1 value label) :=
    fun key1 value label hne => preserves_setField hr env key1 value label (keepsKey_set hne value)
  unfold readRuleFields
  refine Step.preserves_bind ht (hs _ _ _ ?_) fun _ => ?_
  · rcases hkey with h | h | h <;> subst h <;> decide
  refine Step.preserves_bind ht (Step.preserves_when hr _ (hs _ _ _ ?_)) fun _ => ?_
  · rcases hkey with h | h | h <;> subst h <;> decide
  refine Step.preserves_bind ht (Step.preserves_when hr _ ?_) fun _ => ?_
  · unfold readImport
    refine Step.preserves_bind ht (Step.preserves_lift hr _) fun _ => hs _ _ _ ?_
    rcases hkey with h | h | h <;> subst h <;> decide
  refine Step.preserves_bind ht (Step.preserves_lift hr _) fun _ => ?_
  refine Step.preserves_bind ht (hs _ _ _ ?_) fun _ => ?_
  · rcases hkey with h | h | h <;> subst h <;> decide
  refine Step.preserves_bind ht (Step.preserves_lift hr _) fun _ => ?_
  refine Step.preserves_bind ht (hs _ _ _ ?_) fun _ => ?_
  · rcases hkey with h | h | h <;> subst h <;> decide
  refine Step.preserves_bind ht (Step.preserves_when hr _ (hs _ _ _ ?_)) fun _ => ?_
  · rcases hkey with h | h | h <;> subst h <;> decide
  refine Step.preserves_bind ht (hs _ _ _ ?_) fun _ => ?_
  · rcases hkey with h | h | h <;> subst h <;> decide
  refine Step.preserves_bind ht (hs _ _ _ ?_) fun _ => ?_
  · rcases hkey with h | h | h <;> subst h <;> decide
  refine Step.preserves_bind ht (hs _ _ _ ?_) fun _ => ?_
  · rcases hkey with h | h | h <;> subst h <;> decide
  refine Step.preserves_bind ht (hs _ _ _ ?_) fun _ => ?_
  · rcases hkey with h | h | h <;> subst h <;> decide
  refine Step.preserves_bind ht (hs _ _ _ ?_) fun _ => ?_
  · rcases hkey with h | h | h <;> subst h <;> decide
  refine Step.preserves_bind ht (hs _ _ _ ?_) fun _ => ?_
  · rcases hkey with h | h | h <;> subst h <;> decide
  exact Step.preserves_ret hr _
theorem parametersToMaps_ok (items : List Parameter) :
    ∃ maps, parametersToMaps items = .ok maps := by
  induction items with
  | nil => exact ⟨[], rfl⟩
  | cons item rest ih =>
    obtain ⟨maps, hmaps⟩ := ih
    exact ⟨_, by simp [parametersToMaps, resourceIbmSccRuleParameterToMap, hmaps]; rfl⟩

theorem resourceIbmSccRuleImportToMap_ok (model : Import) :
    ∃ m, resourceIbmSccRuleImportToMap (some model) = .ok m := by
  obtain ⟨parameters⟩ := model
  cases parameters with
  | none => exact ⟨[], rfl⟩
  | some items =>
    obtain ⟨maps, hmaps⟩ := parametersToMaps_ok items
    exact ⟨_, by simp [resourceIbmSccRuleImportToMap, hmaps]; rfl⟩

/-- When no `d.Set` fails and the target and the required config encode,
the statements after the `etag` assignment return no diagnostics. -/
theorem readRuleFields_returns (env : Env) (rule : Rule) (run : Run)
    (hset : ∀ key value, env.setErr key value = none)
    (htarget : ∃ m, resourceIbmSccRuleTargetToMap rule.Target = .ok m)
    (hconfig : ∃ m, ibmSccRuleRequiredConfigToMap rule.RequiredConfig = .ok m) :
    ∃ run1, readRuleFields env rule run = .ret none run1 := by
  obtain ⟨targetMap, htarget⟩ := htarget
  obtain ⟨configMap, hconfig⟩ := hconfig
  obtain ⟨ID, Description, Version, Import, Target, RequiredConfig, Labels, CreatedOn,
    CreatedBy, UpdatedOn, UpdatedBy, AccountID, Type_⟩ := rule
  simp only at htarget hconfig
  have himport : ∀ run0 : Run, ∃ run1,
      Step.when Import.isSome (readImport env Import) run0 = .next () run1 := by
    intro run0
    cases Import with
    | none => exact ⟨run0, rfl⟩
    | some model =>
      obtain ⟨m, hm⟩ := resourceIbmSccRuleImportToMap_ok model
      exact ⟨_, by simp [readImport, Step.bind_apply, hm, setField, hset]; rfl⟩
  have hversion : ∀ run0 : Run, ∃ run1,
      Step.when Version.isSome (setField env "version" (.strPtr Version) "version") run0 =
        .next () run1 := by
    intro run0
    cases Version with
    | none => exact ⟨run0, rfl⟩
    | some v => exact ⟨_, by simp [setField, hset]; rfl⟩
  have hlabels : ∀ run0 : Run, ∃ run1,
      Step.when Labels.isSome (setField env "labels" (.strs (Labels.getD [])) "labels") run0 =
        .next () run1 := by
    intro run0
    cases Labels with
    | none => exact ⟨run0, rfl⟩
    | some v => exact ⟨_, by simp [setField, hset]; rfl⟩
  unfold readRuleFields
  simp only [setField, hset, htarget, hconfig]
  rw [Step.bind_of_next (Step.modify_apply _ _)]
  obtain ⟨r1, h1⟩ := hversion ⟨run.state.Set "description" (.strPtr Description), run.calls⟩
  simp only [setField, hset] at h1
  rw [Step.bind_of_next h1]
  obtain ⟨r2, h2⟩ := himport r1
  rw [Step.bind_of_next h2, Step.bind_of_next (Step.lift_ok _ _),
    Step.bind_of_next (Step.modify_apply _ _), Step.bind_of_next (Step.lift_ok _ _),
    Step.bind_of_next (Step.modify_apply _ _)]
  obtain ⟨r3, h3⟩ := hlabels ⟨(r2.state.Set "target" (.maps [targetMap])).Set "required_config"
    (.maps [configMap]), r2.calls⟩
  simp only [setField, hset] at h3
  rw [Step.bind_of_next h3]
  exact ⟨_, by simp [Step.bind_apply]; rfl⟩

/-- C16: for every state whose ID parses and every `GetRule` answer without
error, `resourceIbmSccRuleRead` (when the three `d.Set` calls do not fail)
reaches the `description` assignment in a state whose `instance_id`, `rule_id`
and `etag` are the first ID part, the second ID part and the value of the
response header `ETag` as it is; every state it returns with still has these
three values; and it returns no diagnostics when no `d.Set` fails and the
target and required config encode. -/
theorem read_sets_identity_fields (env : Env) (st : ResourceData)
    (instanceID ruleID : String) (rest : List String) (rule : Rule) (response : DetailedResponse)
    (hclient : env.clientErr = none)
    (hid : SepIdParts st.Id '/' = .ok (instanceID :: ruleID :: rest))
    (hres : env.GetRuleWithContext ⟨some instanceID, some ruleID⟩ =
      ⟨some rule, some response, none⟩)
    (hset : ∀ value, env.setErr "instance_id" value = none ∧
      env.setErr "rule_id" value = none ∧ env.setErr "etag" value = none) :
    (∃ mid : ResourceData,
      IdentityFields instanceID ruleID (headersGet response.Headers "ETag") mid ∧
      resourceIbmSccRuleRead env ⟨st, []⟩ =
        readRuleFields env rule ⟨mid, [.getRule ⟨some instanceID, some ruleID⟩]⟩) ∧
    (∀ diags run, resourceIbmSccRuleRead env ⟨st, []⟩ = .ret diags run →
      IdentityFields instanceID ruleID (headersGet response.Headers "ETag") run.state) ∧
    ((∀ key value, env.setErr key value = none) →
      (∃ m, resourceIbmSccRuleTargetToMap rule.Target = .ok m) →
      (∃ m, ibmSccRuleRequiredConfigToMap rule.RequiredConfig = .ok m) →
      ∃ run, resourceIbmSccRuleRead env ⟨st, []⟩ = .ret none run) := by
  obtain ⟨mid, hmid⟩ : ∃ mid : ResourceData, mid =
      ((st.Set "instance_id" (.str instanceID)).Set "rule_id" (.str ruleID)).Set "etag"
        (.str (headersGet response.Headers "ETag")) := ⟨_, rfl⟩
  have hfields : IdentityFields instanceID ruleID (headersGet response.Headers "ETag") mid := by
    subst hmid
    simp only [IdentityFields, ResourceData.Get, ResourceData.Set, readBack]
    refine ⟨?_, ?_, ?_⟩
    · rw [GoMap.get_set_other _ _ (by decide), GoMap.get_set_other _ _ (by decide),
        GoMap.get_set_same]
    · rw [GoMap.get_set_other _ _ (by decide), GoMap.get_set_same]
    · rw [GoMap.get_set_same]
  have hread : resourceIbmSccRuleRead env ⟨st, []⟩ =
      readRuleFields env rule ⟨mid, [.getRule ⟨some instanceID, some ruleID⟩]⟩ := by
    rw [resourceIbmSccRuleRead_of_parts hclient hid, hres, hmid]
    simp [readAfterGet, readSuccess, setField, (hset _).1, (hset _).2.1, (hset _).2.2,
      Step.bind_apply, deref]
  refine ⟨⟨mid, hfields, hread⟩, ?_, ?_⟩
  · intro diags run hrun
    rw [hread] at hrun
    obtain ⟨h1, h2, h3⟩ := hfields
    have k1 := readRuleFields_keepsKey env rule (Or.inl rfl)
      ⟨mid, [.getRule ⟨some instanceID, some ruleID⟩]⟩
    have k2 := readRuleFields_keepsKey env rule (Or.inr (Or.inl rfl))
      ⟨mid, [.getRule ⟨some instanceID, some ruleID⟩]⟩
    have k3 := readRuleFields_keepsKey env rule (Or.inr (Or.inr rfl))
      ⟨mid, [.getRule ⟨some instanceID, some ruleID⟩]⟩
    rw [hrun] at k1 k2 k3
    simp only [KeepsKey] at k1 k2 k3
    exact ⟨k1.trans h1, k2.trans h2, k3.trans h3⟩
  · intro hall htarget hconfig
    rw [hread]
    exact readRuleFields_returns env rule _ hall htarget hconfig

theorem read_sets_identity_fields_witness :
    (∃ mid : ResourceData, IdentityFields "abc" "def" "e2" mid ∧
      resourceIbmSccRuleRead sampleEnv ⟨storedState, []⟩ =
        readRuleFields sampleEnv sampleRule ⟨mid, [.getRule ⟨some "abc", some "def"⟩]⟩) ∧
    (∀ diags run, resourceIbmSccRuleRead sampleEnv ⟨storedState, []⟩ = .ret diags run →
      IdentityFields "abc" "def" "e2" run.state) ∧
    ((∀ key value, sampleEnv.setErr key value = none) →
      (∃ m, resourceIbmSccRuleTargetToMap sampleRule.Target = .ok m) →
      (∃ m, ibmSccRuleRequiredConfigToMap sampleRule.RequiredConfig = .ok m) →
      ∃ run, resourceIbmSccRuleRead sampleEnv ⟨storedState, []⟩ = .ret none run) :=
  read_sets_identity_fields sampleEnv storedState "abc" "def" [] sampleRule
    ⟨200, [("ETag", "e2")], "ok"⟩ rfl rfl rfl (fun _ => ⟨rfl, rfl, rfl⟩)

/-- A parse error of the ID ends `resourceIbmSccRuleUpdate` before any request. -/
theorem resourceIbmSccRuleUpdate_of_parse_error {env : Env} {run : Run} {e : String}
    (hclient : env.clientErr = none) (hid : SepIdParts run.state.Id '/' = .error e) :
    resourceIbmSccRuleUpdate env run = .ret (some e) run := by
  simp [resourceIbmSccRuleUpdate, Step.bind_apply, clientSession_of_none hclient, hid]

/-- A parse error of the ID ends `resourceIbmSccRuleDelete` before any request. -/
theorem resourceIbmSccRuleDelete_of_parse_error {env : Env} {run : Run} {e : String}
    (hclient : env.clientErr = none) (hid : SepIdParts run.state.Id '/' = .error e) :
    resourceIbmSccRuleDelete env run = .ret (some e) run := by
  simp [resourceIbmSccRuleDelete, Step.bind_apply, clientSession_of_none hclient, hid]

/-- With a client and an ID of (at least) two parts, `resourceIbmSccRuleDelete`
hands one `DeleteRule` request to the client and goes on with its answer. -/
theorem resourceIbmSccRuleDelete_of_parts {env : Env} {run : Run} {instanceID ruleID : String}
    {rest : List String} (hclient : env.clientErr = none)
    (hid : SepIdParts run.state.Id '/' = .ok (instanceID :: ruleID :: rest)) :
    resourceIbmSccRuleDelete env run =
      deleteAfterCall (env.DeleteRuleWithContext ⟨some instanceID, some ruleID⟩)
        ⟨run.state, run.calls ++ [.deleteRule ⟨some instanceID, some ruleID⟩]⟩ := by
  simp [resourceIbmSccRuleDelete, Step.bind_apply, clientSession_of_none hclient, hid,
    indexString]

/-- The request of `resourceIbmSccRuleCreate` names the instance the state names. -/
theorem createOptions_instance_id {d : ResourceData} {options : CreateRuleOptions}
    {instance_id : String} (h : createOptions d = .ok (options, instance_id)) :
    d.Get "instance_id" = .str instance_id ∧ options.InstanceID = some instance_id := by
  unfold createOptions at h
  obtain ⟨description, -, h⟩ := Outcome.bind_eq_ok h
  obtain ⟨targetMap, -, h⟩ := Outcome.bind_eq_ok h
  obtain ⟨targetModel, -, h⟩ := Outcome.bind_eq_ok h
  obtain ⟨requiredConfigMap, -, h⟩ := Outcome.bind_eq_ok h
  obtain ⟨requiredConfigModel, -, h⟩ := Outcome.bind_eq_ok h
  obtain ⟨options1, -, h⟩ := Outcome.bind_eq_ok h
  obtain ⟨options2, -, h⟩ := Outcome.bind_eq_ok h
  obtain ⟨options3, -, h⟩ := Outcome.bind_eq_ok h
  obtain ⟨iid, hiid, h⟩ := Outcome.bind_eq_ok h
  simp only [Outcome.pure_def, Outcome.ok.injEq, Prod.mk.injEq] at h
  obtain ⟨h1, h2⟩ := h
  subst h1 h2
  refine ⟨?_, rfl⟩
  cases hv : d.Get "instance_id" <;> rw [hv] at hiid <;> simp [GoVal.asString] at hiid
  rw [hiid]

/-- With a client and an ID of (at least) two parts, `resourceIbmSccRuleUpdate`
goes on with the two parts. -/
theorem resourceIbmSccRuleUpdate_of_parts {env : Env} {run : Run} {instanceID ruleID : String}
    {rest : List String} (hclient : env.clientErr = none)
    (hid : SepIdParts run.state.Id '/' = .ok (instanceID :: ruleID :: rest)) :
    resourceIbmSccRuleUpdate env run = updateWithParts env run.state instanceID ruleID run := by
  simp [resourceIbmSccRuleUpdate, Step.bind_apply, clientSession_of_none hclient, hid,
    indexString]

/-- C17: the local ID has the form `<instance_id>/<rule_id>`. With a client,
(1) when `resourceIbmSccRuleCreate` builds its request and the remote service
answers with a rule, Create sets the ID to the state's `instance_id`, `"/"` and
the returned rule ID, and goes on as Read does from there; (2) `"abc/def"`
parses to `"abc"` and `"def"`, and Read, Update and Delete on a state with that
ID go on with instance ID `"abc"` and rule ID `"def"`; (3) `"abc"` is a parse
error; (4) on every state whose ID is a parse error Read, Update and Delete
return that error with the state untouched and no request made. -/
theorem composite_id_form (env : Env) (hclient : env.clientErr = none) :
    (∀ (d : ResourceData) (options : CreateRuleOptions) (instance_id ruleID : String)
        (rule : Rule) (response : Option DetailedResponse),
      createOptions d = .ok (options, instance_id) →
      env.CreateRuleWithContext options = ⟨some rule, response, none⟩ →
      rule.ID = some ruleID →
      d.Get "instance_id" = .str instance_id ∧
      resourceIbmSccRuleCreate env ⟨d, []⟩ =
        resourceIbmSccRuleRead env
          ⟨⟨instance_id ++ "/" ++ ruleID, d.values, d.changed⟩, [.createRule options]⟩) ∧
    (SepIdParts "abc/def" '/' = .ok ["abc", "def"] ∧
      ∀ st : ResourceData, st.Id = "abc/def" →
        resourceIbmSccRuleRead env ⟨st, []⟩ =
          readAfterGet env "abc" "def" (env.GetRuleWithContext ⟨some "abc", some "def"⟩)
            ⟨st, [.getRule ⟨some "abc", some "def"⟩]⟩ ∧
        resourceIbmSccRuleUpdate env ⟨st, []⟩ = updateWithParts env st "abc" "def" ⟨st, []⟩ ∧
        resourceIbmSccRuleDelete env ⟨st, []⟩ =
          deleteAfterCall (env.DeleteRuleWithContext ⟨some "abc", some "def"⟩)
            ⟨st, [.deleteRule ⟨some "abc", some "def"⟩]⟩) ∧
    (∃ e, SepIdParts "abc" '/' = .error e) ∧
    (∀ (st : ResourceData) (e : String), SepIdParts st.Id '/' = .error e →
      resourceIbmSccRuleRead env ⟨st, []⟩ = .ret (some e) ⟨st, []⟩ ∧
      resourceIbmSccRuleUpdate env ⟨st, []⟩ = .ret (some e) ⟨st, []⟩ ∧
      resourceIbmSccRuleDelete env ⟨st, []⟩ = .ret (some e) ⟨st, []⟩) := by
  refine ⟨?_, ⟨sepIdParts_abc_def, ?_⟩, ⟨_, sepIdParts_abc⟩, ?_⟩
  · intro d options instance_id ruleID rule response hopts hcall hrule
    refine ⟨(createOptions_instance_id hopts).1, ?_⟩
    simp [resourceIbmSccRuleCreate, Step.bind_apply, clientSession_of_none hclient, hopts,
      hcall, createAfterCall, deref, hrule, ResourceData.SetId]
  · intro st hst
    have hid : SepIdParts (Run.mk st []).state.Id '/' = .ok ["abc", "def"] := by
      simp only [hst]
      exact sepIdParts_abc_def
    exact ⟨resourceIbmSccRuleRead_of_parts hclient hid,
      resourceIbmSccRuleUpdate_of_parts hclient hid,
      resourceIbmSccRuleDelete_of_parts hclient hid⟩
  · intro st e he
    exact ⟨resourceIbmSccRuleRead_of_parse_error hclient he,
      resourceIbmSccRuleUpdate_of_parse_error hclient he,
      resourceIbmSccRuleDelete_of_parse_error hclient he⟩

theorem ibmSccRCMapToRequiredConfig_planned :
    ibmSccRCMapToRequiredConfig [("property", .str "p"), ("operator", .str "is_true")] =
      .ok plannedRequiredConfig := by
  rw [ibmSccRCMapToRequiredConfig]
  simp [GoMap.get, requiredConfigListBlock, anyBlock, anyIfBlock, allBlock,
    nonEmptyStringEntry, GoVal.notNil, GoVal.asString, valueFromMapEntry, plannedRequiredConfig]

theorem resourceIbmSccRuleMapToTarget_planned :
    resourceIbmSccRuleMapToTarget [("service_name", .str "s"), ("resource_kind", .str "k")] =
      .ok ⟨some "s", none, some "k", none, none⟩ := by
  simp [resourceIbmSccRuleMapToTarget, GoMap.get, nonEmptyStringEntry, GoVal.notNil,
    GoVal.asString, additionalTargetAttributesBlock]

theorem createOptions_plannedState : createOptions plannedState = .ok (plannedOptions, "abc") := by
  simp [createOptions, plannedState, ResourceData.Get, ResourceData.GetFirst, GoMap.get,
    GoVal.asString, GoVal.asMap, resourceIbmSccRuleMapToTarget_planned,
    ibmSccRCMapToRequiredConfig_planned, createVersionBlock, createImportBlock,
    createLabelsBlock, ResourceData.GetOk, GoVal.isZero, plannedOptions]

theorem composite_id_form_witness :
    resourceIbmSccRuleCreate sampleEnv ⟨plannedState, []⟩ =
        resourceIbmSccRuleRead sampleEnv
          ⟨⟨"abc" ++ "/" ++ "def", plannedState.values, plannedState.changed⟩,
            [.createRule plannedOptions]⟩ ∧
      resourceIbmSccRuleDelete sampleEnv ⟨malformedIdState, []⟩ =
        .ret (some "The given id abc does not have the form <instance_id>/<rule_id>")
          ⟨malformedIdState, []⟩ :=
  ⟨((composite_id_form sampleEnv rfl).1 plannedState plannedOptions "abc" "def" sampleRule
      (some ⟨201, [("ETag", "e2")], "created"⟩) createOptions_plannedState rfl rfl).2,
    ((composite_id_form sampleEnv rfl).2.2.2 malformedIdState _ sepIdParts_abc).2.2⟩

/-! ## Update: the request and the dirty flag -/

theorem noError_resourceIbmSccRuleMapToTarget (m : GoMap) :
    (resourceIbmSccRuleMapToTarget m).NoError := by
  unfold resourceIbmSccRuleMapToTarget
  exact Outcome.noError_bind (noError_asString _) fun _ =>
    Outcome.noError_bind (noError_nonEmptyStringEntry _ _) fun _ =>
    Outcome.noError_bind (noError_asString _) fun _ =>
    Outcome.noError_bind (noError_additionalTargetAttributesBlock _) fun _ =>
    Outcome.noError_ok _

theorem noError_resourceIbmSccRuleMapToParameter (m : GoMap) :
    (resourceIbmSccRuleMapToParameter m).NoError := by
  unfold resourceIbmSccRuleMapToParameter
  exact Outcome.noError_bind (noError_nonEmptyStringEntry _ _) fun _ =>
    Outcome.noError_bind (noError_nonEmptyStringEntry _ _) fun _ =>
    Outcome.noError_bind (noError_nonEmptyStringEntry _ _) fun _ =>
    Outcome.noError_bind (noError_nonEmptyStringEntry _ _) fun _ =>
    Outcome.noError_ok _

theorem noError_parametersFromMaps (items : List GoVal) :
    (parametersFromMaps items).NoError := by
  induction items with
  | nil => exact Outcome.noError_ok _
  | cons item rest ih =>
    unfold parametersFromMaps
    exact Outcome.noError_bind (noError_asMap _) fun _ =>
      Outcome.noError_bind (noError_resourceIbmSccRuleMapToParameter _) fun _ =>
      Outcome.noError_bind ih fun _ => Outcome.noError_ok _

theorem noError_resourceIbmSccRuleMapToImport (m : GoMap) :
    (resourceIbmSccRuleMapToImport m).NoError := by
  unfold resourceIbmSccRuleMapToImport
  split
  · exact Outcome.noError_bind (noError_asList _) fun _ =>
      Outcome.noError_bind (noError_parametersFromMaps _) fun _ => Outcome.noError_ok _
  · exact Outcome.noError_ok _

theorem noError_labelsFromList (items : List GoVal) : (labelsFromList items).NoError := by
  induction items with
  | nil => exact Outcome.noError_ok _
  | cons item rest ih =>
    unfold labelsFromList
    exact Outcome.noError_bind (noError_asString _) fun _ =>
      Outcome.noError_bind ih fun _ => Outcome.noError_ok _

theorem noError_updateBaseBlock (d : ResourceData) (options : ReplaceRuleOptions)
    (hasChange : Bool) : (updateBaseBlock d options hasChange).NoError := by
  unfold updateBaseBlock
  split
  · exact Outcome.noError_bind (noError_asString _) fun _ =>
      Outcome.noError_bind (noError_asMap _) fun _ =>
      Outcome.noError_bind (noError_resourceIbmSccRuleMapToTarget _) fun _ =>
      Outcome.noError_bind (noError_asMap _) fun _ =>
      Outcome.noError_bind (noError_ibmSccRCMapToRequiredConfig _) fun _ =>
      Outcome.noError_ok _
  · exact Outcome.noError_ok _

theorem noError_updateVersionBlock (d : ResourceData) (options : ReplaceRuleOptions)
    (hasChange : Bool) : (updateVersionBlock d options hasChange).NoError := by
  unfold updateVersionBlock
  split
  · exact Outcome.noError_bind (noError_asString _) fun _ => Outcome.noError_ok _
  · exact Outcome.noError_ok _

theorem noError_updateImportBlock (d : ResourceData) (options : ReplaceRuleOptions)
    (hasChange : Bool) : (updateImportBlock d options hasChange).NoError := by
  unfold updateImportBlock
  split
  · exact Outcome.noError_bind (noError_asMap _) fun _ =>
      Outcome.noError_bind (noError_resourceIbmSccRuleMapToImport _) fun _ =>
      Outcome.noError_ok _
  · exact Outcome.noError_ok _

theorem noError_updateRequest (d : ResourceData) (instanceID ruleID : String) :
    (updateRequest d instanceID ruleID).NoError := by
  unfold updateRequest
  exact Outcome.noError_bind (noError_asString _) fun _ =>
    Outcome.noError_bind (noError_updateBaseBlock _ _ _) fun _ =>
    Outcome.noError_bind (noError_updateVersionBlock _ _ _) fun _ =>
    Outcome.noError_bind (noError_updateImportBlock _ _ _) fun _ =>
    Outcome.noError_ok _

theorem noError_replaceLabelsBlock (d : ResourceData) (options : ReplaceRuleOptions) :
    (replaceLabelsBlock d options).NoError := by
  unfold replaceLabelsBlock
  split
  · exact Outcome.noError_bind (noError_asList _) fun _ =>
      Outcome.noError_bind (noError_labelsFromList _) fun _ => Outcome.noError_ok _
  · exact Outcome.noError_ok _

theorem noError_replaceImportBlock (d : ResourceData) (options : ReplaceRuleOptions) :
    (replaceImportBlock d options).NoError := by
  unfold replaceImportBlock
  split
  · exact Outcome.noError_bind (noError_asMap _) fun _ =>
      Outcome.noError_bind (noError_resourceIbmSccRuleMapToImport _) fun _ =>
      Outcome.noError_ok _
  · exact Outcome.noError_ok _

theorem updateBaseBlock_ok {d : ResourceData} {options options1 : ReplaceRuleOptions}
    {hasChange flag : Bool} (h : updateBaseBlock d options hasChange = .ok (options1, flag)) :
    flag = (hasChange || (d.HasChange "description" || d.HasChange "target" ||
      d.HasChange "required_config")) ∧
    options1.InstanceID = options.InstanceID ∧ options1.RuleID = options.RuleID ∧
    options1.IfMatch = options.IfMatch := by
  unfold updateBaseBlock at h
  split at h
  · rename_i hc
    obtain ⟨description, -, h⟩ := Outcome.bind_eq_ok h
    obtain ⟨targetMap, -, h⟩ := Outcome.bind_eq_ok h
    obtain ⟨target, -, h⟩ := Outcome.bind_eq_ok h
    obtain ⟨requiredConfigMap, -, h⟩ := Outcome.bind_eq_ok h
    obtain ⟨requiredConfig, -, h⟩ := Outcome.bind_eq_ok h
    simp only [Outcome.pure_def, Outcome.ok.injEq, Prod.mk.injEq] at h
    obtain ⟨h1, h2⟩ := h
    subst h1 h2
    simp [hc]
  · rename_i hc
    simp only [Outcome.pure_def, Outcome.ok.injEq, Prod.mk.injEq] at h
    obtain ⟨h1, h2⟩ := h
    subst h1 h2
    simp only [Bool.not_eq_true] at hc
    simp [hc]

theorem updateVersionBlock_ok {d : ResourceData} {options options1 : ReplaceRuleOptions}
    {hasChange flag : Bool} (h : updateVersionBlock d options hasChange = .ok (options1, flag)) :
    flag = (hasChange || d.HasChange "version") ∧
    options1.InstanceID = options.InstanceID ∧ options1.RuleID = options.RuleID ∧
    options1.IfMatch = options.IfMatch := by
  unfold updateVersionBlock at h
  split at h
  · rename_i hc
    obtain ⟨version, -, h⟩ := Outcome.bind_eq_ok h
    simp only [Outcome.pure_def, Outcome.ok.injEq, Prod.mk.injEq] at h
    obtain ⟨h1, h2⟩ := h
    subst h1 h2
    simp [hc]
  · rename_i hc
    simp only [Outcome.pure_def, Outcome.ok.injEq, Prod.mk.injEq] at h
    obtain ⟨h1, h2⟩ := h
    subst h1 h2
    simp only [Bool.not_eq_true] at hc
    simp [hc]

theorem updateImportBlock_ok {d : ResourceData} {options options1 : ReplaceRuleOptions}
    {hasChange flag : Bool} (h : updateImportBlock d options hasChange = .ok (options1, flag)) :
    flag = (hasChange || d.HasChange "import") ∧
    options1.InstanceID = options.InstanceID ∧ options1.RuleID = options.RuleID ∧
    options1.IfMatch = options.IfMatch := by
  unfold updateImportBlock at h
  split at h
  · rename_i hc
    obtain ⟨importMap, -, h⟩ := Outcome.bind_eq_ok h
    obtain ⟨importVar, -, h⟩ := Outcome.bind_eq_ok h
    simp only [Outcome.pure_def, Outcome.ok.injEq, Prod.mk.injEq] at h
    obtain ⟨h1, h2⟩ := h
    subst h1 h2
    simp [hc]
  · rename_i hc
    simp only [Outcome.pure_def, Outcome.ok.injEq, Prod.mk.injEq] at h
    obtain ⟨h1, h2⟩ := h
    subst h1 h2
    simp only [Bool.not_eq_true] at hc
    simp [hc]

theorem replaceLabelsBlock_ok {d : ResourceData} {options options1 : ReplaceRuleOptions}
    (h : replaceLabelsBlock d options = .ok options1) :
    options1.InstanceID = options.InstanceID ∧ options1.RuleID = options.RuleID ∧
    options1.IfMatch = options.IfMatch := by
  unfold replaceLabelsBlock at h
  split at h
  · obtain ⟨labelsList, -, h⟩ := Outcome.bind_eq_ok h
    obtain ⟨labels, -, h⟩ := Outcome.bind_eq_ok h
    simp only [Outcome.pure_def, Outcome.ok.injEq] at h
    subst h
    exact ⟨rfl, rfl, rfl⟩
  · simp only [Outcome.pure_def, Outcome.ok.injEq] at h
    subst h
    exact ⟨rfl, rfl, rfl⟩

theorem replaceImportBlock_ok {d : ResourceData} {options options1 : ReplaceRuleOptions}
    (h : replaceImportBlock d options = .ok options1) :
    options1.InstanceID = options.InstanceID ∧ options1.RuleID = options.RuleID ∧
    options1.IfMatch = options.IfMatch := by
  unfold replaceImportBlock at h
  split at h
  · obtain ⟨importMap, -, h⟩ := Outcome.bind_eq_ok h
    obtain ⟨importVar, -, h⟩ := Outcome.bind_eq_ok h
    simp only [Outcome.pure_def, Outcome.ok.injEq] at h
    subst h
    exact ⟨rfl, rfl, rfl⟩
  · simp only [Outcome.pure_def, Outcome.ok.injEq] at h
    subst h
    exact ⟨rfl, rfl, rfl⟩

/-- A request `resourceIbmSccRuleUpdate` builds names the two parts of the ID
and the stored `etag`, and its flag `hasChange` is set exactly when a tracked
key has changed. -/
theorem updateRequest_ok {d : ResourceData} {instanceID ruleID etag : String}
    {options : ReplaceRuleOptions} {flag : Bool} (hetag : d.Get "etag" = .str etag)
    (h : updateRequest d instanceID ruleID = .ok (options, flag)) :
    flag = trackedChange d ∧ options.Addresses instanceID ruleID etag := by
  unfold updateRequest at h
  rw [hetag] at h
  simp only [GoVal.asString, Outcome.ok_bind] at h
  obtain ⟨st1, h1, h⟩ := Outcome.bind_eq_ok h
  obtain ⟨st2, h2, h⟩ := Outcome.bind_eq_ok h
  obtain ⟨st3, h3, h⟩ := Outcome.bind_eq_ok h
  obtain ⟨o1, f1⟩ := st1
  obtain ⟨o2, f2⟩ := st2
  obtain ⟨o3, f3⟩ := st3
  simp only [Outcome.pure_def, Outcome.ok.injEq, Prod.mk.injEq] at h
  obtain ⟨ho, hf⟩ := h
  subst ho hf
  obtain ⟨e1, a1, b1, c1⟩ := updateBaseBlock_ok h1
  obtain ⟨e2, a2, b2, c2⟩ := updateVersionBlock_ok h2
  obtain ⟨e3, a3, b3, c3⟩ := updateImportBlock_ok h3
  refine ⟨?_, ?_, ?_, ?_⟩
  · subst e1 e2 e3
    simp only [updateLabelsBlock, trackedChange]
    cases d.HasChange "description" <;> cases d.HasChange "target" <;>
      cases d.HasChange "required_config" <;> cases d.HasChange "version" <;>
      cases d.HasChange "import" <;> cases d.HasChange "labels" <;> rfl
  · rw [a3, a2, a1]
  · rw [b3, b2, b1]
  · rw [c3, c2, c1]

/-- When no tracked key has changed, the request is built without reading any
configured value but `etag`, and the flag `hasChange` stays false. -/
theorem updateRequest_of_unchanged {d : ResourceData} (instanceID ruleID : String)
    {etag : String} (hetag : d.Get "etag" = .str etag) (h : trackedChange d = false) :
    updateRequest d instanceID ruleID =
      .ok (⟨some instanceID, some ruleID, some etag, none, none, none, none, none, none⟩,
        false) := by
  simp only [trackedChange, Bool.or_eq_false_iff] at h
  obtain ⟨⟨⟨⟨⟨h1, h2⟩, h3⟩, h4⟩, h5⟩, h6⟩ := h
  simp [updateRequest, hetag, GoVal.asString, updateBaseBlock, updateVersionBlock,
    updateImportBlock, updateLabelsBlock, h1, h2, h3, h4, h5, h6]

/-! ## The requests of Read and Update -/

theorem Step.preserves_mono {α : Type} {R R1 : Run → Run → Prop} {s : Step α}
    (h : Step.Preserves R s) (hle : ∀ a b, R a b → R1 a b) : Step.Preserves R1 s := by
  intro run
  have h1 := h run
  cases hs : s run with
  | next v run1 => rw [hs] at h1; exact hle _ _ h1
  | ret diags run1 => rw [hs] at h1; exact hle _ _ h1
  | fault => trivial

theorem onlyGetRuleAdded_refl (run : Run) : OnlyGetRuleAdded run run :=
  ⟨[], by simp, by simp⟩

theorem onlyGetRuleAdded_trans (a b c : Run) (h1 : OnlyGetRuleAdded a b)
    (h2 : OnlyGetRuleAdded b c) : OnlyGetRuleAdded a c := by
  obtain ⟨added1, e1, g1⟩ := h1
  obtain ⟨added2, e2, g2⟩ := h2
  refine ⟨added1 ++ added2, by rw [e2, e1, List.append_assoc], ?_⟩
  intro x hx
  rcases List.mem_append.mp hx with hx | hx
  · exact g1 x hx
  · exact g2 x hx

theorem onlyGetRuleAdded_of_sameCalls (a b : Run) (h : SameCalls a b) : OnlyGetRuleAdded a b :=
  ⟨[], by simpa [SameCalls] using h, by simp⟩

/-- The statements of `resourceIbmSccRuleRead` after the `etag` assignment hand
no request to the remote client. -/
theorem readRuleFields_sameCalls (env : Env) (rule : Rule) :
    Step.Preserves SameCalls (readRuleFields env rule) := by
  have hr := sameCalls_refl
  have ht := sameCalls_trans
  have hs : ∀ (key : String) (value : GoVal) (label : String),
      Step.Preserves SameCalls (setField env key value label) :=
    fun key value label => preserves_setField hr env key value label fun _ => rfl
  unfold readRuleFields
  refine Step.preserves_bind ht (hs _ _ _) fun _ => ?_
  refine Step.preserves_bind ht (Step.preserves_when hr _ (hs _ _ _)) fun _ => ?_
  refine Step.preserves_bind ht (Step.preserves_when hr _ ?_) fun _ => ?_
  · unfold readImport
    exact Step.preserves_bind ht (Step.preserves_lift hr _) fun _ => hs _ _ _
  refine Step.preserves_bind ht (Step.preserves_lift hr _) fun _ => ?_
  refine Step.preserves_bind ht (hs _ _ _) fun _ => ?_
  refine Step.preserves_bind ht (Step.preserves_lift hr _) fun _ => ?_
  refine Step.preserves_bind ht (hs _ _ _) fun _ => ?_
  refine Step.preserves_bind ht (Step.preserves_when hr _ (hs _ _ _)) fun _ => ?_
  refine Step.preserves_bind ht (hs _ _ _) fun _ => ?_
  refine Step.preserves_bind ht (hs _ _ _) fun _ => ?_
  refine Step.preserves_bind ht (hs _ _ _) fun _ => ?_
  refine Step.preserves_bind ht (hs _ _ _) fun _ => ?_
  refine Step.preserves_bind ht (hs _ _ _) fun _ => ?_
  refine Step.preserves_bind ht (hs _ _ _) fun _ => ?_
  exact Step.preserves_ret hr _

/-- After `GetRuleWithContext`, `resourceIbmSccRuleRead` hands no further
request to the remote client. -/
theorem readAfterGet_sameCalls (env : Env) (instanceID ruleID : String)
    (res : RemoteResult Rule) :
    Step.Preserves SameCalls (readAfterGet env instanceID ruleID res) := by
  have hr := sameCalls_refl
  have ht := sameCalls_trans
  have hs : ∀ (key : String) (value : GoVal) (label : String),
      Step.Preserves SameCalls (setField env key value label) :=
    fun key value label => preserves_setField hr env key value label fun _ => rfl
  unfold readAfterGet
  cases res.err with
  | some err =>
    simp only []
    unfold readFailure
    split
    · exact Step.preserves_bind ht (fun _ => rfl) fun _ => Step.preserves_ret hr _
    · exact Step.preserves_ret hr _
  | none =>
    simp only []
    unfold readSuccess
    refine Step.preserves_bind ht (hs _ _ _) fun _ => ?_
    refine Step.preserves_bind ht (hs _ _ _) fun _ => ?_
    refine Step.preserves_bind ht (Step.preserves_lift hr _) fun _ => ?_
    refine Step.preserves_bind ht (hs _ _ _) fun _ => ?_
    refine Step.preserves_bind ht (Step.preserves_lift hr _) fun _ => ?_
    exact readRuleFields_sameCalls env _

/-- Every request `resourceIbmSccRuleRead` hands to the remote client is a
`GetRule` request. -/
theorem resourceIbmSccRuleRead_onlyGetRuleAdded (env : Env) :
    Step.Preserves OnlyGetRuleAdded (resourceIbmSccRuleRead env) := by
  have hr := onlyGetRuleAdded_refl
  have ht := onlyGetRuleAdded_trans
  unfold resourceIbmSccRuleRead
  refine Step.preserves_bind ht ?_ fun _ => ?_
  · intro run
    unfold clientSession
    cases env.clientErr with
    | none => exact hr run
    | some err => exact hr run
  refine Step.preserves_bind ht (fun run => hr run) fun _ => ?_
  refine Step.preserves_bind ht (Step.preserves_lift hr _) fun _ => ?_
  refine Step.preserves_bind ht (Step.preserves_lift hr _) fun _ => ?_
  refine Step.preserves_bind ht (Step.preserves_lift hr _) fun _ => ?_
  refine Step.preserves_bind ht ?_ fun _ => ?_
  · intro run
    exact ⟨[_], rfl, by simp⟩
  exact Step.preserves_mono (readAfterGet_sameCalls env _ _ _) onlyGetRuleAdded_of_sameCalls

/-- A returned run of `resourceIbmSccRuleRead` holds the requests made before
it and `GetRule` requests. -/
theorem resourceIbmSccRuleRead_calls {env : Env} {run run1 : Run} {diags : Option String}
    (h : resourceIbmSccRuleRead env run = .ret diags run1) :
    ∃ added, run1.calls = run.calls ++ added ∧ ∀ c ∈ added, ∃ options, c = .getRule options := by
  have h1 := resourceIbmSccRuleRead_onlyGetRuleAdded env run
  rw [h] at h1
  exact h1

/-- When the two blocks inside `if hasChange` give a request, it is handed to
the remote client. -/
theorem submitReplace_of_ok {env : Env} {d : ResourceData}
    {options final : ReplaceRuleOptions}
    (h : (replaceLabelsBlock d options >>= replaceImportBlock d) = .ok final) (run : Run) :
    submitReplace env d options run =
      afterReplace (env.ReplaceRuleWithContext final)
        ⟨run.state, run.calls ++ [.replaceRule final]⟩ := by
  obtain ⟨options1, h1, h2⟩ := Outcome.bind_eq_ok h
  simp [submitReplace, Step.bind_apply, h1, h2]

/-- The block `if hasChange` either faults or hands exactly one request, built
by its two blocks, to the remote client. -/
theorem submitReplace_cases (env : Env) (d : ResourceData) (options : ReplaceRuleOptions)
    (run : Run) :
    submitReplace env d options run = .fault ∨
    ∃ final, (replaceLabelsBlock d options >>= replaceImportBlock d) = .ok final ∧
      submitReplace env d options run =
        afterReplace (env.ReplaceRuleWithContext final)
          ⟨run.state, run.calls ++ [.replaceRule final]⟩ := by
  rcases Outcome.noError_cases (noError_replaceLabelsBlock d options) with h1 | ⟨options1, h1⟩
  · left
    simp [submitReplace, Step.bind_apply, h1]
  rcases Outcome.noError_cases (noError_replaceImportBlock d options1) with h2 | ⟨final, h2⟩
  · left
    simp [submitReplace, Step.bind_apply, h1, h2]
  · right
    have h : (replaceLabelsBlock d options >>= replaceImportBlock d) = .ok final := by
      rw [h1]
      exact h2
    exact ⟨final, h, submitReplace_of_ok h run⟩

/-- C14: for every state whose ID parses and whose `etag` is a string, with a
client: (1) when none of description, target, required_config, version, import
and labels has changed, `resourceIbmSccRuleUpdate` does what
`resourceIbmSccRuleRead` does; (2) when one of them has changed and the request
builds, the request names the two ID parts and carries the stored `etag` as
`IfMatch`, and Update hands it to the remote client as its first request;
(3) every run Update returns with holds a `ReplaceRule` request exactly when
one of the six keys has changed, and every `ReplaceRule` request in it carries
the stored `etag` as `IfMatch`. -/
theorem update_submits_iff_changed (env : Env) (st : ResourceData)
    (instanceID ruleID etag : String) (rest : List String)
    (hclient : env.clientErr = none)
    (hid : SepIdParts st.Id '/' = .ok (instanceID :: ruleID :: rest))
    (hetag : st.Get "etag" = .str etag) :
    (trackedChange st = false →
      resourceIbmSccRuleUpdate env ⟨st, []⟩ = resourceIbmSccRuleRead env ⟨st, []⟩) ∧
    (trackedChange st = true → ∀ (built : ReplaceRuleOptions × Bool) (final : ReplaceRuleOptions),
      updateRequest st instanceID ruleID = .ok built →
      (replaceLabelsBlock st built.1 >>= replaceImportBlock st) = .ok final →
      final.Addresses instanceID ruleID etag ∧
      resourceIbmSccRuleUpdate env ⟨st, []⟩ =
        (afterReplace (env.ReplaceRuleWithContext final) >>= fun _ =>
          resourceIbmSccRuleRead env) ⟨st, [.replaceRule final]⟩) ∧
    (∀ diags run, resourceIbmSccRuleUpdate env ⟨st, []⟩ = .ret diags run →
      ((∃ options, RemoteCall.replaceRule options ∈ run.calls) ↔ trackedChange st = true) ∧
      ∀ options, RemoteCall.replaceRule options ∈ run.calls →
        options.Addresses instanceID ruleID etag) := by
  have hupd : resourceIbmSccRuleUpdate env ⟨st, []⟩ =
      updateWithParts env st instanceID ruleID ⟨st, []⟩ :=
    resourceIbmSccRuleUpdate_of_parts hclient hid
  have haddr : ∀ {built : ReplaceRuleOptions × Bool} {final : ReplaceRuleOptions},
      updateRequest st instanceID ruleID = .ok built →
      (replaceLabelsBlock st built.1 >>= replaceImportBlock st) = .ok final →
      final.Addresses instanceID ruleID etag := by
    intro built final hb hf
    obtain ⟨options, flag⟩ := built
    obtain ⟨-, a, b, c⟩ := updateRequest_ok hetag hb
    obtain ⟨options1, h1, h2⟩ := Outcome.bind_eq_ok hf
    obtain ⟨a1, b1, c1⟩ := replaceLabelsBlock_ok h1
    obtain ⟨a2, b2, c2⟩ := replaceImportBlock_ok h2
    exact ⟨by rw [a2, a1]; exact a, by rw [b2, b1]; exact b, by rw [c2, c1]; exact c⟩
  refine ⟨?_, ?_, ?_⟩
  · intro hno
    rw [hupd]
    simp [updateWithParts, Step.bind_apply, updateRequest_of_unchanged instanceID ruleID hetag hno]
  · intro hyes built final hb hf
    refine ⟨haddr hb hf, ?_⟩
    obtain ⟨options, flag⟩ := built
    obtain ⟨hflag, -⟩ := updateRequest_ok hetag hb
    rw [hyes] at hflag
    subst hflag
    rw [hupd]
    simp only [updateWithParts, Step.bind_apply, hb, Step.lift_ok, Step.when_true]
    rw [submitReplace_of_ok hf]
    simp
  · intro diags run hrun
    rw [hupd] at hrun
    rcases Outcome.noError_cases (noError_updateRequest st instanceID ruleID) with hb | ⟨built, hb⟩
    · simp [updateWithParts, Step.bind_apply, hb] at hrun
    obtain ⟨options, flag⟩ := built
    obtain ⟨hflag, -⟩ := updateRequest_ok hetag hb
    cases flag with
    | false =>
      simp only [updateWithParts, Step.bind_apply, hb, Step.lift_ok, Step.when_false,
        Step.pure_apply] at hrun
      obtain ⟨added, hcalls, hget⟩ := resourceIbmSccRuleRead_calls hrun
      simp only [List.nil_append] at hcalls
      have hnone : ∀ options, RemoteCall.replaceRule options ∉ run.calls := by
        intro options hmem
        rw [hcalls] at hmem
        obtain ⟨o, ho⟩ := hget _ hmem
        cases ho
      refine ⟨⟨fun ⟨options, hmem⟩ => absurd hmem (hnone options), fun h => ?_⟩,
        fun options hmem => absurd hmem (hnone options)⟩
      rw [← hflag] at h
      cases h
    | true =>
      simp only [updateWithParts, Step.bind_apply, hb, Step.lift_ok, Step.when_true] at hrun
      rcases submitReplace_cases env st options ⟨st, []⟩ with hs | ⟨final, hf, hs⟩
      · rw [hs] at hrun
        cases hrun
      rw [hs] at hrun
      have hfinal := haddr hb hf
      have hcalls : ∃ added, run.calls = [RemoteCall.replaceRule final] ++ added ∧
          ∀ c ∈ added, ∃ o, c = RemoteCall.getRule o := by
        unfold afterReplace at hrun
        cases herr : (env.ReplaceRuleWithContext final).err with
        | some err =>
          rw [herr] at hrun
          simp only [Step.ret_apply, List.nil_append, Flow.ret.injEq] at hrun
          obtain ⟨-, hr⟩ := hrun
          subst hr
          exact ⟨[], rfl, by simp⟩
        | none =>
          rw [herr] at hrun
          simp only [Step.pure_apply, List.nil_append] at hrun
          exact resourceIbmSccRuleRead_calls hrun
      obtain ⟨added, hcalls, hget⟩ := hcalls
      refine ⟨⟨fun _ => hflag.symm, fun _ => ⟨final, by rw [hcalls]; simp⟩⟩, ?_⟩
      intro o hmem
      rw [hcalls] at hmem
      rcases List.mem_append.mp hmem with hm | hm
      · simp only [List.mem_singleton, RemoteCall.replaceRule.injEq] at hm
        rw [hm]
        exact hfinal
      · obtain ⟨o1, ho1⟩ := hget _ hm
        cases ho1

/-- With a client, an ID of (at least) two parts, a `GetRule` answer without
error and no failure of the first three `d.Set` calls, `resourceIbmSccRuleRead`
reaches the `description` assignment with the three identity fields written. -/
theorem resourceIbmSccRuleRead_of_success {env : Env} {run : Run} {instanceID ruleID : String}
    {rest : List String} {rule : Rule} {response : DetailedResponse}
    (hclient : env.clientErr = none)
    (hid : SepIdParts run.state.Id '/' = .ok (instanceID :: ruleID :: rest))
    (hres : env.GetRuleWithContext ⟨some instanceID, some ruleID⟩ =
      ⟨some rule, some response, none⟩)
    (hset : ∀ value, env.setErr "instance_id" value = none ∧
      env.setErr "rule_id" value = none ∧ env.setErr "etag" value = none) :
    resourceIbmSccRuleRead env run =
      readRuleFields env rule
        ⟨((run.state.Set "instance_id" (.str instanceID)).Set "rule_id" (.str ruleID)).Set "etag"
          (.str (headersGet response.Headers "ETag")),
          run.calls ++ [.getRule ⟨some instanceID, some ruleID⟩]⟩ := by
  rw [resourceIbmSccRuleRead_of_parts hclient hid, hres]
  simp [readAfterGet, readSuccess, setField, (hset _).1, (hset _).2.1, (hset _).2.2,
    Step.bind_apply, deref]

theorem updateRequest_versionChangedState :
    updateRequest versionChangedState "abc" "def" = .ok (versionOnlyOptions, true) := by
  simp [updateRequest, versionChangedState, ResourceData.Get, GoMap.get, GoVal.asString,
    updateBaseBlock, updateVersionBlock, updateImportBlock, updateLabelsBlock,
    ResourceData.HasChange, versionOnlyOptions]

theorem replaceBlocks_versionChangedState :
    (replaceLabelsBlock versionChangedState versionOnlyOptions >>=
      replaceImportBlock versionChangedState) = .ok versionOnlyOptions := by
  simp [replaceLabelsBlock, replaceImportBlock, versionChangedState, ResourceData.GetOk,
    ResourceData.Get, GoMap.get, GoVal.isZero]

/-- C13, at a stored rule whose `version` alone has changed: Update hands the
remote client a `ReplaceRule` request that has the new version but no
description, no target and no required config, although the configuration
holds all three; Update then re-reads and returns no diagnostics. -/
theorem update_version_only_omits_base_fields :
    versionChangedState.Get "description" = .str "desc" ∧
    (versionChangedState.GetFirst "target").notNil = true ∧
    (versionChangedState.GetFirst "required_config").notNil = true ∧
    versionOnlyOptions.Version = some "1.0.1" ∧
    versionOnlyOptions.Description = none ∧ versionOnlyOptions.Target = none ∧
    versionOnlyOptions.RequiredConfig = none ∧
    ∃ run, resourceIbmSccRuleUpdate sampleEnv ⟨versionChangedState, []⟩ = .ret none run ∧
      run.calls = [.replaceRule versionOnlyOptions, .getRule ⟨some "abc", some "def"⟩] := by
  refine ⟨rfl, rfl, rfl, rfl, rfl, rfl, rfl, ?_⟩
  have hid : SepIdParts versionChangedState.Id '/' = .ok ["abc", "def"] := sepIdParts_abc_def
  have hupd : resourceIbmSccRuleUpdate sampleEnv ⟨versionChangedState, []⟩ =
      resourceIbmSccRuleRead sampleEnv
        ⟨versionChangedState, [.replaceRule versionOnlyOptions]⟩ := by
    rw [@resourceIbmSccRuleUpdate_of_parts sampleEnv ⟨versionChangedState, []⟩ "abc" "def" []
      rfl hid]
    simp only [updateWithParts, Step.bind_apply, updateRequest_versionChangedState,
      Step.lift_ok, Step.when_true]
    rw [submitReplace_of_ok replaceBlocks_versionChangedState]
    rfl
  have hread := @resourceIbmSccRuleRead_of_success sampleEnv
    ⟨versionChangedState, [.replaceRule versionOnlyOptions]⟩ "abc" "def" [] sampleRule
    ⟨200, [("ETag", "e2")], "ok"⟩ rfl hid rfl (fun _ => ⟨rfl, rfl, rfl⟩)
  obtain ⟨run, hrun⟩ := readRuleFields_returns sampleEnv sampleRule
    ⟨((versionChangedState.Set "instance_id" (.str "abc")).Set "rule_id" (.str "def")).Set "etag"
      (.str (headersGet [("ETag", "e2")] "ETag")),
      [.replaceRule versionOnlyOptions] ++ [.getRule ⟨some "abc", some "def"⟩]⟩
    (fun _ _ => rfl) ⟨_, rfl⟩ ⟨_, rfl⟩
  have hsame := readRuleFields_sameCalls sampleEnv sampleRule
    ⟨((versionChangedState.Set "instance_id" (.str "abc")).Set "rule_id" (.str "def")).Set "etag"
      (.str (headersGet [("ETag", "e2")] "ETag")),
      [.replaceRule versionOnlyOptions] ++ [.getRule ⟨some "abc", some "def"⟩]⟩
  rw [hrun] at hsame
  refine ⟨run, ?_, hsame⟩
  rw [hupd, hread]
  exact hrun

theorem update_submits_iff_changed_witness :
    versionOnlyOptions.Addresses "abc" "def" "e1" ∧
    resourceIbmSccRuleUpdate sampleEnv ⟨versionChangedState, []⟩ =
      (afterReplace (sampleEnv.ReplaceRuleWithContext versionOnlyOptions) >>= fun _ =>
        resourceIbmSccRuleRead sampleEnv)
        ⟨versionChangedState, [.replaceRule versionOnlyOptions]⟩ :=
  (update_submits_iff_changed sampleEnv versionChangedState "abc" "def" "e1" [] rfl rfl rfl).2.1
    rfl (versionOnlyOptions, true) versionOnlyOptions updateRequest_versionChangedState
    replaceBlocks_versionChangedState

/-! ## The `all` and `all_if` blocks of the decoder -/

theorem allBlock_of_nonempty_list (x : GoVal) (xs : List GoVal)
    (any : Option RequiredConfigSubRule) : allBlock (.list (x :: xs)) any = .fault := by
  simp [allBlock, GoVal.notNil, GoVal.asList]

theorem allBlock_ok {entry : GoVal} {any result : Option RequiredConfigSubRule}
    (h : allBlock entry any = .ok result) :
    result = any ∧ (entry = .nil ∨ entry = .list []) := by
  cases entry with
  | nil =>
    simp [allBlock, GoVal.notNil] at h
    exact ⟨h.symm, Or.inl rfl⟩
  | list xs =>
    cases xs with
    | nil =>
      simp [allBlock, GoVal.notNil, GoVal.asList] at h
      exact ⟨h.symm, Or.inr rfl⟩
    | cons x rest =>
      rw [allBlock_of_nonempty_list] at h
      cases h
  | _ =>
    simp [allBlock, GoVal.notNil, GoVal.asList] at h

/-- C21: `ibmSccRCMapToRequiredConfig` ends in a runtime fault on every map
whose `all` entry or `all_if` entry is a non-empty list; and whenever it
returns a node, the node's `All` and `AllIf` are unset, its `Any` is what the
`any` block read from the `any` entry, and the `all` and `all_if` entries are
absent or empty lists. -/
theorem all_entries_never_decoded (m : GoMap) :
    ((∃ x xs, GoMap.get m "all" = .list (x :: xs)) ∨
        (∃ x xs, GoMap.get m "all_if" = .list (x :: xs)) →
      ibmSccRCMapToRequiredConfig m = .fault) ∧
    (∀ r, ibmSccRCMapToRequiredConfig m = .ok r →
      ∃ rc, r = .base (some rc) ∧ rc.All = none ∧ rc.AllIf = none ∧
        anyBlock (GoMap.get m "any") = .ok rc.Any ∧
        (GoMap.get m "all" = .nil ∨ GoMap.get m "all" = .list []) ∧
        (GoMap.get m "all_if" = .nil ∨ GoMap.get m "all_if" = .list [])) := by
  have hok : ∀ r, ibmSccRCMapToRequiredConfig m = .ok r →
      ∃ rc, r = .base (some rc) ∧ rc.All = none ∧ rc.AllIf = none ∧
        anyBlock (GoMap.get m "any") = .ok rc.Any ∧
        (GoMap.get m "all" = .nil ∨ GoMap.get m "all" = .list []) ∧
        (GoMap.get m "all_if" = .nil ∨ GoMap.get m "all_if" = .list []) := by
    intro r hr
    obtain ⟨description, or, and, any0, anyIf, any1, any, property, operator, value, -, -, -,
      hany, -, hall, hallIf, -, -, -, hrc⟩ := ibmSccRCMapToRequiredConfig_ok hr
    obtain ⟨e1, c1⟩ := allBlock_ok hall
    obtain ⟨e2, c2⟩ := allBlock_ok hallIf
    refine ⟨_, hrc, rfl, rfl, ?_, c1, c2⟩
    simp only [RequiredConfig.Any]
    rw [e2, e1]
    exact hany
  refine ⟨?_, hok⟩
  intro hlist
  rcases Outcome.noError_cases (noError_ibmSccRCMapToRequiredConfig m) with hf | ⟨r, hr⟩
  · exact hf
  · obtain ⟨rc, -, -, -, -, c1, c2⟩ := hok r hr
    rcases hlist with ⟨x, xs, hx⟩ | ⟨x, xs, hx⟩
    · rw [hx] at c1
      rcases c1 with c | c <;> cases c
    · rw [hx] at c2
      rcases c2 with c | c <;> cases c

theorem all_entries_never_decoded_witness :
    ibmSccRCMapToRequiredConfig allListMap = .fault :=
  (all_entries_never_decoded allListMap).1 (Or.inl ⟨_, _, rfl⟩)

/-! ## String fields of a leaf node -/

theorem nonEmptyStringEntry_of_nilOrString {m : GoMap} {key : String}
    (h : (GoMap.get m key).IsNilOrString) :
    ∃ field, nonEmptyStringEntry m key = .ok field ∧
      ∀ s, field = some s ↔ GoMap.get m key = .str s ∧ s ≠ "" := by
  rcases h with h | ⟨s0, h⟩
  · refine ⟨none, by simp [nonEmptyStringEntry, h, GoVal.notNil], ?_⟩
    intro s
    simp [h]
  · by_cases hs : s0 = ""
    · refine ⟨none, by simp [nonEmptyStringEntry, h, GoVal.notNil, GoVal.asString, hs], ?_⟩
      intro s
      simp only [h, GoVal.str.injEq]
      constructor
      · intro h1
        cases h1
      · intro h1
        exact absurd (h1.1 ▸ hs) h1.2
    · refine ⟨some s0, by simp [nonEmptyStringEntry, h, GoVal.notNil, GoVal.asString, hs], ?_⟩
      intro s
      simp only [h, GoVal.str.injEq, Option.some.injEq]
      constructor
      · intro h1
        subst h1
        exact ⟨rfl, hs⟩
      · intro h1
        exact h1.1

theorem valueFromMapEntry_of_nilOrString {m : GoMap}
    (h : (GoMap.get m "value").IsNilOrString) :
    ∃ value, valueFromMapEntry m = .ok value ∧
      (GoMap.get m "value" = .nil ∨ GoMap.get m "value" = .str "" → value = none) := by
  rcases h with h | ⟨s0, h⟩
  · exact ⟨none, by simp [valueFromMapEntry, h, GoVal.notNil], fun _ => rfl⟩
  · by_cases hs : s0 = ""
    · subst hs
      exact ⟨none, by simp [valueFromMapEntry, h, GoVal.notNil, GoVal.asString], fun _ => rfl⟩
    · have hlen : s0.length > 0 := by
        rcases s0 with ⟨cs⟩
        cases cs with
        | nil => exact absurd rfl hs
        | cons c rest => simp [String.length]
      refine ⟨some (valueFromString s0),
        by simp [valueFromMapEntry, h, GoVal.notNil, GoVal.asString, hlen], ?_⟩
      intro h1
      rw [h] at h1
      rcases h1 with h1 | h1
      · cases h1
      · simp only [GoVal.str.injEq] at h1
        exact absurd h1 hs

/-- C23: on every attribute map without `or`, `and`, `any`, `any_if`, `all`
and `all_if` entries whose `description`, `property`, `operator` and `value`
entries are each absent or a string, `ibmSccRCMapToRequiredConfig` returns a
node whose `Description`, `Property` and `Operator` are set to a string exactly
when the entry of that name is that string and the string is not empty, whose
`And`, `Or`, `All`, `AllIf`, `Any` and `AnyIf` are unset, and whose `Value` is
unset when the `value` entry is absent or empty. -/
theorem leaf_string_fields (m : GoMap)
    (hcomb : ∀ key, key ∈ ["or", "and", "any", "any_if", "all", "all_if"] →
      GoMap.get m key = .nil)
    (htyped : ∀ key, key ∈ ["description", "property", "operator", "value"] →
      (GoMap.get m key).IsNilOrString) :
    ∃ rc, ibmSccRCMapToRequiredConfig m = .ok (.base (some rc)) ∧
      (∀ s, rc.Description = some s ↔ GoMap.get m "description" = .str s ∧ s ≠ "") ∧
      (∀ s, rc.Property = some s ↔ GoMap.get m "property" = .str s ∧ s ≠ "") ∧
      (∀ s, rc.Operator = some s ↔ GoMap.get m "operator" = .str s ∧ s ≠ "") ∧
      rc.And = none ∧ rc.Or = none ∧ rc.All = none ∧ rc.AllIf = none ∧ rc.Any = none ∧
      rc.AnyIf = none ∧
      (GoMap.get m "value" = .nil ∨ GoMap.get m "value" = .str "" → rc.Value = none) := by
  obtain ⟨description, hd, hdesc⟩ := nonEmptyStringEntry_of_nilOrString
    (htyped "description" (by simp))
  obtain ⟨property, hp, hprop⟩ := nonEmptyStringEntry_of_nilOrString
    (htyped "property" (by simp))
  obtain ⟨operator, ho, hop⟩ := nonEmptyStringEntry_of_nilOrString
    (htyped "operator" (by simp))
  obtain ⟨value, hv, hval⟩ := valueFromMapEntry_of_nilOrString (htyped "value" (by simp))
  refine ⟨.mk description none none none none none none property operator value, ?_,
    hdesc, hprop, hop, rfl, rfl, rfl, rfl, rfl, rfl, hval⟩
  rw [ibmSccRCMapToRequiredConfig_of_no_combinators m (hcomb "or" (by simp))
    (hcomb "and" (by simp)) (hcomb "any" (by simp)) (hcomb "any_if" (by simp))
    (hcomb "all" (by simp)) (hcomb "all_if" (by simp)), hd, hp, ho, hv]
  rfl

theorem leaf_string_fields_witness :
    ∃ rc, ibmSccRCMapToRequiredConfig leafMap = .ok (.base (some rc)) ∧
      (∀ s, rc.Description = some s ↔ GoMap.get leafMap "description" = .str s ∧ s ≠ "") ∧
      (∀ s, rc.Property = some s ↔ GoMap.get leafMap "property" = .str s ∧ s ≠ "") ∧
      (∀ s, rc.Operator = some s ↔ GoMap.get leafMap "operator" = .str s ∧ s ≠ "") ∧
      rc.And = none ∧ rc.Or = none ∧ rc.All = none ∧ rc.AllIf = none ∧ rc.Any = none ∧
      rc.AnyIf = none ∧
      (GoMap.get leafMap "value" = .nil ∨ GoMap.get leafMap "value" = .str "" →
        rc.Value = none) :=
  leaf_string_fields leafMap
    (by
      intro key hkey
      simp only [List.mem_cons, List.mem_singleton, List.not_mem_nil, or_false] at hkey
      rcases hkey with h | h | h | h | h | h <;> subst h <;> rfl)
    (by
      intro key hkey
      simp only [List.mem_cons, List.mem_singleton, List.not_mem_nil, or_false] at hkey
      rcases hkey with h | h | h | h <;> subst h
      · exact Or.inr ⟨_, rfl⟩
      · exact Or.inr ⟨_, rfl⟩
      · exact Or.inr ⟨_, rfl⟩
      · exact Or.inl rfl)

/-! ## Required entries of the target decoders -/

theorem asString_of_not_string {v : GoVal} (h : ∀ s, v ≠ .str s) : v.asString = .fault := by
  cases v with
  | str s => exact absurd rfl (h s)
  | _ => rfl

theorem Outcome.bind_fault_of_noError {α β : Type} {x : Outcome α} {f : α → Outcome β}
    (hx : x.NoError) (hf : ∀ a, f a = .fault) : (x >>= f) = .fault := by
  rcases Outcome.noError_cases hx with h | ⟨a, h⟩
  · rw [h]
    rfl
  · rw [h]
    exact hf a

theorem additionalTargetAttributesFromMaps_of_wellTyped {items : List GoVal}
    (h : WellTypedAttributeItems items) :
    ∃ models, additionalTargetAttributesFromMaps items = .ok models := by
  induction items with
  | nil => exact ⟨[], rfl⟩
  | cons item rest ih =>
    cases item with
    | map itemMap =>
      obtain ⟨h1, h2, h3, h4⟩ := h
      obtain ⟨models, hmodels⟩ := ih h4
      obtain ⟨name, hname, -⟩ := nonEmptyStringEntry_of_nilOrString h1
      obtain ⟨operator, hoperator, -⟩ := nonEmptyStringEntry_of_nilOrString h2
      obtain ⟨value, hvalue, -⟩ := nonEmptyStringEntry_of_nilOrString h3
      refine ⟨⟨name, operator, value⟩ :: models, ?_⟩
      simp [additionalTargetAttributesFromMaps, GoVal.asMap,
        resourceIbmSccRuleMapToAdditionalTargetAttribute, hname, hoperator, hvalue, hmodels]
    | _ => exact absurd h (by simp [WellTypedAttributeItems])

theorem additionalTargetAttributesBlock_of_wellTyped {m : GoMap}
    (h : GoMap.get m "additional_target_attributes" = .nil ∨
      ∃ items, GoMap.get m "additional_target_attributes" = .list items ∧
        WellTypedAttributeItems items) :
    ∃ attributes, additionalTargetAttributesBlock m = .ok attributes := by
  rcases h with h | ⟨items, h, hitems⟩
  · exact ⟨none, by simp [additionalTargetAttributesBlock, h, GoVal.notNil]⟩
  · obtain ⟨models, hmodels⟩ := additionalTargetAttributesFromMaps_of_wellTyped hitems
    exact ⟨some models,
      by simp [additionalTargetAttributesBlock, h, GoVal.notNil, GoVal.asList, hmodels]⟩

/-- C24: on every attribute map whose `service_name` entry or `resource_kind`
entry is not a string (absent included), `ibmSccTargetMapToTarget` and
`resourceIbmSccRuleMapToTarget` both end in a runtime fault; on every map where
both are strings and the optional entries are well typed, both return a target
whose `ServiceName` and `ResourceKind` are these strings, empty or not. -/
theorem target_decoders_required_entries (m : GoMap) :
    ((∀ s, GoMap.get m "service_name" ≠ .str s) ∨ (∀ s, GoMap.get m "resource_kind" ≠ .str s) →
      ibmSccTargetMapToTarget m = .fault ∧ resourceIbmSccRuleMapToTarget m = .fault) ∧
    (∀ serviceName resourceKind, GoMap.get m "service_name" = .str serviceName →
      GoMap.get m "resource_kind" = .str resourceKind → WellTypedOptionalEntries m →
      (∃ target, ibmSccTargetMapToTarget m = .ok target ∧
        target.ServiceName = some serviceName ∧ target.ResourceKind = some resourceKind) ∧
      (∃ target, resourceIbmSccRuleMapToTarget m = .ok target ∧
        target.ServiceName = some serviceName ∧ target.ResourceKind = some resourceKind)) := by
  constructor
  · intro h
    rcases h with h | h
    · have hf := asString_of_not_string h
      constructor
      · simp [ibmSccTargetMapToTarget, hf]
      · simp [resourceIbmSccRuleMapToTarget, hf]
    · have hf := asString_of_not_string h
      constructor
      · unfold ibmSccTargetMapToTarget
        exact Outcome.bind_fault_of_noError (noError_asString _) fun _ =>
          Outcome.bind_fault_of_noError (noError_nonEmptyStringEntry _ _) fun _ =>
          Outcome.bind_fault_of_noError (noError_nonEmptyStringEntry _ _) fun _ => by
            rw [hf]
            rfl
      · unfold resourceIbmSccRuleMapToTarget
        exact Outcome.bind_fault_of_noError (noError_asString _) fun _ =>
          Outcome.bind_fault_of_noError (noError_nonEmptyStringEntry _ _) fun _ => by
            rw [hf]
            rfl
  · intro serviceName resourceKind hname hkind htyped
    obtain ⟨h1, h2, h3⟩ := htyped
    obtain ⟨displayName, hdisplay, -⟩ := nonEmptyStringEntry_of_nilOrString h1
    obtain ⟨referenceName, hreference, -⟩ := nonEmptyStringEntry_of_nilOrString h2
    obtain ⟨attributes, hattributes⟩ := additionalTargetAttributesBlock_of_wellTyped h3
    constructor
    · exact ⟨⟨some serviceName, displayName, some resourceKind, attributes, referenceName⟩,
        by simp [ibmSccTargetMapToTarget, hname, hkind, GoVal.asString, hdisplay, hreference,
          hattributes], rfl, rfl⟩
    · exact ⟨⟨some serviceName, displayName, some resourceKind, attributes, none⟩,
        by simp [resourceIbmSccRuleMapToTarget, hname, hkind, GoVal.asString, hdisplay,
          hattributes], rfl, rfl⟩

theorem target_decoders_required_entries_witness :
    (ibmSccTargetMapToTarget noResourceKindTargetMap = .fault ∧
      resourceIbmSccRuleMapToTarget noResourceKindTargetMap = .fault) ∧
    ((∃ target, ibmSccTargetMapToTarget emptyNamesTargetMap = .ok target ∧
        target.ServiceName = some "" ∧ target.ResourceKind = some "") ∧
      (∃ target, resourceIbmSccRuleMapToTarget emptyNamesTargetMap = .ok target ∧
        target.ServiceName = some "" ∧ target.ResourceKind = some "")) :=
  ⟨(target_decoders_required_entries noResourceKindTargetMap).1
      (Or.inr (fun s h => by cases h)),
    (target_decoders_required_entries emptyNamesTargetMap).2 "" "" rfl rfl
      ⟨Or.inl rfl, Or.inl rfl, Or.inr ⟨_, rfl,
        ⟨Or.inr ⟨_, rfl⟩, Or.inl rfl, Or.inl rfl, trivial⟩⟩⟩⟩

/-! ## Read: failures other than "not found" -/

/-- C25: for every state whose ID parses, if `GetRule` fails and the response
is nil or its status code is not 404, `resourceIbmSccRuleRead` returns, after
that one request, the diagnostics `GetRuleWithContext failed <err>\n<response>`,
and the state (ID, values, change set) is the one it was given. -/
theorem read_failure_keeps_state (env : Env) (st : ResourceData)
    (instanceID ruleID : String) (rest : List String) (err : String)
    (hclient : env.clientErr = none)
    (hid : SepIdParts st.Id '/' = .ok (instanceID :: ruleID :: rest))
    (herr : (env.GetRuleWithContext ⟨some instanceID, some ruleID⟩).err = some err)
    (hresp : (env.GetRuleWithContext ⟨some instanceID, some ruleID⟩).response = none ∨
      ∃ response, (env.GetRuleWithContext ⟨some instanceID, some ruleID⟩).response =
        some response ∧ response.StatusCode ≠ 404) :
    ∃ detail, resourceIbmSccRuleRead env ⟨st, []⟩ =
      .ret (some ("GetRuleWithContext failed" ++ detail))
        ⟨st, [.getRule ⟨some instanceID, some ruleID⟩]⟩ := by
  refine ⟨" " ++ err ++ "\n" ++
    responseText (env.GetRuleWithContext ⟨some instanceID, some ruleID⟩).response, ?_⟩
  have hnot : isNotFound (env.GetRuleWithContext ⟨some instanceID, some ruleID⟩).response
      = false := by
    rcases hresp with h | ⟨response, h, hstatus⟩
    · rw [h]
      rfl
    · rw [h]
      simp [isNotFound, hstatus]
  have hmsg : "GetRuleWithContext failed " ++ err ++ "\n" ++
      responseText (env.GetRuleWithContext ⟨some instanceID, some ruleID⟩).response =
      "GetRuleWithContext failed" ++ (" " ++ err ++ "\n" ++
        responseText (env.GetRuleWithContext ⟨some instanceID, some ruleID⟩).response) := by
    have h0 : "GetRuleWithContext failed " = "GetRuleWithContext failed" ++ " " := by decide
    rw [h0]
    simp only [String.append_assoc]
  rw [resourceIbmSccRuleRead_of_parts hclient hid]
  simp only [readAfterGet, herr, readFailure, hnot, Bool.false_eq_true, if_false,
    Step.ret_apply, List.nil_append, hmsg]

theorem read_failure_keeps_state_witness :
    ∃ detail, resourceIbmSccRuleRead serverErrorEnv ⟨storedState, []⟩ =
      .ret (some ("GetRuleWithContext failed" ++ detail))
        ⟨storedState, [.getRule ⟨some "abc", some "def"⟩]⟩ :=
  read_failure_keeps_state serverErrorEnv storedState "abc" "def" [] "server error" rfl rfl rfl
    (Or.inr ⟨⟨500, [], "internal error"⟩, rfl, by decide⟩)

/-! ## Diff suppression of the service display name -/

theorem serviceDisplayNameDiffSuppress_iff (oldVal newVal : String) :
    serviceDisplayNameDiffSuppress oldVal newVal = true ↔
      newVal = "" ∨ stringsToLower oldVal = stringsToLower newVal := by
  unfold serviceDisplayNameDiffSuppress
  by_cases h1 : newVal = ""
  · simp [h1]
  · by_cases h2 : stringsToLower oldVal = stringsToLower newVal
    · simp [h1, h2]
    · simp [h1, h2]

theorem ruleServiceDisplayNameDiffSuppress_iff (oldVal newVal : String) :
    ruleServiceDisplayNameDiffSuppress oldVal newVal = true ↔
      newVal = "" ∨ stringsToLower oldVal = stringsToLower newVal := by
  unfold ruleServiceDisplayNameDiffSuppress
  by_cases h1 : newVal = ""
  · simp [h1]
  · by_cases h2 : stringsToLower oldVal = stringsToLower newVal
    · simp [h1, h2]
    · simp [h1, h2]

/-- C26: the diff-suppress function stored under `service_display_name` in
`getTargetSchema` suppresses a difference exactly when the new value is empty
or both values are equal after lower-casing; it suppresses every value against
itself; on two non-empty values it gives the same answer in both directions;
and the function stored under the same key in the target schema of the rule
resource gives the same answer on every pair of values. -/
theorem display_name_diff_suppress :
    SchemaMap.diffSuppressOf getTargetSchema "service_display_name" =
      some serviceDisplayNameDiffSuppress ∧
    SchemaMap.diffSuppressOf ruleTargetSchema "service_display_name" =
      some ruleServiceDisplayNameDiffSuppress ∧
    (∀ oldVal newVal, serviceDisplayNameDiffSuppress oldVal newVal = true ↔
      newVal = "" ∨ stringsToLower oldVal = stringsToLower newVal) ∧
    (∀ v, serviceDisplayNameDiffSuppress v v = true) ∧
    (∀ a b, a ≠ "" → b ≠ "" →
      serviceDisplayNameDiffSuppress a b = serviceDisplayNameDiffSuppress b a) ∧
    (∀ oldVal newVal, serviceDisplayNameDiffSuppress oldVal newVal =
      ruleServiceDisplayNameDiffSuppress oldVal newVal) := by
  refine ⟨rfl, rfl, serviceDisplayNameDiffSuppress_iff, ?_, ?_, ?_⟩
  · intro v
    exact (serviceDisplayNameDiffSuppress_iff v v).2 (Or.inr rfl)
  · intro a b ha hb
    rw [Bool.eq_iff_iff, serviceDisplayNameDiffSuppress_iff, serviceDisplayNameDiffSuppress_iff]
    constructor
    · rintro (h | h)
      · exact absurd h hb
      · exact Or.inr h.symm
    · rintro (h | h)
      · exact absurd h ha
      · exact Or.inr h.symm
  · intro oldVal newVal
    rw [Bool.eq_iff_iff, serviceDisplayNameDiffSuppress_iff,
      ruleServiceDisplayNameDiffSuppress_iff]

theorem display_name_diff_suppress_witness :
    serviceDisplayNameDiffSuppress "Cloud Object Storage" "cloud object storage" =
      serviceDisplayNameDiffSuppress "cloud object storage" "Cloud Object Storage" :=
  display_name_diff_suppress.2.2.2.2.1 "Cloud Object Storage" "cloud object storage"
    (by decide) (by decide)

/-! ## Bounded recursion of the schema builder -/

theorem getRequiredConfigSchema_of_gt {d : Int} (hd : d > MAX_REQUIRED_CONFIG_DEPTH) :
    getRequiredConfigSchema d = requiredConfigBaseMap := by
  rw [getRequiredConfigSchema]
  simp [hd]

theorem getRequiredConfigSchema_below_of_le {d : Int} {key : String}
    (hlo : -9223372036854775808 ≤ d) (hd : d ≤ MAX_REQUIRED_CONFIG_DEPTH)
    (hkey : key = "and" ∨ key = "or") :
    SchemaMap.below (getRequiredConfigSchema d) key = some (getRequiredConfigSchema (d + 1)) := by
  have hnot : ¬ d > MAX_REQUIRED_CONFIG_DEPTH := not_lt.2 hd
  have hadd := intAdd_one_of_le hlo hd
  rw [getRequiredConfigSchema]
  rcases hkey with rfl | rfl <;>
    simp [hnot, hadd, SchemaMap.below, SchemaMap.set, SchemaMap.get, requiredConfigBaseMap,
      listSchema, Schema.elem]

theorem requiredConfigBaseMap_below {key : String} (hkey : key = "and" ∨ key = "or") :
    SchemaMap.below requiredConfigBaseMap key = none := by
  rcases hkey with rfl | rfl <;>
    simp [SchemaMap.below, SchemaMap.get, requiredConfigBaseMap]

theorem follow_within (path : List String) :
    ∀ d : Int, -9223372036854775808 ≤ d → (∀ key ∈ path, key = "and" ∨ key = "or") →
      (path.length : Int) ≤ 6 - d →
      SchemaMap.follow (getRequiredConfigSchema d) path =
        some (getRequiredConfigSchema (d + path.length)) := by
  induction path with
  | nil =>
    intro d _ _ _
    simp [SchemaMap.follow]
  | cons key rest ih =>
    intro d hlo hkeys hlen
    simp only [List.length_cons, Nat.cast_add, Nat.cast_one] at hlen
    have hd : d ≤ MAX_REQUIRED_CONFIG_DEPTH := by
      simp only [MAX_REQUIRED_CONFIG_DEPTH]
      omega
    have hbelow := getRequiredConfigSchema_below_of_le hlo hd (hkeys key (by simp))
    simp only [SchemaMap.follow, hbelow]
    rw [ih (d + 1) (by omega) (fun k hk => hkeys k (by simp [hk])) (by omega)]
    simp only [List.length_cons, Nat.cast_add, Nat.cast_one]
    congr 2
    omega

theorem follow_beyond (path : List String) :
    ∀ d : Int, -9223372036854775808 ≤ d → d ≤ 6 → (∀ key ∈ path, key = "and" ∨ key = "or") →
      6 - d < (path.length : Int) →
      SchemaMap.follow (getRequiredConfigSchema d) path = none := by
  induction path with
  | nil =>
    intro d _ hd _ hlen
    simp only [List.length_nil, Nat.cast_zero] at hlen
    omega
  | cons key rest ih =>
    intro d hlo hd6 hkeys hlen
    simp only [List.length_cons, Nat.cast_add, Nat.cast_one] at hlen
    by_cases hd : d ≤ MAX_REQUIRED_CONFIG_DEPTH
    · have hbelow := getRequiredConfigSchema_below_of_le hlo hd (hkeys key (by simp))
      simp only [SchemaMap.follow, hbelow]
      simp only [MAX_REQUIRED_CONFIG_DEPTH] at hd
      exact ih (d + 1) (by omega) (by omega) (fun k hk => hkeys k (by simp [hk])) (by omega)
    · have hgt : d > MAX_REQUIRED_CONFIG_DEPTH := not_le.1 hd
      rw [getRequiredConfigSchema_of_gt hgt]
      simp only [SchemaMap.follow, requiredConfigBaseMap_below (hkeys key (by simp))]

/-- C22: the recursion of the schema builder is bounded. (1) A recursive call
is made only at a depth `d <= MAX_REQUIRED_CONFIG_DEPTH`, at the depth `d + 1`
(Go addition), which is strictly greater, and the distance to depth 6 strictly
decreases; (2) beyond the maximum depth `getRequiredConfigSchema` is the base
map, without a recursive call; (3) for every depth `d <= 6` of a Go `int`,
negative ones included, descending `n <= 6 - d` times through `and` / `or`
from `getRequiredConfigSchema d` reaches `getRequiredConfigSchema (d + n)`, and
no longer descent exists; (4) from depth 0, a descent of six steps ends at the
base map, which has neither `and` nor `or`, and no descent of seven steps
exists: seven levels, the last without combinators; (5) `getSubRuleSchema d`
holds `getRequiredConfigSchema` at the depth `d + 1` (Go addition), which is
`d + 1` for every `d` below the largest `int`. -/
theorem schema_recursion_bounded :
    (∀ d : Int, d ≤ MAX_REQUIRED_CONFIG_DEPTH →
      d < intAdd d 1 ∧ (6 - intAdd d 1).toNat < (6 - d).toNat) ∧
    (∀ d : Int, d > MAX_REQUIRED_CONFIG_DEPTH →
      getRequiredConfigSchema d = requiredConfigBaseMap) ∧
    (∀ (d : Int) (path : List String), -9223372036854775808 ≤ d → d ≤ 6 →
      (∀ key ∈ path, key = "and" ∨ key = "or") →
      ((path.length : Int) ≤ 6 - d →
        SchemaMap.follow (getRequiredConfigSchema d) path =
          some (getRequiredConfigSchema (d + path.length))) ∧
      (6 - d < (path.length : Int) →
        SchemaMap.follow (getRequiredConfigSchema d) path = none)) ∧
    (∀ path : List String, (∀ key ∈ path, key = "and" ∨ key = "or") →
      (path.length = 6 →
        SchemaMap.follow (getRequiredConfigSchema 0) path = some requiredConfigBaseMap) ∧
      (6 < path.length → SchemaMap.follow (getRequiredConfigSchema 0) path = none)) ∧
    SchemaMap.below requiredConfigBaseMap "and" = none ∧
    SchemaMap.below requiredConfigBaseMap "or" = none ∧
    (∀ d : Int, SchemaMap.below (getSubRuleSchema d) "required_config" =
      some (getRequiredConfigSchema (intAdd d 1))) ∧
    (∀ d : Int, -9223372036854775808 ≤ d → d < 9223372036854775807 → intAdd d 1 = d + 1) := by
  refine ⟨?_, fun d hd => getRequiredConfigSchema_of_gt hd, ?_, ?_,
    requiredConfigBaseMap_below (Or.inl rfl), requiredConfigBaseMap_below (Or.inr rfl), ?_, ?_⟩
  · intro d hd
    simp only [MAX_REQUIRED_CONFIG_DEPTH] at hd
    simp only [intAdd]
    omega
  · intro d path hlo hd hkeys
    exact ⟨fun hlen => follow_within path d hlo hkeys hlen,
      fun hlen => follow_beyond path d hlo hd hkeys hlen⟩
  · intro path hkeys
    constructor
    · intro hlen
      have h := follow_within path 0 (by decide) hkeys (by omega)
      rw [h, hlen]
      exact congrArg some (getRequiredConfigSchema_of_gt (by decide))
    · intro hlen
      exact follow_beyond path 0 (by decide) (by decide) hkeys (by omega)
  · intro d
    rw [getSubRuleSchema]
    simp [SchemaMap.below, SchemaMap.get, listSchema, Schema.elem]
  · intro d hlo hhi
    simp only [intAdd]
    omega

theorem schema_recursion_bounded_witness :
    SchemaMap.follow (getRequiredConfigSchema 0) ["and", "or", "and", "and", "or", "and"] =
        some requiredConfigBaseMap ∧
      SchemaMap.follow (getRequiredConfigSchema 0)
        ["and", "and", "and", "and", "and", "and", "and"] = none ∧
      (-3 : Int) < intAdd (-3) 1 :=
  ⟨(schema_recursion_bounded.2.2.2.1 ["and", "or", "and", "and", "or", "and"]
      (by decide)).1 rfl,
    (schema_recursion_bounded.2.2.2.1 ["and", "and", "and", "and", "and", "and", "and"]
      (by decide)).2 (by decide),
    (schema_recursion_bounded.1 (-3) (by decide)).1⟩

/-! ## Decoding what the framework hands back -/

theorem handedBackEntries_get {stored got : GoMap} (h : HandedBackEntries stored got)
    (key : String) :
    GoMap.get stored key = .nil ∨ HandedBack (GoMap.get stored key) (GoMap.get got key) := by
  induction stored with
  | nil => exact Or.inl rfl
  | cons kv rest ih =>
    obtain ⟨k, v⟩ := kv
    simp only [HandedBackEntries] at h
    by_cases hk : k = key
    · subst hk
      right
      simpa [GoMap.get] using h.1
    · simpa [GoMap.get, hk] using ih h.2

theorem zeroRead_of_listKey {key : String} {got : GoVal} (hkey : key ∈ listKeys)
    (h : zeroRead key got) : got = .nil ∨ got = .list [] := by
  rcases h with h | ⟨-, h⟩ | ⟨hn, -⟩
  · exact Or.inl h
  · exact Or.inr h
  · exact absurd hkey hn

theorem zeroRead_of_stringKey {key : String} {got : GoVal} (hkey : key ∉ listKeys)
    (h : zeroRead key got) : got = .nil ∨ got = .str "" := by
  rcases h with h | ⟨hn, -⟩ | ⟨-, h⟩
  · exact Or.inl h
  · exact absurd hn hkey
  · exact Or.inr h

/-- A string-pointer field the encoder stored under a string key (or left out)
is decoded from every map the framework may hand back: to the stored string
when it is not empty, to nothing otherwise. -/
theorem nonEmptyStringEntry_handedBack {stored got : GoMap} {key : String} {p : Option String}
    (h : HandedBackMap stored got) (hkey : key ∉ listKeys)
    (hget : GoMap.get stored key = (p.map fun s => GoVal.strPtr (some s)).getD .nil) :
    ∃ r, nonEmptyStringEntry got key = .ok r ∧ (p ≠ some "" → r = p) ∧
      (p = some "" → r = none) := by
  cases p with
  | none =>
    simp only [Option.map_none', Option.getD_none] at hget
    rcases zeroRead_of_stringKey hkey (h.2 key hget) with hz | hz
    · exact ⟨none, by simp [nonEmptyStringEntry, hz, GoVal.notNil], fun _ => rfl, fun _ => rfl⟩
    · exact ⟨none, by simp [nonEmptyStringEntry, hz, GoVal.notNil, GoVal.asString],
        fun _ => rfl, fun _ => rfl⟩
  | some s =>
    simp only [Option.map_some', Option.getD_some] at hget
    have hb : GoMap.get got key = .str s := by
      rcases handedBackEntries_get h.1 key with hn | hb
      · rw [hget] at hn
        cases hn
      · rw [hget] at hb
        simpa [HandedBack] using hb
    by_cases hs : s = ""
    · subst hs
      exact ⟨none, by simp [nonEmptyStringEntry, hb, GoVal.notNil, GoVal.asString],
        fun hne => absurd rfl hne, fun _ => rfl⟩
    · refine ⟨some s, by simp [nonEmptyStringEntry, hb, GoVal.notNil, GoVal.asString, hs],
        fun _ => rfl, fun he => ?_⟩
      simp only [Option.some.injEq] at he
      exact absurd he hs

/-- A non-empty comma-free scalar string stored as the value (or no value) is
decoded from every map the framework may hand back. -/
theorem valueFromMapEntry_handedBack {stored got : GoMap} {v : Option RcValue}
    (h : HandedBackMap stored got)
    (hget : GoMap.get stored "value" = (v.map valueToMapEntry).getD .nil)
    (hv : ∀ x, v = some x → ∃ s, x = .str s ∧ s ≠ "" ∧ ',' ∉ s.data) :
    valueFromMapEntry got = .ok v := by
  cases v with
  | none =>
    simp only [Option.map_none', Option.getD_none] at hget
    rcases zeroRead_of_stringKey (by decide) (h.2 "value" hget) with hz | hz
    · simp [valueFromMapEntry, hz, GoVal.notNil]
    · simp [valueFromMapEntry, hz, GoVal.notNil, GoVal.asString]
  | some x =>
    obtain ⟨s, rfl, hs, hc⟩ := hv x rfl
    simp only [Option.map_some', Option.getD_some, valueToMapEntry, RcValue.toGo] at hget
    have hb : GoMap.get got "value" = .str s := by
      rcases handedBackEntries_get h.1 "value" with hn | hb
      · rw [hget] at hn
        cases hn
      · rw [hget] at hb
        simpa [HandedBack] using hb
    rw [valueFromMapEntry_of_str hb hs, valueFromString_of_no_comma s hc]

/-- A sub-rule key the encoder left out is skipped by the four sub-rule blocks
of the decoder, whatever the framework hands back under it. -/
theorem subRuleBlocks_of_zero {got : GoVal} (h : got = .nil ∨ got = .list [])
    (any : Option RequiredConfigSubRule) :
    anyBlock got = .ok none ∧ anyIfBlock got = .ok none ∧ allBlock got any = .ok any := by
  rcases h with h | h <;> subst h <;>
    simp [anyBlock, anyIfBlock, allBlock, GoVal.notNil, GoVal.asList]

theorem listBlock_of_zero {got : GoVal} (h : got = .nil ∨ got = .list []) :
    ∃ c, requiredConfigListBlock got = .ok c ∧ RequiredConfig.SameChildren none c := by
  rcases h with h | h
  · subst h
    exact ⟨none, by simp [requiredConfigListBlock], by simp [RequiredConfig.SameChildren]⟩
  · subst h
    exact ⟨some [], by simp [requiredConfigListBlock, requiredConfigItemsFromMaps],
      by simp [RequiredConfig.SameChildren]⟩

mutual
theorem handedBack_ptr (P Q : RequiredConfig → Prop)
    (hP : ∀ rc, P rc → rc.NoSubRules) (hQ : ∀ rc, Q rc → rc.PlainFields) :
    (p : Option RequiredConfig) → RequiredConfig.AllNodesPtr P p →
    RequiredConfig.AllNodesPtr Q p →
    ∃ stored, requiredConfigPtrToMap p = .ok stored ∧
      ∀ got, HandedBackMap stored got →
        ∃ q, ibmSccRCMapToRequiredConfig got = .ok (.base q) ∧
          RequiredConfig.SameUpToEmptyPtr p q
  | none, h1, _ => by simp [RequiredConfig.AllNodesPtr] at h1
  | some (.mk d or and any anyIf all allIf p o v), h1, h2 => by
    simp only [RequiredConfig.AllNodesPtr] at h1 h2
    obtain ⟨hns, hor1, hand1⟩ := h1
    obtain ⟨hpf, hor2, hand2⟩ := h2
    obtain ⟨hany, hanyIf, hall, hallIf⟩ := hP _ hns
    obtain ⟨hd, hp, ho, hv⟩ := hQ _ hpf
    simp only [RequiredConfig.Any, RequiredConfig.AnyIf, RequiredConfig.All,
      RequiredConfig.AllIf] at hany hanyIf hall hallIf
    simp only [RequiredConfig.Description, RequiredConfig.Property, RequiredConfig.Operator,
      RequiredConfig.Value] at hd hp ho hv
    subst hany hanyIf hall hallIf
    obtain ⟨ea, hea1, hea2⟩ := handedBack_children P Q hP hQ and hand1 hand2
    obtain ⟨eo, heo1, heo2⟩ := handedBack_children P Q hP hQ or hor1 hor2
    obtain ⟨M, hM⟩ : ∃ M, M = valueBlock (setStringPtr (setStringPtr (GoMap.setOpt
        (GoMap.setOpt (setStringPtr [] "description" d) "and" (ea.map .maps)) "or"
        (eo.map .maps)) "property" p) "operator" o) v := ⟨_, rfl⟩
    have hsd : GoMap.get M "description" = (d.map fun s => GoVal.strPtr (some s)).getD .nil := by
      rw [hM]; simp [valueBlock_eq, setStringPtr_eq, GoMap.get_setOpt, GoMap.get]
    have hsp : GoMap.get M "property" = (p.map fun s => GoVal.strPtr (some s)).getD .nil := by
      rw [hM]; simp [valueBlock_eq, setStringPtr_eq, GoMap.get_setOpt, GoMap.get]
    have hso : GoMap.get M "operator" = (o.map fun s => GoVal.strPtr (some s)).getD .nil := by
      rw [hM]; simp [valueBlock_eq, setStringPtr_eq, GoMap.get_setOpt, GoMap.get]
    have hsv : GoMap.get M "value" = (v.map valueToMapEntry).getD .nil := by
      rw [hM]; simp [valueBlock_eq, setStringPtr_eq, GoMap.get_setOpt, GoMap.get]
    have hor : GoMap.get M "or" = (eo.map GoVal.maps).getD .nil := by
      rw [hM]; simp [valueBlock_eq, setStringPtr_eq, GoMap.get_setOpt, GoMap.get]
    have hand : GoMap.get M "and" = (ea.map GoVal.maps).getD .nil := by
      rw [hM]; simp [valueBlock_eq, setStringPtr_eq, GoMap.get_setOpt, GoMap.get]
    have hnil : ∀ key, key = "any" ∨ key = "any_if" ∨ key = "all" ∨ key = "all_if" →
        GoMap.get M key = .nil := by
      intro key hkey
      rw [hM]
      rcases hkey with rfl | rfl | rfl | rfl <;>
        simp [valueBlock_eq, setStringPtr_eq, GoMap.get_setOpt, GoMap.get]
    refine ⟨M, ?_, ?_⟩
    · rw [hM]
      simp [requiredConfigPtrToMap, hea1, heo1, subRuleBlock]
    · intro got hgot
      obtain ⟨rd, hrd, hrd1, -⟩ := nonEmptyStringEntry_handedBack hgot (by decide) hsd
      obtain ⟨rp, hrp, hrp1, -⟩ := nonEmptyStringEntry_handedBack hgot (by decide) hsp
      obtain ⟨ro, hro, hro1, -⟩ := nonEmptyStringEntry_handedBack hgot (by decide) hso
      have hrv := valueFromMapEntry_handedBack hgot hsv hv
      have hchild : ∀ (key : String) (e : Option (List GoMap)), key ∈ listKeys →
          GoMap.get M key = (e.map GoVal.maps).getD .nil →
          (e = none ∧ (GoMap.get got key = .nil ∨ GoMap.get got key = .list [])) ∨
          (∃ ms, e = some ms ∧ HandedBack (.maps ms) (GoMap.get got key)) := by
        intro key e hkey hget
        cases e with
        | none =>
          simp only [Option.map_none', Option.getD_none] at hget
          exact Or.inl ⟨rfl, zeroRead_of_listKey hkey (hgot.2 key hget)⟩
        | some ms =>
          simp only [Option.map_some', Option.getD_some] at hget
          rcases handedBackEntries_get hgot.1 key with hn | hb
          · rw [hget] at hn
            cases hn
          · rw [hget] at hb
            exact Or.inr ⟨ms, rfl, hb⟩
      obtain ⟨or1, hor3, hor4⟩ := heo2 _ (hchild "or" eo (by decide) hor)
      obtain ⟨and1, hand3, hand4⟩ := hea2 _ (hchild "and" ea (by decide) hand)
      have hz : ∀ key, key = "any" ∨ key = "any_if" ∨ key = "all" ∨ key = "all_if" →
          GoMap.get got key = .nil ∨ GoMap.get got key = .list [] := by
        intro key hkey
        have hk : key ∈ listKeys := by
          rcases hkey with rfl | rfl | rfl | rfl <;> decide
        exact zeroRead_of_listKey hk (hgot.2 key (hnil key hkey))
      have hb1 := (subRuleBlocks_of_zero (hz "any" (by simp)) none).1
      have hb2 := (subRuleBlocks_of_zero (hz "any_if" (by simp)) none).2.1
      have hb3 := (subRuleBlocks_of_zero (hz "all" (by simp)) none).2.2
      have hb4 := (subRuleBlocks_of_zero (hz "all_if" (by simp)) none).2.2
      refine ⟨some (.mk rd or1 and1 none none none none rp ro v), ?_, ?_⟩
      · rw [ibmSccRCMapToRequiredConfig]
        simp only [hrd, hor3, hand3, hb1, hb2, Outcome.ok_bind, hb3, hb4, hrp, hro, hrv,
          Outcome.pure_def]
      · simp only [RequiredConfig.SameUpToEmptyPtr, RequiredConfig.SameSubRule, and_true,
          true_and]
        exact ⟨(hrd1 hd).symm, hor4, hand4, (hrp1 hp).symm, (hro1 ho).symm⟩
theorem handedBack_children (P Q : RequiredConfig → Prop)
    (hP : ∀ rc, P rc → rc.NoSubRules) (hQ : ∀ rc, Q rc → rc.PlainFields) :
    (c : Option (List RequiredConfigIntf)) → RequiredConfig.AllNodesChildren P c →
    RequiredConfig.AllNodesChildren Q c →
    ∃ e : Option (List GoMap),
      (∀ m key, childrenBlock m key c = .ok (GoMap.setOpt m key (e.map .maps))) ∧
      ∀ got, ((e = none ∧ (got = .nil ∨ got = .list [])) ∨
          (∃ ms, e = some ms ∧ HandedBack (.maps ms) got)) →
        ∃ c1, requiredConfigListBlock got = .ok c1 ∧ RequiredConfig.SameChildren c c1
  | none, _, _ => by
    refine ⟨none, by simp [childrenBlock, GoMap.setOpt], ?_⟩
    intro got hgot
    rcases hgot with ⟨-, hz⟩ | ⟨ms, hms, -⟩
    · exact listBlock_of_zero hz
    · cases hms
  | some items, h1, h2 => by
    simp only [RequiredConfig.AllNodesChildren] at h1 h2
    obtain ⟨ms, hms1, hms2⟩ := handedBack_items P Q hP hQ items h1 h2
    refine ⟨some ms, ?_, ?_⟩
    · intro m key
      simp [childrenBlock, hms1, GoMap.setOpt]
    · intro got hgot
      rcases hgot with ⟨hn, -⟩ | ⟨ms1, hms, hb⟩
      · cases hn
      · simp only [Option.some.injEq] at hms
        subst hms
        simp only [HandedBack] at hb
        obtain ⟨gs, hgs, hb⟩ := hb
        obtain ⟨items1, hi1, hi2⟩ := hms2 gs hb
        subst hgs
        exact ⟨some items1, by simp [requiredConfigListBlock, hi1],
          by simpa [RequiredConfig.SameChildren] using hi2⟩
theorem handedBack_items (P Q : RequiredConfig → Prop)
    (hP : ∀ rc, P rc → rc.NoSubRules) (hQ : ∀ rc, Q rc → rc.PlainFields) :
    (items : List RequiredConfigIntf) → RequiredConfig.AllNodesItems P items →
    RequiredConfig.AllNodesItems Q items →
    ∃ ms, requiredConfigItemsToMaps items = .ok ms ∧
      ∀ gs, HandedBackMaps ms gs →
        ∃ items1, requiredConfigItemsFromMaps gs = .ok items1 ∧
          RequiredConfig.SameItems items items1
  | [], _, _ => by
    refine ⟨[], by simp [requiredConfigItemsToMaps], ?_⟩
    intro gs hgs
    simp only [HandedBackMaps] at hgs
    subst hgs
    exact ⟨[], by simp [requiredConfigItemsFromMaps], by simp [RequiredConfig.SameItems]⟩
  | .other r :: rest, h1, _ => by
    simp [RequiredConfig.AllNodesItems, RequiredConfigIntf.AllNodes] at h1
  | .base p :: rest, h1, h2 => by
    simp only [RequiredConfig.AllNodesItems, RequiredConfigIntf.AllNodes] at h1 h2
    obtain ⟨m, hm1, hm2⟩ := handedBack_ptr P Q hP hQ p h1.1 h2.1
    obtain ⟨ms, hms1, hms2⟩ := handedBack_items P Q hP hQ rest h1.2 h2.2
    refine ⟨m :: ms, ?_, ?_⟩
    · simp [requiredConfigItemsToMaps, ibmSccRuleRequiredConfigToMap, hm1, hms1]
    · intro gs hgs
      simp only [HandedBackMaps] at hgs
      obtain ⟨gm, grest, hgs, he, hz, hrest⟩ := hgs
      obtain ⟨q, hq1, hq2⟩ := hm2 gm ⟨he, hz⟩
      obtain ⟨items1, hi1, hi2⟩ := hms2 grest hrest
      subst hgs
      exact ⟨.base q :: items1, by simp [requiredConfigItemsFromMaps, hq1, hi1],
        by simp [RequiredConfig.SameItems, RequiredConfigIntf.SameUpToEmpty, hq2, hi2]⟩
end


/-! ## Concrete readings -/

theorem GoMap.get_nil_or_mem (m : GoMap) (key : String) :
    GoMap.get m key = .nil ∨ (key, GoMap.get m key) ∈ m := by
  induction m with
  | nil => exact Or.inl rfl
  | cons kv rest ih =>
    obtain ⟨k, v⟩ := kv
    by_cases hk : k = key
    · subst hk
      right
      simp [GoMap.get]
    · rcases ih with h | h
      · left
        simpa [GoMap.get, hk] using h
      · right
        simp only [GoMap.get, hk, if_false]
        exact List.mem_cons_of_mem _ h

/-- A map is zero elsewhere when each of its entries is stored under its key or
is the zero value of its key. -/
theorem zeroElsewhere_of_entries {stored got : GoMap}
    (h : ∀ kv ∈ got, GoMap.get stored kv.1 ≠ .nil ∨ zeroRead kv.1 kv.2) :
    ZeroElsewhere stored got := by
  intro key hkey
  rcases GoMap.get_nil_or_mem got key with hn | hm
  · exact Or.inl hn
  · rcases h _ hm with h1 | h1
    · exact absurd hkey h1
    · exact h1

/-! ## Round trip -/

theorem handedBack_get_str {stored got : GoMap} {key s : String}
    (h : HandedBackMap stored got)
    (hget : GoMap.get stored key = .str s ∨ GoMap.get stored key = .strPtr (some s)) :
    GoMap.get got key = .str s := by
  rcases handedBackEntries_get h.1 key with hn | hb
  · rcases hget with hg | hg <;> rw [hg] at hn <;> cases hn
  · rcases hget with hg | hg <;> rw [hg] at hb <;> simpa [HandedBack] using hb

/-- The literal composition, at a leaf inside the amended domain: the encoder
stores `property` as a `*string`, and the decoder, given that very map, ends in
a runtime fault at its assertion `.(string)`. From the zero-filled map the
framework hands back, the leaf comes back with `Or` and `And` present and empty. -/
theorem plainLeaf_literal_and_zero_filled :
    ibmSccRuleRequiredConfigToMap plainLeaf
      = .ok [("property", .strPtr (some "p")), ("operator", .strPtr (some "o")),
          ("value", .str "v")] ∧
    ibmSccRCMapToRequiredConfig [("property", .strPtr (some "p")),
      ("operator", .strPtr (some "o")), ("value", .str "v")] = .fault ∧
    HandedBackMap [("property", .strPtr (some "p")), ("operator", .strPtr (some "o")),
      ("value", .str "v")] (zeroFilledNode "" "p" "o" "v" [] []) ∧
    ibmSccRCMapToRequiredConfig (zeroFilledNode "" "p" "o" "v" [] [])
      = .ok (.base (some (.mk none (some []) (some []) none none none none (some "p") (some "o")
          (some (.str "v"))))) := by
  refine ⟨rfl, ?_, ⟨?_, ?_⟩, ?_⟩
  · rw [ibmSccRCMapToRequiredConfig]
    simp [GoMap.get, requiredConfigListBlock, anyBlock, anyIfBlock, allBlock,
      nonEmptyStringEntry, GoVal.notNil, GoVal.asString]
  · simp [HandedBackEntries, HandedBack, zeroFilledNode, GoMap.get]
  · apply zeroElsewhere_of_entries
    simp [zeroFilledNode, GoMap.get, zeroRead, listKeys]
  · have hv : valueFromMapEntry (zeroFilledNode "" "p" "o" "v" [] [])
        = .ok (some (valueFromString "v")) :=
      valueFromMapEntry_of_str (by simp [zeroFilledNode, GoMap.get]) (by decide)
    have hvs : valueFromString "v" = .str "v" := rfl
    rw [ibmSccRCMapToRequiredConfig, hv, hvs]
    simp [zeroFilledNode, GoMap.get, requiredConfigListBlock, requiredConfigItemsFromMaps,
      anyBlock, anyIfBlock, allBlock, nonEmptyStringEntry, GoVal.notNil, GoVal.asString,
      GoVal.asList]

/-- C1, as stated, fails. Read literally, the composition ends in a fault even
on a plain leaf (the decoder asserts `.(string)` on the encoder's `*string`),
and from the zero-filled map the framework hands back the leaf returns with
`Or` and `And` present and empty, so it is not equal to the leaf. Outside the
stated exception, whatever way the framework hands the encoded map back: a
present empty description is decoded as absent, the scalar `"a,b"` as the
sequence `["a","b"]`, and the generic sequence `["x"]` as the scalar `"[x]"`. -/
theorem roundtrip_fails_outside_brackets :
    (∃ stored got decoded, ibmSccRuleRequiredConfigToMap plainLeaf = .ok stored ∧
      ibmSccRCMapToRequiredConfig stored = .fault ∧ HandedBackMap stored got ∧
      ibmSccRCMapToRequiredConfig got = .ok decoded ∧ decoded ≠ plainLeaf) ∧
    (∃ stored, ibmSccRuleRequiredConfigToMap emptyDescriptionLeaf = .ok stored ∧
      ∀ got, HandedBackMap stored got → ∀ decoded, ibmSccRCMapToRequiredConfig got = .ok decoded →
        ∃ rc, decoded = .base (some rc) ∧ rc.Description = none) ∧
    (∃ stored, ibmSccRuleRequiredConfigToMap commaValueLeaf = .ok stored ∧
      ∀ got, HandedBackMap stored got → ∀ decoded, ibmSccRCMapToRequiredConfig got = .ok decoded →
        ∃ rc, decoded = .base (some rc) ∧ rc.Value = some (.strs ["a", "b"])) ∧
    (∃ stored, ibmSccRuleRequiredConfigToMap singletonValueLeaf = .ok stored ∧
      ∀ got, HandedBackMap stored got → ∀ decoded, ibmSccRCMapToRequiredConfig got = .ok decoded →
        ∃ rc, decoded = .base (some rc) ∧ rc.Value = some (.str "[x]")) := by
  refine ⟨?_, ?_, ?_, ?_⟩
  · obtain ⟨h1, h2, h3, h4⟩ := plainLeaf_literal_and_zero_filled
    refine ⟨_, _, _, h1, h2, h3, h4, ?_⟩
    simp [plainLeaf]
  · refine ⟨[("description", .strPtr (some "")), ("property", .strPtr (some "p")),
      ("operator", .strPtr (some "o")), ("value", .str "v")], rfl, ?_⟩
    intro got hgot decoded hdec
    obtain ⟨description, or, and, any0, anyIf, any1, any, property, operator, value, hd, -, -,
      -, -, -, -, -, -, -, hrc⟩ := ibmSccRCMapToRequiredConfig_ok hdec
    have hg := @handedBack_get_str _ got "description" "" hgot (Or.inr rfl)
    have hn : nonEmptyStringEntry got "description" = .ok none := by
      simp [nonEmptyStringEntry, hg, GoVal.notNil, GoVal.asString]
    rw [hn] at hd
    cases hd
    exact ⟨_, hrc, rfl⟩
  · refine ⟨[("property", .strPtr (some "p")), ("operator", .strPtr (some "o")),
      ("value", .str "a,b")], rfl, ?_⟩
    intro got hgot decoded hdec
    obtain ⟨description, or, and, any0, anyIf, any1, any, property, operator, value, -, -, -,
      -, -, -, -, -, -, hv, hrc⟩ := ibmSccRCMapToRequiredConfig_ok hdec
    have hg := @handedBack_get_str _ got "value" "a,b" hgot (Or.inl rfl)
    rw [valueFromMapEntry_of_str hg (by decide)] at hv
    cases hv
    exact ⟨_, hrc, rfl⟩
  · refine ⟨[("property", .strPtr (some "p")), ("operator", .strPtr (some "o")),
      ("value", .str "[x]")], rfl, ?_⟩
    intro got hgot decoded hdec
    obtain ⟨description, or, and, any0, anyIf, any1, any, property, operator, value, -, -, -,
      -, -, -, -, -, -, hv, hrc⟩ := ibmSccRCMapToRequiredConfig_ok hdec
    have hg := @handedBack_get_str _ got "value" "[x]" hgot (Or.inl rfl)
    rw [valueFromMapEntry_of_str hg (by decide)] at hv
    cases hv
    exact ⟨_, hrc, rfl⟩

/-- C1, amended: for every tree built only from `And`/`Or`/leaf nodes in which
every present description, property and operator is a non-empty string and
every present value is a non-empty scalar string without a comma
(bracket-wrapped or not), encoding succeeds, and from every map by which the
framework may hand the encoded map back (string pointers as strings, sequences
of maps as generic lists, keys that were not stored absent or zero-valued) the
decoder returns no error and a tree equal to the given one up to `And` and `Or`
fields that are nil in the tree and empty in the result. -/
theorem roundtrip_and_or_leaf (tree : RequiredConfigIntf)
    (hshape : tree.AllNodes RequiredConfig.NoSubRules)
    (hfields : tree.AllNodes RequiredConfig.PlainFields) :
    ∃ stored, ibmSccRuleRequiredConfigToMap tree = .ok stored ∧
      ∀ got, HandedBackMap stored got →
        ∃ decoded, ibmSccRCMapToRequiredConfig got = .ok decoded ∧
          tree.SameUpToEmpty decoded := by
  cases tree with
  | other r => simp [RequiredConfigIntf.AllNodes] at hshape
  | base p =>
    simp only [RequiredConfigIntf.AllNodes] at hshape hfields
    obtain ⟨stored, hs, h⟩ := handedBack_ptr _ _ (fun _ h => h) (fun _ h => h) p hshape hfields
    refine ⟨stored, by simpa [ibmSccRuleRequiredConfigToMap] using hs, ?_⟩
    intro got hgot
    obtain ⟨q, hq1, hq2⟩ := h got hgot
    exact ⟨.base q, hq1, by simpa [RequiredConfigIntf.SameUpToEmpty] using hq2⟩

theorem sampleAndOrStored_handedBack :
    ibmSccRuleRequiredConfigToMap sampleAndOrTree = .ok sampleAndOrStored ∧
      HandedBackMap sampleAndOrStored sampleAndOrZeroFilled := by
  refine ⟨rfl, ?_, ?_⟩
  · simp [HandedBackEntries, HandedBack, HandedBackMaps, sampleAndOrZeroFilled, zeroFilledNode,
      GoMap.get, sampleAndOrStored]
    refine ⟨⟨_, _, ⟨rfl, rfl⟩, ⟨rfl, rfl, rfl⟩, ?_, _, _, rfl, ⟨rfl, rfl, rfl⟩, ?_, rfl⟩,
      _, _, ⟨rfl, rfl⟩, ⟨rfl, rfl, rfl⟩, ?_, rfl⟩
    all_goals
      apply zeroElsewhere_of_entries
      simp [GoMap.get, zeroRead, listKeys]
  · apply zeroElsewhere_of_entries
    simp [sampleAndOrZeroFilled, zeroFilledNode, sampleAndOrStored, GoMap.get, zeroRead, listKeys]

/-- C1, amended, at a tree with `And` and `Or` children and the bracket-wrapped
scalar `"[x]"`, decoded from the zero-filled map the framework hands back. -/
theorem roundtrip_and_or_leaf_witness :
    ∃ decoded, ibmSccRCMapToRequiredConfig sampleAndOrZeroFilled = .ok decoded ∧
      sampleAndOrTree.SameUpToEmpty decoded := by
  obtain ⟨stored, hs, h⟩ := roundtrip_and_or_leaf sampleAndOrTree
    (by simp [sampleAndOrTree, RequiredConfigIntf.AllNodes, RequiredConfig.AllNodesPtr,
      RequiredConfig.AllNodesChildren, RequiredConfig.AllNodesItems,
      RequiredConfig.NoSubRules, RequiredConfig.Any,
      RequiredConfig.AnyIf, RequiredConfig.All, RequiredConfig.AllIf])
    (by simp [sampleAndOrTree, RequiredConfigIntf.AllNodes, RequiredConfig.AllNodesPtr,
      RequiredConfig.AllNodesChildren, RequiredConfig.AllNodesItems,
      RequiredConfig.PlainFields, RequiredConfig.Description, RequiredConfig.Property,
      RequiredConfig.Operator, RequiredConfig.Value])
  rw [sampleAndOrStored_handedBack.1] at hs
  cases hs
  exact h _ sampleAndOrStored_handedBack.2


/-! ## Round trip: children -/

theorem sameItems_length {items items1 : List RequiredConfigIntf}
    (h : RequiredConfig.SameItems items items1) : items1.length = items.length := by
  induction items generalizing items1 with
  | nil =>
    cases items1 with
    | nil => rfl
    | cons x xs => simp [RequiredConfig.SameItems] at h
  | cons item rest ih =>
    cases items1 with
    | nil => simp [RequiredConfig.SameItems] at h
    | cons x xs =>
      simp only [RequiredConfig.SameItems] at h
      rw [List.length_cons, List.length_cons, ih h.2]

theorem sameChildren_some {items : List RequiredConfigIntf}
    {c : Option (List RequiredConfigIntf)} (h : RequiredConfig.SameChildren (some items) c) :
    ∃ items1, c = some items1 ∧ items1.length = items.length ∧
      RequiredConfig.SameItems items items1 := by
  cases c with
  | none => simp [RequiredConfig.SameChildren] at h
  | some items1 =>
    simp only [RequiredConfig.SameChildren] at h
    exact ⟨items1, rfl, sameItems_length h, h⟩

theorem sameChildren_none {c : Option (List RequiredConfigIntf)}
    (h : RequiredConfig.SameChildren none c) : c = none ∨ c = some [] := by
  cases c with
  | none => exact Or.inl rfl
  | some items1 =>
    simp only [RequiredConfig.SameChildren] at h
    exact Or.inr (by rw [h])

/-- The entries of the zero-filled node map, key by key. -/
theorem zeroFilledNode_get (d p o v : String) (a r : List GoVal) :
    GoMap.get (zeroFilledNode d p o v a r) "description" = .str d ∧
    GoMap.get (zeroFilledNode d p o v a r) "property" = .str p ∧
    GoMap.get (zeroFilledNode d p o v a r) "operator" = .str o ∧
    GoMap.get (zeroFilledNode d p o v a r) "value" = .str v ∧
    GoMap.get (zeroFilledNode d p o v a r) "and" = .list a ∧
    GoMap.get (zeroFilledNode d p o v a r) "or" = .list r ∧
    GoMap.get (zeroFilledNode d p o v a r) "all" = .list [] ∧
    GoMap.get (zeroFilledNode d p o v a r) "all_if" = .list [] ∧
    GoMap.get (zeroFilledNode d p o v a r) "any" = .list [] ∧
    GoMap.get (zeroFilledNode d p o v a r) "any_if" = .list [] := by
  simp [zeroFilledNode, GoMap.get]

/-- C19, as stated, fails at a node with one `And` child. Read literally, the
composition ends in a fault (the decoder asserts `.([]interface{})` on the
encoder's `[]map[string]interface{}`); and from the zero-filled map the
framework hands back, the node returns with `Or` present and empty and with a
child whose `Or` and `And` are present and empty, so it is not the given tree. -/
theorem children_roundtrip_fails_as_stated :
    ∃ stored got decoded, ibmSccRuleRequiredConfigToMap andChildTree = .ok stored ∧
      ibmSccRCMapToRequiredConfig stored = .fault ∧ HandedBackMap stored got ∧
      ibmSccRCMapToRequiredConfig got = .ok decoded ∧
      decoded = .base (some (.mk none (some [])
        (some [.base (some (.mk none (some []) (some []) none none none none (some "p")
          (some "o") (some (.str "v"))))])
        none none none none none none none)) ∧
      decoded ≠ andChildTree := by
  obtain ⟨-, -, -, hleaf⟩ := plainLeaf_literal_and_zero_filled
  refine ⟨[("and", .maps [[("property", .strPtr (some "p")), ("operator", .strPtr (some "o")),
      ("value", .str "v")]])],
    zeroFilledNode "" "" "" "" [.map (zeroFilledNode "" "p" "o" "v" [] [])] [], _, rfl, ?_,
    ⟨?_, ?_⟩, ?_, rfl, ?_⟩
  · rw [ibmSccRCMapToRequiredConfig]
    simp [GoMap.get, requiredConfigListBlock, nonEmptyStringEntry, GoVal.notNil]
  · simp [HandedBackEntries, HandedBack, HandedBackMaps, zeroFilledNode, GoMap.get]
    refine ⟨_, _, ⟨rfl, rfl⟩, ⟨rfl, rfl, rfl⟩, ?_, rfl⟩
    apply zeroElsewhere_of_entries
    simp [GoMap.get, zeroRead, listKeys]
  · apply zeroElsewhere_of_entries
    simp [zeroFilledNode, GoMap.get, zeroRead, listKeys]
  · obtain ⟨g1, g2, g3, g4, g5, g6, g7, g8, g9, g10⟩ := zeroFilledNode_get "" "" "" ""
      [.map (zeroFilledNode "" "p" "o" "v" [] [])] []
    have hd : nonEmptyStringEntry (zeroFilledNode "" "" "" ""
        [.map (zeroFilledNode "" "p" "o" "v" [] [])] []) "description" = .ok none := by
      simp [nonEmptyStringEntry, g1, GoVal.notNil, GoVal.asString]
    have hp : nonEmptyStringEntry (zeroFilledNode "" "" "" ""
        [.map (zeroFilledNode "" "p" "o" "v" [] [])] []) "property" = .ok none := by
      simp [nonEmptyStringEntry, g2, GoVal.notNil, GoVal.asString]
    have ho : nonEmptyStringEntry (zeroFilledNode "" "" "" ""
        [.map (zeroFilledNode "" "p" "o" "v" [] [])] []) "operator" = .ok none := by
      simp [nonEmptyStringEntry, g3, GoVal.notNil, GoVal.asString]
    have hv : valueFromMapEntry (zeroFilledNode "" "" "" ""
        [.map (zeroFilledNode "" "p" "o" "v" [] [])] []) = .ok none := by
      simp [valueFromMapEntry, g4, GoVal.notNil, GoVal.asString]
    have hor : requiredConfigListBlock (.list []) = .ok (some []) := by
      simp [requiredConfigListBlock, requiredConfigItemsFromMaps]
    have hand : requiredConfigListBlock (.list [.map (zeroFilledNode "" "p" "o" "v" [] [])])
        = .ok (some [.base (some (.mk none (some []) (some []) none none none none (some "p")
            (some "o") (some (.str "v"))))]) := by
      simp [requiredConfigListBlock, requiredConfigItemsFromMaps, hleaf]
    have hz := subRuleBlocks_of_zero
      (Or.inr rfl : GoVal.list [] = .nil ∨ GoVal.list [] = .list []) none
    rw [ibmSccRCMapToRequiredConfig]
    simp only [hd, hp, ho, hv, g5, g6, g7, g8, g9, g10, hor, hand, hz.1, hz.2.1, hz.2.2,
      Outcome.ok_bind, Outcome.pure_def]
  · simp [andChildTree]

/-- C19, amended: for every tree built only from `And`/`Or`/leaf nodes in which
every present description, property and operator is a non-empty string and
every present value is a non-empty scalar string without a comma, encoding
succeeds, and from every map by which the framework may hand the encoded map
back the decoder returns a node equal to the tree up to `And` and `Or` fields
that are nil in the tree and empty in the result: a present `Or` (`And`) list
returns as a present list of as many children, in the same order, an empty one
as an empty one, and an absent one as absent or empty. The same holds for every
list of such children: it is encoded to as many maps, and these are decoded to
as many children in the same order. -/
theorem roundtrip_preserves_children (tree : RequiredConfigIntf)
    (hshape : tree.AllNodes RequiredConfig.NoSubRules)
    (hfields : tree.AllNodes RequiredConfig.PlainFields) :
    (∃ stored, ibmSccRuleRequiredConfigToMap tree = .ok stored ∧
      ∀ got, HandedBackMap stored got →
        ∃ p q, tree = .base (some p) ∧
          ibmSccRCMapToRequiredConfig got = .ok (.base (some q)) ∧
          RequiredConfig.SameUpToEmptyPtr (some p) (some q) ∧
          (∀ items, p.Or = some items → ∃ items1, q.Or = some items1 ∧
            items1.length = items.length ∧ RequiredConfig.SameItems items items1) ∧
          (∀ items, p.And = some items → ∃ items1, q.And = some items1 ∧
            items1.length = items.length ∧ RequiredConfig.SameItems items items1) ∧
          (p.Or = none → q.Or = none ∨ q.Or = some []) ∧
          (p.And = none → q.And = none ∨ q.And = some [])) ∧
    (∀ items : List RequiredConfigIntf,
      RequiredConfig.AllNodesItems RequiredConfig.NoSubRules items →
      RequiredConfig.AllNodesItems RequiredConfig.PlainFields items →
      ∃ ms, requiredConfigItemsToMaps items = .ok ms ∧ ms.length = items.length ∧
        ∀ gs, HandedBackMaps ms gs →
          ∃ items1, requiredConfigItemsFromMaps gs = .ok items1 ∧
            items1.length = items.length ∧ RequiredConfig.SameItems items items1) := by
  constructor
  · cases tree with
    | other r => simp [RequiredConfigIntf.AllNodes] at hshape
    | base p =>
      simp only [RequiredConfigIntf.AllNodes] at hshape hfields
      obtain ⟨stored, hs, h⟩ := handedBack_ptr _ _ (fun _ h => h) (fun _ h => h) p hshape hfields
      refine ⟨stored, by simpa [ibmSccRuleRequiredConfigToMap] using hs, ?_⟩
      intro got hgot
      obtain ⟨q, hq1, hq2⟩ := h got hgot
      cases p with
      | none => simp [RequiredConfig.AllNodesPtr] at hshape
      | some p =>
        cases q with
        | none => simp [RequiredConfig.SameUpToEmptyPtr] at hq2
        | some q =>
          refine ⟨p, q, rfl, hq1, hq2, ?_⟩
          obtain ⟨d, or, and, any, anyIf, all, allIf, pr, o, v⟩ := p
          obtain ⟨d1, or1, and1, any1, anyIf1, all1, allIf1, pr1, o1, v1⟩ := q
          simp only [RequiredConfig.SameUpToEmptyPtr] at hq2
          obtain ⟨-, hor, hand, -⟩ := hq2
          simp only [RequiredConfig.Or, RequiredConfig.And]
          refine ⟨?_, ?_, ?_, ?_⟩
          · intro items hi
            subst hi
            exact sameChildren_some hor
          · intro items hi
            subst hi
            exact sameChildren_some hand
          · intro hn
            subst hn
            exact sameChildren_none hor
          · intro hn
            subst hn
            exact sameChildren_none hand
  · intro items h1 h2
    obtain ⟨ms, hms1, hms2⟩ := handedBack_items _ _ (fun _ h => h) (fun _ h => h) items h1 h2
    refine ⟨ms, hms1, requiredConfigItemsToMaps_length hms1, ?_⟩
    intro gs hgs
    obtain ⟨items1, hi1, hi2⟩ := hms2 gs hgs
    exact ⟨items1, hi1, sameItems_length hi2, hi2⟩

/-- C19, amended, at a tree with two `And` children, one `Or` child and an
empty `Or` list below, decoded from the zero-filled map. -/
theorem roundtrip_preserves_children_witness :
    ∃ p q, sampleAndOrTree = .base (some p) ∧
      ibmSccRCMapToRequiredConfig sampleAndOrZeroFilled = .ok (.base (some q)) ∧
      (∀ items, p.And = some items → ∃ items1, q.And = some items1 ∧
        items1.length = items.length ∧ RequiredConfig.SameItems items items1) := by
  obtain ⟨stored, hs, h⟩ := (roundtrip_preserves_children sampleAndOrTree
    (by simp [sampleAndOrTree, RequiredConfigIntf.AllNodes, RequiredConfig.AllNodesPtr,
      RequiredConfig.AllNodesChildren, RequiredConfig.AllNodesItems,
      RequiredConfig.NoSubRules, RequiredConfig.Any,
      RequiredConfig.AnyIf, RequiredConfig.All, RequiredConfig.AllIf])
    (by simp [sampleAndOrTree, RequiredConfigIntf.AllNodes, RequiredConfig.AllNodesPtr,
      RequiredConfig.AllNodesChildren, RequiredConfig.AllNodesItems,
      RequiredConfig.PlainFields, RequiredConfig.Description, RequiredConfig.Property,
      RequiredConfig.Operator, RequiredConfig.Value])).1
  rw [sampleAndOrStored_handedBack.1] at hs
  cases hs
  obtain ⟨p, q, hp, hq, -, -, hand, -, -⟩ := h _ sampleAndOrStored_handedBack.2
  exact ⟨p, q, hp, hq, hand⟩


/-! ## Round trip of the rule resource's target codec -/

theorem attribute_handedBack (a : AdditionalTargetAttribute) (ha : a.NonEmptyFields) :
    ∃ stored, resourceIbmSccRuleAdditionalTargetAttributeToMap a = .ok stored ∧
      ∀ got, HandedBackMap stored got →
        resourceIbmSccRuleMapToAdditionalTargetAttribute got = .ok a := by
  obtain ⟨name, operator, value⟩ := a
  obtain ⟨h1, h2, h3⟩ := ha
  simp only at h1 h2 h3
  obtain ⟨M, hM⟩ : ∃ M, M = setStringPtr (setStringPtr (setStringPtr [] "name" name)
      "operator" operator) "value" value := ⟨_, rfl⟩
  refine ⟨M, by rw [hM]; rfl, ?_⟩
  intro got hgot
  obtain ⟨r1, hr1, hn1, -⟩ := @nonEmptyStringEntry_handedBack M got "name" name hgot
    (by decide) (by rw [hM]; simp [setStringPtr_eq, GoMap.get_setOpt, GoMap.get])
  obtain ⟨r2, hr2, hn2, -⟩ := @nonEmptyStringEntry_handedBack M got "operator" operator hgot
    (by decide) (by rw [hM]; simp [setStringPtr_eq, GoMap.get_setOpt, GoMap.get])
  obtain ⟨r3, hr3, hn3, -⟩ := @nonEmptyStringEntry_handedBack M got "value" value hgot
    (by decide) (by rw [hM]; simp [setStringPtr_eq, GoMap.get_setOpt, GoMap.get])
  simp [resourceIbmSccRuleMapToAdditionalTargetAttribute, hr1, hr2, hr3, hn1 h1, hn2 h2, hn3 h3]

theorem attributes_handedBack (items : List AdditionalTargetAttribute)
    (h : ∀ a ∈ items, a.NonEmptyFields) :
    ∃ ms, resourceAdditionalTargetAttributesToMaps items = .ok ms ∧
      ∀ gs, HandedBackMaps ms gs → additionalTargetAttributesFromMaps gs = .ok items := by
  induction items with
  | nil =>
    refine ⟨[], rfl, ?_⟩
    intro gs hgs
    simp only [HandedBackMaps] at hgs
    subst hgs
    rfl
  | cons a rest ih =>
    obtain ⟨m, hm1, hm2⟩ := attribute_handedBack a (h a (by simp))
    obtain ⟨ms, hms1, hms2⟩ := ih (fun x hx => h x (by simp [hx]))
    refine ⟨m :: ms, by simp [resourceAdditionalTargetAttributesToMaps, hm1, hms1], ?_⟩
    intro gs hgs
    simp only [HandedBackMaps] at hgs
    obtain ⟨gm, grest, hgs, he, hz, hrest⟩ := hgs
    subst hgs
    simp [additionalTargetAttributesFromMaps, GoVal.asMap, hm2 gm ⟨he, hz⟩, hms2 grest hrest]

/-- The attributes block of the target decoders, on what the framework may hand
back for the attributes the encoder stored (or left out). -/
theorem attributesBlock_handedBack {stored got : GoMap}
    (attributes : Option (List AdditionalTargetAttribute))
    (hgot : HandedBackMap stored got)
    (hitems : ∀ items, attributes = some items → ∃ ms,
      GoMap.get stored "additional_target_attributes" = .maps ms ∧
      ∀ gs, HandedBackMaps ms gs → additionalTargetAttributesFromMaps gs = .ok items)
    (hnone : attributes = none → GoMap.get stored "additional_target_attributes" = .nil) :
    ∃ attributes1, additionalTargetAttributesBlock got = .ok attributes1 ∧
      SameAttributes attributes attributes1 := by
  cases attributes with
  | none =>
    rcases zeroRead_of_listKey (by decide) (hgot.2 _ (hnone rfl)) with hz | hz
    · exact ⟨none, by simp [additionalTargetAttributesBlock, hz, GoVal.notNil],
        by simp [SameAttributes]⟩
    · exact ⟨some [], by
        simp [additionalTargetAttributesBlock, hz, GoVal.notNil, GoVal.asList,
          additionalTargetAttributesFromMaps], by simp [SameAttributes]⟩
  | some items =>
    obtain ⟨ms, hms, hdec⟩ := hitems items rfl
    rcases handedBackEntries_get hgot.1 "additional_target_attributes" with hn | hb
    · rw [hms] at hn
      cases hn
    · rw [hms] at hb
      simp only [HandedBack] at hb
      obtain ⟨gs, hgs, hb⟩ := hb
      exact ⟨some items, by
        simp [additionalTargetAttributesBlock, hgs, GoVal.notNil, GoVal.asList, hdec gs hb],
        by simp [SameAttributes]⟩

/-- The rule resource's target codec, on every target with service name and
resource kind present and non-empty optional strings: the literal composition
faults, and from what the framework may hand back the four declared fields
return (absent attributes as absent or empty) and the reference name is unset. -/
theorem resource_target_handedBack (t : Target) (ht : t.WellFormed) :
    ∃ stored, resourceIbmSccRuleTargetToMap (some t) = .ok stored ∧
      resourceIbmSccRuleMapToTarget stored = .fault ∧
      ∀ got, HandedBackMap stored got →
        ∃ t1, resourceIbmSccRuleMapToTarget got = .ok t1 ∧
          t1.ServiceName = t.ServiceName ∧ t1.ServiceDisplayName = t.ServiceDisplayName ∧
          t1.ResourceKind = t.ResourceKind ∧ t1.ReferenceName = none ∧
          SameAttributes t.AdditionalTargetAttributes t1.AdditionalTargetAttributes := by
  obtain ⟨sn, sdn, rk, ata, rn⟩ := t
  obtain ⟨h1, h2, h3, h4⟩ := ht
  simp only at h1 h2 h3 h4
  obtain ⟨sn, rfl⟩ := Option.ne_none_iff_exists'.mp h1
  obtain ⟨rk, rfl⟩ := Option.ne_none_iff_exists'.mp h2
  have hset : ∀ (m : GoMap) key v, GoMap.set m key v = GoMap.setOpt m key (some v) :=
    fun _ _ _ => rfl
  obtain ⟨e, he1, he2, he3⟩ : ∃ e : Option (List GoMap),
      (∀ m, resourceAdditionalTargetAttributesBlock m ata
        = .ok (GoMap.setOpt m "additional_target_attributes" (e.map .maps))) ∧
      (∀ items, ata = some items → ∃ ms, e = some ms ∧
        ∀ gs, HandedBackMaps ms gs → additionalTargetAttributesFromMaps gs = .ok items) ∧
      (ata = none → e = none) := by
    cases ata with
    | none =>
      exact ⟨none, fun m => rfl, fun items hi => (by cases hi), fun _ => rfl⟩
    | some items =>
      obtain ⟨ms, hms1, hms2⟩ := attributes_handedBack items (h4 items rfl)
      refine ⟨some ms, fun m => ?_, fun items1 hi => ?_, fun hn => (by cases hn)⟩
      · simp [resourceAdditionalTargetAttributesBlock, hms1, GoMap.setOpt]
      · simp only [Option.some.injEq] at hi
        subst hi
        exact ⟨ms, rfl, hms2⟩
  obtain ⟨M, hM⟩ : ∃ M, M = GoMap.setOpt (GoMap.set (setStringPtr
      (GoMap.set [] "service_name" (.strPtr (some sn))) "service_display_name" sdn)
      "resource_kind" (.strPtr (some rk))) "additional_target_attributes" (e.map .maps) :=
    ⟨_, rfl⟩
  have hg1 : GoMap.get M "service_name" = .strPtr (some sn) := by
    rw [hM]; simp [setStringPtr_eq, hset, GoMap.get_setOpt, GoMap.get]
  have hg2 : GoMap.get M "service_display_name"
      = (sdn.map fun s => GoVal.strPtr (some s)).getD .nil := by
    rw [hM]; simp [setStringPtr_eq, hset, GoMap.get_setOpt, GoMap.get]
  have hg3 : GoMap.get M "resource_kind" = .strPtr (some rk) := by
    rw [hM]; simp [setStringPtr_eq, hset, GoMap.get_setOpt, GoMap.get]
  have hg4 : GoMap.get M "additional_target_attributes" = (e.map GoVal.maps).getD .nil := by
    rw [hM]; simp [setStringPtr_eq, hset, GoMap.get_setOpt, GoMap.get]
  refine ⟨M, ?_, ?_, ?_⟩
  · rw [hM]
    simp only [resourceIbmSccRuleTargetToMap, he1, Outcome.pure_def]
  · simp [resourceIbmSccRuleMapToTarget, hg1, GoVal.asString]
  · intro got hgot
    have hs1 := handedBack_get_str hgot (Or.inr hg1)
    have hs3 := handedBack_get_str hgot (Or.inr hg3)
    obtain ⟨r2, hr2, hn2, -⟩ := nonEmptyStringEntry_handedBack hgot (by decide) hg2
    obtain ⟨a1, ha1, ha2⟩ := attributesBlock_handedBack ata hgot
      (fun items hi => by
        obtain ⟨ms, hms, hdec⟩ := he2 items hi
        exact ⟨ms, by rw [hg4, hms]; rfl, hdec⟩)
      (fun hn => by rw [hg4, he3 hn]; rfl)
    exact ⟨⟨some sn, r2, some rk, a1, none⟩,
      by simp [resourceIbmSccRuleMapToTarget, hs1, hs3, GoVal.asString, hr2, ha1],
      rfl, hn2 h3, rfl, rfl, ha2⟩

/-- C12, as stated, fails at a target with service name, resource kind and the
reference name `"r"`. Read literally, the composition ends in a fault (the
decoder asserts `.(string)` on the encoder's `*string` service name). The
encoder stores no `reference_name`, and from whatever the framework hands back
the decoder returns a target without reference name; from the zero-filled map
it also returns the additional attributes present and empty. -/
theorem resource_target_drops_reference_name :
    referenceNameTarget.WellFormed ∧
    ∃ stored, resourceIbmSccRuleTargetToMap (some referenceNameTarget) = .ok stored ∧
      GoMap.get stored "reference_name" = .nil ∧
      resourceIbmSccRuleMapToTarget stored = .fault ∧
      (∀ got t1, HandedBackMap stored got → resourceIbmSccRuleMapToTarget got = .ok t1 →
        t1.ReferenceName = none ∧ t1 ≠ referenceNameTarget) ∧
      HandedBackMap stored referenceNameZeroFilled ∧
      resourceIbmSccRuleMapToTarget referenceNameZeroFilled
        = .ok ⟨some "s", none, some "k", some [], none⟩ := by
  have hwf : referenceNameTarget.WellFormed := by
    simp [referenceNameTarget, Target.WellFormed]
  refine ⟨hwf, [("service_name", .strPtr (some "s")), ("resource_kind", .strPtr (some "k"))],
    rfl, rfl, ?_, ?_, ⟨?_, ?_⟩, ?_⟩
  · simp [resourceIbmSccRuleMapToTarget, GoMap.get, GoVal.asString]
  · intro got t1 _ hdec
    unfold resourceIbmSccRuleMapToTarget at hdec
    obtain ⟨a, -, hdec⟩ := Outcome.bind_eq_ok hdec
    obtain ⟨b, -, hdec⟩ := Outcome.bind_eq_ok hdec
    obtain ⟨c, -, hdec⟩ := Outcome.bind_eq_ok hdec
    obtain ⟨d, -, hdec⟩ := Outcome.bind_eq_ok hdec
    simp only [Outcome.pure_def, Outcome.ok.injEq] at hdec
    subst hdec
    refine ⟨rfl, ?_⟩
    simp [referenceNameTarget]
  · simp [HandedBackEntries, HandedBack, referenceNameZeroFilled, GoMap.get]
  · apply zeroElsewhere_of_entries
    simp [referenceNameZeroFilled, GoMap.get, zeroRead, listKeys]
  · simp [resourceIbmSccRuleMapToTarget, additionalTargetAttributesBlock,
      additionalTargetAttributesFromMaps, nonEmptyStringEntry, referenceNameZeroFilled,
      GoMap.get, GoVal.notNil, GoVal.asString, GoVal.asList]

/-- C12, amended: for every target with service name and resource kind present
whose display name and additional attribute names, operators and values are
each absent or non-empty, `resourceIbmSccRuleTargetToMap` succeeds, and from
every map by which the framework may hand its map back (string pointers as
strings, the sequence of attribute maps as a generic list, keys that were not
stored absent or zero-valued) `resourceIbmSccRuleMapToTarget` returns a target
with the same service name, display name and resource kind, no reference name,
and the same additional attributes in the same order (absent attributes return
absent or as an empty list). The literal composition ends in a fault. -/
theorem resource_target_roundtrip (t : Target) (ht : t.WellFormed) :
    ∃ stored, resourceIbmSccRuleTargetToMap (some t) = .ok stored ∧
      resourceIbmSccRuleMapToTarget stored = .fault ∧
      ∀ got, HandedBackMap stored got →
        ∃ t1, resourceIbmSccRuleMapToTarget got = .ok t1 ∧
          t1.ServiceName = t.ServiceName ∧ t1.ServiceDisplayName = t.ServiceDisplayName ∧
          t1.ResourceKind = t.ResourceKind ∧ t1.ReferenceName = none ∧
          SameAttributes t.AdditionalTargetAttributes t1.AdditionalTargetAttributes ∧
          (∀ items, t.AdditionalTargetAttributes = some items →
            t1.AdditionalTargetAttributes = some items) :=
  let ⟨stored, h1, h2, h3⟩ := resource_target_handedBack t ht
  ⟨stored, h1, h2, fun got hgot =>
    let ⟨t1, g1, g2, g3, g4, g5, g6⟩ := h3 got hgot
    ⟨t1, g1, g2, g3, g4, g5, g6, fun items hi => by
      rw [hi] at g6
      cases h : t1.AdditionalTargetAttributes with
      | none => rw [h] at g6; simp [SameAttributes] at g6
      | some items1 =>
        rw [h] at g6
        simp only [SameAttributes] at g6
        rw [g6]⟩⟩

theorem sampleTargetStored_handedBack :
    resourceIbmSccRuleTargetToMap (some sampleTarget) = .ok sampleTargetStored ∧
      HandedBackMap sampleTargetStored sampleTargetZeroFilled := by
  refine ⟨rfl, ?_, ?_⟩
  · simp [HandedBackEntries, HandedBack, HandedBackMaps, sampleTargetStored,
      sampleTargetZeroFilled, GoMap.get]
    refine ⟨_, _, ⟨rfl, rfl⟩, ⟨rfl, rfl, rfl⟩, ?_, _, _, rfl, rfl, ?_, rfl⟩
    all_goals
      apply zeroElsewhere_of_entries
      simp [GoMap.get, zeroRead, listKeys]
  · apply zeroElsewhere_of_entries
    simp [sampleTargetStored, sampleTargetZeroFilled, GoMap.get, zeroRead, listKeys]

/-- C12, amended, at a target with a display name and two attributes, decoded
from the zero-filled map. -/
theorem resource_target_roundtrip_witness :
    ∃ t1, resourceIbmSccRuleMapToTarget sampleTargetZeroFilled = .ok t1 ∧
      t1.ServiceName = sampleTarget.ServiceName ∧
      t1.ServiceDisplayName = sampleTarget.ServiceDisplayName ∧
      t1.ResourceKind = sampleTarget.ResourceKind ∧ t1.ReferenceName = none ∧
      SameAttributes sampleTarget.AdditionalTargetAttributes t1.AdditionalTargetAttributes ∧
      (∀ items, sampleTarget.AdditionalTargetAttributes = some items →
        t1.AdditionalTargetAttributes = some items) := by
  obtain ⟨stored, hs, -, h⟩ := resource_target_roundtrip sampleTarget (by
    simp [sampleTarget, Target.WellFormed, AdditionalTargetAttribute.NonEmptyFields])
  rw [sampleTargetStored_handedBack.1] at hs
  cases hs
  exact h _ sampleTargetStored_handedBack.2


/-! ## The `any_if` sub-rule -/

/-- The shared target codec, on a target with service name and resource kind and
no additional attributes: from what the framework may hand back, service name
and resource kind return, a display name or reference name returns unless it is
empty, and the attributes return absent or empty. -/
theorem target_handedBack (serviceName resourceKind : String)
    (display reference : Option String) :
    ∃ stored, ibmSccRuleTargetToMap
        (some ⟨some serviceName, display, some resourceKind, none, reference⟩) = .ok stored ∧
      ∀ got, HandedBackMap stored got →
        ∃ t1, ibmSccTargetMapToTarget got = .ok t1 ∧
          t1.ServiceName = some serviceName ∧ t1.ResourceKind = some resourceKind ∧
          (display ≠ some "" → t1.ServiceDisplayName = display) ∧
          (display = some "" → t1.ServiceDisplayName = none) ∧
          (reference ≠ some "" → t1.ReferenceName = reference) ∧
          (reference = some "" → t1.ReferenceName = none) ∧
          SameAttributes none t1.AdditionalTargetAttributes := by
  obtain ⟨M, hM⟩ : ∃ M, M = GoMap.setOpt (GoMap.setOpt (GoMap.set
      (GoMap.set [] "service_name" (.strPtr (some serviceName)))
      "resource_kind" (.strPtr (some resourceKind)))
      "reference_name" (reference.map fun s => GoVal.strPtr (some s)))
      "service_display_name" (display.map fun s => GoVal.strPtr (some s)) := ⟨_, rfl⟩
  have hset : ∀ (m : GoMap) key v, GoMap.set m key v = GoMap.setOpt m key (some v) :=
    fun _ _ _ => rfl
  have hg1 : GoMap.get M "service_name" = .strPtr (some serviceName) := by
    rw [hM]; simp [hset, GoMap.get_setOpt, GoMap.get]
  have hg2 : GoMap.get M "service_display_name"
      = (display.map fun s => GoVal.strPtr (some s)).getD .nil := by
    rw [hM]; simp [hset, GoMap.get_setOpt, GoMap.get]
  have hg3 : GoMap.get M "resource_kind" = .strPtr (some resourceKind) := by
    rw [hM]; simp [hset, GoMap.get_setOpt, GoMap.get]
  have hg4 : GoMap.get M "reference_name"
      = (reference.map fun s => GoVal.strPtr (some s)).getD .nil := by
    rw [hM]; simp [hset, GoMap.get_setOpt, GoMap.get]
  have hg5 : GoMap.get M "additional_target_attributes" = .nil := by
    rw [hM]; simp [hset, GoMap.get_setOpt, GoMap.get]
  refine ⟨M, ?_, ?_⟩
  · rw [hM]
    cases reference <;> cases display <;> rfl
  · intro got hgot
    have hs1 := handedBack_get_str hgot (Or.inr hg1)
    have hs3 := handedBack_get_str hgot (Or.inr hg3)
    obtain ⟨r2, hr2, hn2, he2⟩ := nonEmptyStringEntry_handedBack hgot (by decide) hg2
    obtain ⟨r4, hr4, hn4, he4⟩ := nonEmptyStringEntry_handedBack hgot (by decide) hg4
    obtain ⟨a1, ha1, ha2⟩ := attributesBlock_handedBack none hgot
      (fun items hi => by cases hi) (fun _ => hg5)
    exact ⟨⟨some serviceName, r2, some resourceKind, a1, r4⟩,
      by simp [ibmSccTargetMapToTarget, hs1, hs3, GoVal.asString, hr2, hr4, ha1],
      rfl, rfl, hn2, he2, hn4, he4, ha2⟩

/-- The value block of the decoder returns (a value or none) whenever the
encoder stored a scalar string or nothing. -/
theorem valueFromMapEntry_handedBack_string {stored got : GoMap} {value : Option String}
    (h : HandedBackMap stored got)
    (hget : GoMap.get stored "value" = (value.map GoVal.str).getD .nil) :
    ∃ v, valueFromMapEntry got = .ok v := by
  cases value with
  | none =>
    simp only [Option.map_none', Option.getD_none] at hget
    rcases zeroRead_of_stringKey (by decide) (h.2 "value" hget) with hz | hz
    · exact ⟨none, by simp [valueFromMapEntry, hz, GoVal.notNil]⟩
    · exact ⟨none, by simp [valueFromMapEntry, hz, GoVal.notNil, GoVal.asString]⟩
  | some s =>
    simp only [Option.map_some', Option.getD_some] at hget
    have hb := handedBack_get_str h (Or.inl hget)
    by_cases hs : s.length > 0
    · exact ⟨some (valueFromString s),
        by simp [valueFromMapEntry, hb, GoVal.notNil, GoVal.asString, hs]⟩
    · exact ⟨none, by simp [valueFromMapEntry, hb, GoVal.notNil, GoVal.asString, hs]⟩

/-- The `any_if` block of the decoder, on what the framework may hand back for
the one-element slice the encoder stored: it reads the handed-back target map
and the handed-back required-config map, each from the first element of its
list. -/
theorem anyIfBlock_handedBack {targetStored configStored : GoMap} {got : GoVal}
    (hgot : HandedBack (.maps [GoMap.set (GoMap.set [] "target" (.list [.map targetStored]))
      "required_config" (.list [.map configStored])]) got) :
    ∃ gt gc, HandedBackMap targetStored gt ∧ HandedBackMap configStored gc ∧
      ∀ t1 q, ibmSccTargetMapToTarget gt = .ok t1 →
        ibmSccRCMapToRequiredConfig gc = .ok (.base q) →
        anyIfBlock got = .ok (some (.mk (some t1) q)) := by
  simp only [HandedBack, HandedBackMaps] at hgot
  obtain ⟨gs, hgs, gsr, rest, hgs1, he, -, hrest⟩ := hgot
  subst hrest hgs1 hgs
  have hset : ∀ (m : GoMap) key v, GoMap.set m key v = GoMap.setOpt m key (some v) :=
    fun _ _ _ => rfl
  have ht : ∃ gt, GoMap.get gsr "target" = .list [.map gt] ∧ HandedBackMap targetStored gt := by
    rcases handedBackEntries_get he "target" with hn | hb
    · simp [hset, GoMap.get_setOpt, GoMap.get] at hn
    · have hst : GoMap.get (GoMap.set (GoMap.set [] "target" (.list [.map targetStored]))
          "required_config" (.list [.map configStored])) "target"
          = .list [.map targetStored] := by
        simp [hset, GoMap.get_setOpt, GoMap.get]
      rw [hst] at hb
      simp only [HandedBack, HandedBackList] at hb
      obtain ⟨gs1, hgs1, g, rest1, hg, ⟨gt, hgt, h1, h2⟩, hrest1⟩ := hb
      subst hrest1 hg hgt
      exact ⟨gt, hgs1, h1, h2⟩
  have hc : ∃ gc, GoMap.get gsr "required_config" = .list [.map gc] ∧
      HandedBackMap configStored gc := by
    rcases handedBackEntries_get he "required_config" with hn | hb
    · simp [hset, GoMap.get_setOpt, GoMap.get] at hn
    · have hst : GoMap.get (GoMap.set (GoMap.set [] "target" (.list [.map targetStored]))
          "required_config" (.list [.map configStored])) "required_config"
          = .list [.map configStored] := by
        simp [hset, GoMap.get_setOpt, GoMap.get]
      rw [hst] at hb
      simp only [HandedBack, HandedBackList] at hb
      obtain ⟨gs1, hgs1, g, rest1, hg, ⟨gc, hgc, h1, h2⟩, hrest1⟩ := hb
      subst hrest1 hg hgc
      exact ⟨gc, hgs1, h1, h2⟩
  obtain ⟨gt, hgt1, hgt2⟩ := ht
  obtain ⟨gc, hgc1, hgc2⟩ := hc
  refine ⟨gt, gc, hgt2, hgc2, ?_⟩
  intro t1 q htarget hconfig
  simp [anyIfBlock, subRuleFromListEntries, hgt1, hgc1, GoVal.asList, firstElem, GoVal.asMap,
    htarget, requiredConfigFromListEntry, hconfig, RequiredConfigIntf.asRequiredConfig]

/-- A node with an `AnyIf` sub-rule and without `Any`, `All` and `AllIf`, whose
`And` and `Or` children are trees of plain nodes, whose own value is absent or
a scalar string, whose sub-rule target has service name and resource kind and
no additional attributes, and whose sub-rule required config is a tree of plain
nodes: encoding succeeds and stores a sequence of maps under `any_if`, and from
every map the framework may hand back the decoder returns a node whose `AnyIf`
holds the decoded target and the decoded required config. -/
theorem anyIf_handedBack (description property operator value : Option String)
    (or and : Option (List RequiredConfigIntf))
    (hor1 : RequiredConfig.AllNodesChildren RequiredConfig.NoSubRules or)
    (hor2 : RequiredConfig.AllNodesChildren RequiredConfig.PlainFields or)
    (hand1 : RequiredConfig.AllNodesChildren RequiredConfig.NoSubRules and)
    (hand2 : RequiredConfig.AllNodesChildren RequiredConfig.PlainFields and)
    (serviceName resourceKind : String) (display reference : Option String)
    (requiredConfig : Option RequiredConfig)
    (hshape : RequiredConfig.AllNodesPtr RequiredConfig.NoSubRules requiredConfig)
    (hfields : RequiredConfig.AllNodesPtr RequiredConfig.PlainFields requiredConfig) :
    ∃ stored, ibmSccRuleRequiredConfigToMap (.base (some (.mk description or and none
        (some (.mk (some ⟨some serviceName, display, some resourceKind, none, reference⟩)
          requiredConfig))
        none none property operator (value.map .str)))) = .ok stored ∧
      (∃ entry, GoMap.get stored "any_if" = .maps entry) ∧
      ∀ got, HandedBackMap stored got →
        ∃ rc t1 q, ibmSccRCMapToRequiredConfig got = .ok (.base (some rc)) ∧
          rc.AnyIf = some (.mk (some t1) q) ∧
          t1.ServiceName = some serviceName ∧ t1.ResourceKind = some resourceKind ∧
          (display ≠ some "" → t1.ServiceDisplayName = display) ∧
          (display = some "" → t1.ServiceDisplayName = none) ∧
          (reference ≠ some "" → t1.ReferenceName = reference) ∧
          (reference = some "" → t1.ReferenceName = none) ∧
          SameAttributes none t1.AdditionalTargetAttributes ∧
          RequiredConfig.SameUpToEmptyPtr requiredConfig q := by
  obtain ⟨ts, hts1, hts2⟩ := target_handedBack serviceName resourceKind display reference
  obtain ⟨cs, hcs1, hcs2⟩ := handedBack_ptr _ _ (fun _ h => h) (fun _ h => h) requiredConfig
    hshape hfields
  obtain ⟨ea, hea1, hea2⟩ := handedBack_children _ _ (fun _ h => h) (fun _ h => h) and
    hand1 hand2
  obtain ⟨eo, heo1, heo2⟩ := handedBack_children _ _ (fun _ h => h) (fun _ h => h) or
    hor1 hor2
  obtain ⟨M, hM⟩ : ∃ M, M = valueBlock (setStringPtr (setStringPtr (GoMap.set (GoMap.setOpt
      (GoMap.setOpt (setStringPtr [] "description" description) "and" (ea.map .maps)) "or"
      (eo.map .maps)) "any_if" (.maps [GoMap.set (GoMap.set [] "target" (.list [.map ts]))
        "required_config" (.list [.map cs])])) "property" property) "operator" operator)
      (value.map .str) := ⟨_, rfl⟩
  have hset : ∀ (m : GoMap) key v, GoMap.set m key v = GoMap.setOpt m key (some v) :=
    fun _ _ _ => rfl
  have hsd : GoMap.get M "description"
      = (description.map fun s => GoVal.strPtr (some s)).getD .nil := by
    rw [hM]; simp [valueBlock_eq, setStringPtr_eq, hset, GoMap.get_setOpt, GoMap.get]
  have hsp : GoMap.get M "property"
      = (property.map fun s => GoVal.strPtr (some s)).getD .nil := by
    rw [hM]; simp [valueBlock_eq, setStringPtr_eq, hset, GoMap.get_setOpt, GoMap.get]
  have hso : GoMap.get M "operator"
      = (operator.map fun s => GoVal.strPtr (some s)).getD .nil := by
    rw [hM]; simp [valueBlock_eq, setStringPtr_eq, hset, GoMap.get_setOpt, GoMap.get]
  have hsv : GoMap.get M "value" = (value.map GoVal.str).getD .nil := by
    rw [hM]
    cases value <;>
      simp [valueBlock_eq, setStringPtr_eq, hset, GoMap.get_setOpt, GoMap.get, valueToMapEntry,
        RcValue.toGo]
  have hsor : GoMap.get M "or" = (eo.map GoVal.maps).getD .nil := by
    rw [hM]; simp [valueBlock_eq, setStringPtr_eq, hset, GoMap.get_setOpt, GoMap.get]
  have hsand : GoMap.get M "and" = (ea.map GoVal.maps).getD .nil := by
    rw [hM]; simp [valueBlock_eq, setStringPtr_eq, hset, GoMap.get_setOpt, GoMap.get]
  have hsif : GoMap.get M "any_if" = .maps [GoMap.set (GoMap.set [] "target" (.list [.map ts]))
      "required_config" (.list [.map cs])] := by
    rw [hM]; simp [valueBlock_eq, setStringPtr_eq, hset, GoMap.get_setOpt, GoMap.get]
  have hnil : ∀ key, key = "any" ∨ key = "all" ∨ key = "all_if" →
      GoMap.get M key = .nil := by
    intro key hkey
    rw [hM]
    rcases hkey with rfl | rfl | rfl <;>
      simp [valueBlock_eq, setStringPtr_eq, hset, GoMap.get_setOpt, GoMap.get]
  refine ⟨M, ?_, ⟨_, hsif⟩, ?_⟩
  · rw [hM]
    simp [ibmSccRuleRequiredConfigToMap, requiredConfigPtrToMap, hea1, heo1, subRuleBlock,
      subRuleToMap, hts1, hcs1, hset]
  · intro got hgot
    obtain ⟨rd, hrd, -, -⟩ := nonEmptyStringEntry_handedBack hgot (by decide) hsd
    obtain ⟨rp, hrp, -, -⟩ := nonEmptyStringEntry_handedBack hgot (by decide) hsp
    obtain ⟨ro, hro, -, -⟩ := nonEmptyStringEntry_handedBack hgot (by decide) hso
    obtain ⟨rv, hrv⟩ := valueFromMapEntry_handedBack_string hgot hsv
    have hchild : ∀ (key : String) (e : Option (List GoMap)), key ∈ listKeys →
        GoMap.get M key = (e.map GoVal.maps).getD .nil →
        (e = none ∧ (GoMap.get got key = .nil ∨ GoMap.get got key = .list [])) ∨
        (∃ ms, e = some ms ∧ HandedBack (.maps ms) (GoMap.get got key)) := by
      intro key e hkey hget
      cases e with
      | none =>
        simp only [Option.map_none', Option.getD_none] at hget
        exact Or.inl ⟨rfl, zeroRead_of_listKey hkey (hgot.2 key hget)⟩
      | some ms =>
        simp only [Option.map_some', Option.getD_some] at hget
        rcases handedBackEntries_get hgot.1 key with hn | hb
        · rw [hget] at hn
          cases hn
        · rw [hget] at hb
          exact Or.inr ⟨ms, rfl, hb⟩
    obtain ⟨or1, hor3, -⟩ := heo2 _ (hchild "or" eo (by decide) hsor)
    obtain ⟨and1, hand3, -⟩ := hea2 _ (hchild "and" ea (by decide) hsand)
    have hz : ∀ key, key = "any" ∨ key = "all" ∨ key = "all_if" →
        GoMap.get got key = .nil ∨ GoMap.get got key = .list [] := by
      intro key hkey
      have hk : key ∈ listKeys := by
        rcases hkey with rfl | rfl | rfl <;> decide
      exact zeroRead_of_listKey hk (hgot.2 key (hnil key hkey))
    have hb1 := (subRuleBlocks_of_zero (hz "any" (by simp)) none).1
    have hb3 := (subRuleBlocks_of_zero (hz "all" (by simp)) none).2.2
    have hb4 := (subRuleBlocks_of_zero (hz "all_if" (by simp)) none).2.2
    have hif : HandedBack (.maps [GoMap.set (GoMap.set [] "target" (.list [.map ts]))
        "required_config" (.list [.map cs])]) (GoMap.get got "any_if") := by
      rcases handedBackEntries_get hgot.1 "any_if" with hn | hb
      · rw [hsif] at hn
        cases hn
      · rw [hsif] at hb
        exact hb
    obtain ⟨gt, gc, hgt, hgc, hblock⟩ := anyIfBlock_handedBack hif
    obtain ⟨t1, ht1, ht2, ht3, ht4, ht5, ht6, ht7, ht8⟩ := hts2 gt hgt
    obtain ⟨q, hq1, hq2⟩ := hcs2 gc hgc
    have hb2 := hblock t1 q ht1 hq1
    refine ⟨.mk rd or1 and1 none (some (.mk (some t1) q)) none none rp ro rv, t1, q, ?_, rfl,
      ht2, ht3, ht4, ht5, ht6, ht7, ht8, hq2⟩
    rw [ibmSccRCMapToRequiredConfig]
    simp only [hrd, hor3, hand3, hb1, hb2, Outcome.ok_bind, hb3, hb4, hrp, hro, hrv,
      Outcome.pure_def]

/-- The zero-filled sub-rule map is a way the framework may hand back the
sub-rule map stored for the sample sub-rule, and for the same sub-rule with a
present, empty display name. -/
theorem subRuleStored_handedBack :
    HandedBack (.maps [subRuleStored]) (.list [.map subRuleZeroFilled]) ∧
    HandedBack (.maps [[("target", .list [.map [("service_name", .strPtr (some "s")),
        ("resource_kind", .strPtr (some "k")), ("service_display_name", .strPtr (some ""))]]),
      ("required_config", .list [.map subRuleLeafStored])]])
      (.list [.map subRuleZeroFilled]) := by
  constructor
  · simp [HandedBackEntries, HandedBack, HandedBackMaps, HandedBackList,
      subRuleZeroFilled, subRuleStored, subRuleTargetStored, subRuleLeafStored, zeroFilledNode,
      GoMap.get]
    refine ⟨_, _, ⟨rfl, rfl⟩, ⟨⟨_, rfl, _, rfl, _, rfl, ⟨rfl, rfl⟩, ?_⟩,
      ⟨_, rfl, _, rfl, _, rfl, ⟨rfl, rfl, rfl⟩, ?_⟩⟩, ?_, rfl⟩
    all_goals
      apply zeroElsewhere_of_entries
      simp [GoMap.get, zeroRead, listKeys]
  · simp [HandedBackEntries, HandedBack, HandedBackMaps, HandedBackList,
      subRuleZeroFilled, subRuleLeafStored, zeroFilledNode, GoMap.get]
    refine ⟨_, _, ⟨rfl, rfl⟩, ⟨⟨_, rfl, _, rfl, _, rfl, ⟨rfl, rfl, rfl⟩, ?_⟩,
      ⟨_, rfl, _, rfl, _, rfl, ⟨rfl, rfl, rfl⟩, ?_⟩⟩, ?_, rfl⟩
    all_goals
      apply zeroElsewhere_of_entries
      simp [GoMap.get, zeroRead, listKeys]

/-- C3, as stated, fails. Read literally, the composition drops the sub-rule:
the encoder stores a `[]map[string]interface{}` under `any_if`, the decoder
asserts `.([]interface{})` with the comma-ok form, skips the block and returns a
node whose `AnyIf` is unset. Through the framework: a node that also has an
`Any` sub-rule is in the stated domain, and from every map the framework may
hand back the decoder ends in a runtime fault (its `any` block asserts the
list-wrapped `target` to be a map); and a target whose display name is present
and empty returns with the display name unset. -/
theorem anyIf_roundtrip_fails_as_stated :
    (ibmSccRuleRequiredConfigToMap anyIfNode = .ok [("any_if", .maps [subRuleStored])] ∧
      ibmSccRCMapToRequiredConfig [("any_if", .maps [subRuleStored])]
        = .ok (.base (some (.mk none none none none none none none none none none)))) ∧
    (∃ stored, ibmSccRuleRequiredConfigToMap anyAndAnyIfNode = .ok stored ∧
      HandedBackMap stored (zeroFilledRule [.map subRuleZeroFilled] [.map subRuleZeroFilled]) ∧
      ∀ got, HandedBackMap stored got → ibmSccRCMapToRequiredConfig got = .fault) ∧
    (∃ stored, ibmSccRuleRequiredConfigToMap emptyDisplayAnyIfNode = .ok stored ∧
      HandedBackMap stored (zeroFilledRule [] [.map subRuleZeroFilled]) ∧
      ∀ got, HandedBackMap stored got →
        ∃ rc t1 q, ibmSccRCMapToRequiredConfig got = .ok (.base (some rc)) ∧
          rc.AnyIf = some (.mk (some t1) q) ∧ t1.ServiceDisplayName = none) := by
  refine ⟨⟨rfl, ?_⟩, ?_, ?_⟩
  · rw [ibmSccRCMapToRequiredConfig]
    simp [GoMap.get, requiredConfigListBlock, anyBlock, anyIfBlock, allBlock,
      nonEmptyStringEntry, valueFromMapEntry, GoVal.notNil]
  · refine ⟨[("any", .maps [subRuleStored]), ("any_if", .maps [subRuleStored])], rfl, ⟨?_, ?_⟩,
      ?_⟩
    · simp only [HandedBackEntries, and_true]
      exact ⟨subRuleStored_handedBack.1, subRuleStored_handedBack.1⟩
    · apply zeroElsewhere_of_entries
      simp [zeroFilledRule, GoMap.get, zeroRead, listKeys]
    · intro got hgot
      obtain ⟨rd, hrd, -, -⟩ := @nonEmptyStringEntry_handedBack _ got "description" none hgot
        (by decide) rfl
      obtain ⟨or1, hor, -⟩ := listBlock_of_zero
        (zeroRead_of_listKey (by decide) (hgot.2 "or" rfl))
      obtain ⟨and1, hand, -⟩ := listBlock_of_zero
        (zeroRead_of_listKey (by decide) (hgot.2 "and" rfl))
      have hany : anyBlock (GoMap.get got "any") = .fault := by
        rcases handedBackEntries_get hgot.1 "any" with hn | hb
        · cases hn
        · have hst : GoMap.get [("any", GoVal.maps [subRuleStored]),
              ("any_if", GoVal.maps [subRuleStored])] "any" = .maps [subRuleStored] := rfl
          rw [hst] at hb
          simp only [HandedBack, HandedBackMaps] at hb
          obtain ⟨gs, hgs, gsr, rest, hgs1, he, -, hrest⟩ := hb
          subst hrest hgs1
          rcases handedBackEntries_get he "target" with hn | hb
          · cases hn
          · have hst1 : GoMap.get subRuleStored "target" = .list [.map subRuleTargetStored] :=
              rfl
            rw [hst1] at hb
            simp only [HandedBack] at hb
            obtain ⟨gs1, hgs1, -⟩ := hb
            simp [hgs, anyBlock, subRuleFromMapEntries, hgs1, GoVal.asMap]
      rw [ibmSccRCMapToRequiredConfig]
      simp only [hrd, hor, hand, hany, Outcome.ok_bind]
      rfl
  · obtain ⟨stored, hs, -, h⟩ := anyIf_handedBack none none none none none none
      (by simp [RequiredConfig.AllNodesChildren]) (by simp [RequiredConfig.AllNodesChildren])
      (by simp [RequiredConfig.AllNodesChildren]) (by simp [RequiredConfig.AllNodesChildren])
      "s" "k" (some "") none (some subRuleLeaf)
      (by simp [subRuleLeaf, RequiredConfig.AllNodesPtr, RequiredConfig.AllNodesChildren,
        RequiredConfig.NoSubRules, RequiredConfig.Any, RequiredConfig.AnyIf, RequiredConfig.All,
        RequiredConfig.AllIf])
      (by simp [subRuleLeaf, RequiredConfig.AllNodesPtr, RequiredConfig.AllNodesChildren,
        RequiredConfig.PlainFields, RequiredConfig.Description, RequiredConfig.Property,
        RequiredConfig.Operator, RequiredConfig.Value])
    have hstored : ibmSccRuleRequiredConfigToMap emptyDisplayAnyIfNode
        = .ok [("any_if", .maps [[("target", .list [.map [("service_name", .strPtr (some "s")),
            ("resource_kind", .strPtr (some "k")),
            ("service_display_name", .strPtr (some ""))]]),
          ("required_config", .list [.map subRuleLeafStored])]])] := rfl
    refine ⟨_, hstored, ⟨?_, ?_⟩, ?_⟩
    · simp only [HandedBackEntries, and_true]
      exact subRuleStored_handedBack.2
    · apply zeroElsewhere_of_entries
      simp [zeroFilledRule, GoMap.get, zeroRead, listKeys]
    · have hs1 : ibmSccRuleRequiredConfigToMap emptyDisplayAnyIfNode = .ok stored := hs
      rw [hstored] at hs1
      cases hs1
      intro got hgot
      obtain ⟨rc, t1, q, h1, h2, -, -, -, h3, -⟩ := h got hgot
      exact ⟨rc, t1, q, h1, h2, h3 rfl⟩

/-- C3, amended: for every node without `Any`, `All` and `AllIf` whose `And` and
`Or` children are trees of `And`/`Or`/leaf nodes with plain fields, whose own
value is absent or a scalar string, and whose `AnyIf` sub-rule has a target with
service name and resource kind, no additional attributes and a display name and
a reference name that are absent or non-empty, and a required config that is a
leaf (or a tree of `And`/`Or`/leaf nodes) with non-empty comma-free fields:
encoding succeeds; the decoder given the encoded map itself never returns the
sub-rule; and from every map by which the framework may hand the encoded map
back the decoder returns a node whose `AnyIf` holds the same target and the same
required config, up to slices that are nil in the node and empty in the result. -/
theorem anyIf_roundtrip (description property operator value : Option String)
    (or and : Option (List RequiredConfigIntf))
    (hor1 : RequiredConfig.AllNodesChildren RequiredConfig.NoSubRules or)
    (hor2 : RequiredConfig.AllNodesChildren RequiredConfig.PlainFields or)
    (hand1 : RequiredConfig.AllNodesChildren RequiredConfig.NoSubRules and)
    (hand2 : RequiredConfig.AllNodesChildren RequiredConfig.PlainFields and)
    (serviceName resourceKind : String) (display reference : Option String)
    (hdisplay : display ≠ some "") (hreference : reference ≠ some "")
    (requiredConfig : Option RequiredConfig)
    (hshape : RequiredConfig.AllNodesPtr RequiredConfig.NoSubRules requiredConfig)
    (hfields : RequiredConfig.AllNodesPtr RequiredConfig.PlainFields requiredConfig) :
    ∃ stored, ibmSccRuleRequiredConfigToMap (.base (some (.mk description or and none
        (some (.mk (some ⟨some serviceName, display, some resourceKind, none, reference⟩)
          requiredConfig))
        none none property operator (value.map .str)))) = .ok stored ∧
      (∀ decoded, ibmSccRCMapToRequiredConfig stored = .ok decoded →
        ∃ rc, decoded = .base (some rc) ∧ rc.AnyIf = none) ∧
      ∀ got, HandedBackMap stored got →
        ∃ rc, ibmSccRCMapToRequiredConfig got = .ok (.base (some rc)) ∧
          RequiredConfig.SameSubRule
            (some (.mk (some ⟨some serviceName, display, some resourceKind, none, reference⟩)
              requiredConfig))
            rc.AnyIf := by
  obtain ⟨stored, hs, ⟨entry, hentry⟩, h⟩ := anyIf_handedBack description property operator
    value or and hor1 hor2 hand1 hand2 serviceName resourceKind display reference
    requiredConfig hshape hfields
  refine ⟨stored, hs, ?_, ?_⟩
  · intro decoded hdec
    obtain ⟨d, o, a, any0, anyIf, any1, any, p, op, v, -, -, -, -, hif, -, -, -, -, -, hrc⟩ :=
      ibmSccRCMapToRequiredConfig_ok hdec
    rw [hentry] at hif
    simp [anyIfBlock] at hif
    subst hif
    exact ⟨_, hrc, rfl⟩
  · intro got hgot
    obtain ⟨rc, t1, q, h1, h2, h3, h4, h5, -, h6, -, h7, h8⟩ := h got hgot
    refine ⟨rc, h1, ?_⟩
    rw [h2]
    simp only [RequiredConfig.SameSubRule, Target.SameUpToEmpty]
    exact ⟨⟨h3.symm, (h5 hdisplay).symm, h4.symm, (h6 hreference).symm, h7⟩, h8⟩

/-- C3, amended, at a node whose only field is the sample `AnyIf` sub-rule,
decoded from the zero-filled map the framework hands back. -/
theorem anyIf_roundtrip_witness :
    ∃ rc, ibmSccRCMapToRequiredConfig (zeroFilledRule [] [.map subRuleZeroFilled])
        = .ok (.base (some rc)) ∧
      RequiredConfig.SameSubRule (some (.mk (some subRuleTarget) (some subRuleLeaf)))
        rc.AnyIf := by
  obtain ⟨stored, hs, -, h⟩ := anyIf_roundtrip none none none none none none
    (by simp [RequiredConfig.AllNodesChildren]) (by simp [RequiredConfig.AllNodesChildren])
    (by simp [RequiredConfig.AllNodesChildren]) (by simp [RequiredConfig.AllNodesChildren])
    "s" "k" none none (by simp) (by simp) (some subRuleLeaf)
    (by simp [subRuleLeaf, RequiredConfig.AllNodesPtr, RequiredConfig.AllNodesChildren,
      RequiredConfig.NoSubRules, RequiredConfig.Any, RequiredConfig.AnyIf, RequiredConfig.All,
      RequiredConfig.AllIf])
    (by simp [subRuleLeaf, RequiredConfig.AllNodesPtr, RequiredConfig.AllNodesChildren,
      RequiredConfig.PlainFields, RequiredConfig.Description, RequiredConfig.Property,
      RequiredConfig.Operator, RequiredConfig.Value])
  have hs1 : ibmSccRuleRequiredConfigToMap anyIfNode = .ok stored := hs
  have hs2 : ibmSccRuleRequiredConfigToMap anyIfNode
      = .ok [("any_if", .maps [subRuleStored])] := rfl
  rw [hs2] at hs1
  cases hs1
  refine h _ ⟨?_, ?_⟩
  · simp only [HandedBackEntries, and_true]
    exact subRuleStored_handedBack.1
  · apply zeroElsewhere_of_entries
    simp [zeroFilledRule, GoMap.get, zeroRead, listKeys]

end Scc
